import Mathlib

/-!
# nginx-log-analyzer: parsers, time filter and aggregation handlers

A shallow embedding of `parser/parser.go`, `main.go` and `handler/*.go`.

* A Go `[]byte` or `string` is a `List Byte`.
* A call that can end the run is modelled by `Outcome`: it returns a value, calls
  `ioutil.Fatal` (the run is aborted), or hits a Go run-time panic.
* Go maps are association lists with unique keys; two maps are the same map when
  they agree on every key.
-/

set_option autoImplicit false

namespace NginxLogAnalyzer

/-! ## Bytes and outcomes -/

/-- One byte of a Go `[]byte` or `string`. -/
abbrev Byte := UInt8

/-- The bytes of an ASCII string literal. -/
def ascii (s : String) : List Byte := s.toList.map (fun c => c.toNat.toUInt8)

/-- How a call ends. `timeout` is an artefact of the fuel that bounds the loops of the
model; the theorems show that it is never produced. -/
inductive Outcome (α : Type) where
  | ok (a : α)
  | fatal
  | panic
  | timeout
  deriving DecidableEq, Repr

/-- Modelled from the spec: `ioutil.Fatal`, whose source is not among the files. It prints
its message and ends the process, so the run is aborted and nothing after the call is
executed. -/
abbrev Fatal {α : Type} : Outcome α := .fatal

/-- Go slice expression `s[lo:hi]`; `none` is the run-time panic for bounds out of range. -/
def slice (s : List Byte) (lo hi : Int) : Option (List Byte) :=
  if 0 ≤ lo ∧ lo ≤ hi ∧ hi ≤ (s.length : Int) then
    some ((s.drop lo.toNat).take (hi.toNat - lo.toNat))
  else none

/-! ## strconv.Atoi -/

/-- Bit size of Go's `int` on the 64-bit targets the tool is built for. -/
def intSize : Nat := 64

/-- Value of a run of ASCII digits, most significant first, on top of `acc`;
`none` when a byte is not in `'0'..'9'`. -/
def parseDigits : List Byte → Nat → Option Nat
  | [], acc => some acc
  | c :: cs, acc =>
    if 48 ≤ c.toNat ∧ c.toNat ≤ 57 then parseDigits cs (acc * 10 + (c.toNat - 48)) else none

/-- The value `v` when it fits Go's `int`, the range error otherwise. -/
def inIntRange (v : Int) : Option Int :=
  if -(2 : Int) ^ (intSize - 1) ≤ v ∧ v < (2 : Int) ^ (intSize - 1) then some v else none

/-- Go's `strconv.Atoi` (equivalent to `ParseInt(s, 10, 0)`): an optional sign, one or
more decimal digits, and a value that fits `int`; `none` stands for a non-nil error. -/
def Atoi : List Byte → Option Int
  | [] => none
  | c :: cs =>
    if c = 45 then
      if cs = [] then none else (parseDigits cs 0).bind (fun n => inIntRange (-(n : Int)))
    else if c = 43 then
      if cs = [] then none else (parseDigits cs 0).bind (fun n => inIntRange (n : Int))
    else (parseDigits (c :: cs) 0).bind (fun n => inIntRange (n : Int))

/-- Decimal digits of a natural number, most significant first (`fuel` bounds the number
of digits). -/
def natDigits : Nat → Nat → List Byte
  | 0, _ => []
  | fuel + 1, n =>
    if n < 10 then [(48 + n).toUInt8]
    else natDigits fuel (n / 10) ++ [(48 + n % 10).toUInt8]

/-- Go's `strconv.Itoa`: the decimal rendering of an integer. -/
def Itoa (v : Int) : List Byte :=
  if v < 0 then (45 : Byte) :: natDigits (v.natAbs + 1) v.natAbs
  else natDigits (v.natAbs + 1) v.natAbs

/-! ## The log record -/

/-- The float64 operations the parsers rely on, kept abstract: the zero value and
`strconv.ParseFloat(s, 64)` (`none` stands for a non-nil error). -/
structure Float64Ops (F : Type) where
  zero : F
  ParseFloat : List Byte → Option F

/-- Modelled from the spec: the record type `parser.LogInfo`, whose declaration is not
among the sources; the fields are those the parsers and handlers assign and read. -/
structure LogInfo (F : Type) where
  RemoteAddr : List Byte
  RemoteUser : List Byte
  TimeLocal : List Byte
  Method : List Byte
  Request : List Byte
  Protocol : List Byte
  Status : Int
  BodyBytesSent : Int
  HttpReferer : List Byte
  HttpUserAgent : List Byte
  RequestTime : F
  deriving DecidableEq

/-! ## CombinedParser -/

/-- The delimiters of `NewCombinedParser`. -/
def combinedDelimiters : List (List Byte) :=
  [ascii " - ", ascii " [", ascii "] \"", ascii "\" ", ascii " ", ascii " \"",
   ascii "\" \"", ascii "\"\n"]

/-- The local variables of the scan loop of `CombinedParser.ParseLog` (`vars` is the
slice the source calls variables). -/
structure ScanState where
  vars : List (List Byte)
  i : Nat
  j : Nat
  k : Nat
  deriving DecidableEq, Repr

/-- The scan loop of `CombinedParser.ParseLog`, one iteration per unit of fuel. It
returns the state in which the loop condition fails. -/
def scanLoop (delimiters : List (List Byte)) (line : List Byte) :
    Nat → ScanState → Outcome ScanState
  | 0, _ => .timeout
  | fuel + 1, st =>
    match delimiters.get? st.k with
    | none => .ok st
    | some d =>
      if (st.j : Int) ≤ (line.length : Int) - (d.length : Int) then
        match slice line st.j (st.j + d.length) with
        | none => .panic
        | some w =>
          if w = d then
            match slice line st.i st.j with
            | none => .panic
            | some v =>
              scanLoop delimiters line fuel
                { vars := st.vars ++ [v], i := st.j + d.length,
                  j := st.j + d.length, k := st.k + 1 }
          else
            scanLoop delimiters line fuel { st with j := st.j + 1 }
      else .ok st

/-- The part of `CombinedParser.ParseLog` after the loop. -/
def combinedRecord {F : Type} (fl : Float64Ops F) (nDelims : Nat) (st : ScanState) :
    Outcome (LogInfo F) :=
  if st.k ≠ nDelims then Fatal
  else
    match st.vars.get? 4 with
    | none => .panic
    | some v4 =>
      match Atoi v4 with
      | none => Fatal
      | some status =>
        match st.vars.get? 5 with
        | none => .panic
        | some v5 =>
          match Atoi v5 with
          | none => Fatal
          | some bodyBytesSent =>
            match st.vars.get? 0, st.vars.get? 1, st.vars.get? 2,
                  st.vars.get? 3, st.vars.get? 6, st.vars.get? 7 with
            | some v0, some v1, some v2, some v3, some v6, some v7 =>
              .ok { RemoteAddr := v0, RemoteUser := v1, TimeLocal := v2, Method := [],
                    Request := v3, Protocol := [], Status := status,
                    BodyBytesSent := bodyBytesSent, HttpReferer := v6,
                    HttpUserAgent := v7, RequestTime := fl.zero }
            | _, _, _, _, _, _ => .panic

/-- `CombinedParser.ParseLog` for a parser with the given delimiters. Every iteration
of the loop advances `j` or `k`, so `line.length + delimiters.length + 1` iterations
are enough. -/
def CombinedParser.ParseLogWith {F : Type} (fl : Float64Ops F)
    (delimiters : List (List Byte)) (line : List Byte) : Outcome (LogInfo F) :=
  match scanLoop delimiters line (line.length + delimiters.length + 1)
      { vars := [], i := 0, j := 0, k := 0 } with
  | .ok st => combinedRecord fl delimiters.length st
  | .fatal => .fatal
  | .panic => .panic
  | .timeout => .timeout

/-- `NewCombinedParser().ParseLog(line)`. -/
def CombinedParser.ParseLog {F : Type} (fl : Float64Ops F) (line : List Byte) :
    Outcome (LogInfo F) :=
  CombinedParser.ParseLogWith fl combinedDelimiters line

/-! ### The delimiter grammar, stated without indexes -/

/-- Delimiter `d` occurs in `s` at offset `p`. -/
def OccursAt (d s : List Byte) (p : Nat) : Prop := (s.drop p).take d.length = d

instance (d s : List Byte) (p : Nat) : Decidable (OccursAt d s p) := by
  unfold OccursAt; infer_instance

/-- The field `f` followed by its delimiter `d` contains `d` nowhere but at its end. -/
def OnlyAtEnd (f d : List Byte) : Prop := ∀ p, p < f.length → ¬ OccursAt d (f ++ d) p

instance (f d : List Byte) : Decidable (OnlyAtEnd f d) := by
  unfold OnlyAtEnd; infer_instance

/-- Leftmost occurrence of `d` in `s`: the text before it and the text after it. -/
def findFirst (d : List Byte) : List Byte → Option (List Byte × List Byte)
  | [] => if d = [] then some ([], []) else none
  | c :: cs =>
    if (c :: cs).take d.length = d then some ([], (c :: cs).drop d.length)
    else (findFirst d cs).map (fun r => (c :: r.1, r.2))

/-- A left-to-right scan that matches the delimiters in order, each at its leftmost
occurrence after the previous one, and captures the text in between; `none` when the
line ends before all of them are matched. -/
def splitFields : List (List Byte) → List Byte → Option (List (List Byte))
  | [], _ => some []
  | d :: ds, s =>
    match findFirst d s with
    | none => none
    | some (f, rest) => (splitFields ds rest).map (fun fs => f :: fs)

/-- Value of a run of decimal digits. -/
def decimalValue (digits : List Byte) : Nat :=
  digits.foldl (fun acc b => acc * 10 + (b.toNat - 48)) 0

/-- The text `s` is a decimal integer of value `v` that Go's `int` can hold: an optional
sign, then one or more digits `0`-`9`. -/
def IsDecimalInt (s : List Byte) (v : Int) : Prop :=
  ∃ digits : List Byte, digits ≠ [] ∧ (∀ b ∈ digits, 48 ≤ b.toNat ∧ b.toNat ≤ 57) ∧
    (((s = digits ∨ s = 43 :: digits) ∧ v = (decimalValue digits : Int)) ∨
      (s = 45 :: digits ∧ v = -(decimalValue digits : Int))) ∧
    -(2 : Int) ^ 63 ≤ v ∧ v < (2 : Int) ^ 63

/-- The sample line `combinedLog` of `parser_test.go`. -/
def combinedLog : List Byte :=
  ascii "103.131.71.189 - - [31/Oct/2023:19:07:45 +0700] \"GET /robots.txt HTTP/1.1\" 200 182 \"-\" \"Mozilla/5.0 (compatible; coccocbot-web/1.0; +http://help.coccoc.com/searchengine)\"\n"

/-! ## Regular expressions (the part of Go's `regexp` the three patterns use)

Go's `regexp` returns the leftmost match and, among the matches that start there, the one
a backtracking search finds first; the functions below are that search. The patterns are
run on bytes: every bracket expression in them is a set of ASCII bytes or the complement
of one, so a multi-byte rune is matched byte by byte with the same result. -/

/-- A member of a bracket expression. -/
inductive ClassItem where
  | byte (b : Byte)
  | range (lo hi : Byte)
  deriving DecidableEq, Repr

/-- The byte `b` is the item, or lies in its range. -/
def ClassItem.contains : ClassItem → Byte → Bool
  | .byte c, b => b == c
  | .range lo hi, b => decide (lo.toNat ≤ b.toNat) && decide (b.toNat ≤ hi.toNat)

/-- A bracket expression `[...]` or `[^...]`. -/
structure CharClass where
  negated : Bool
  items : List ClassItem
  deriving DecidableEq, Repr

/-- The class matches the byte `b`. -/
def CharClass.accepts (c : CharClass) (b : Byte) : Bool :=
  if c.negated then !(c.items.any (fun i => i.contains b)) else c.items.any (fun i => i.contains b)

/-- Regular expressions: `^`, a literal byte, a class, `c*` (greedy) or `c*?` (lazy) on a
class, a capture group, and concatenation. -/
inductive Re where
  | bol
  | lit (b : Byte)
  | cls (c : CharClass)
  | star (c : CharClass) (greedy : Bool)
  | group (r : Re)
  | cat (a b : Re)
  deriving DecidableEq, Repr

/-- Number of capture groups (Go's `NumSubexp`). -/
def Re.numGroups : Re → Nat
  | .bol => 0
  | .lit _ => 0
  | .cls _ => 0
  | .star _ _ => 0
  | .group r => r.numGroups + 1
  | .cat a b => a.numGroups + b.numGroups

/-- Greedy `c*`: take as many bytes as possible, give one back at a time on failure. -/
def starGreedy {α : Type} (c : CharClass) : List Byte → (List Byte → Option α) → Option α
  | [], k => k []
  | b :: bs, k =>
    if c.accepts b then
      match starGreedy c bs k with
      | some r => some r
      | none => k (b :: bs)
    else k (b :: bs)

/-- Lazy `c*?`: take as few bytes as possible, one more at a time on failure. -/
def starLazy {α : Type} (c : CharClass) : List Byte → (List Byte → Option α) → Option α
  | [], k => k []
  | b :: bs, k =>
    match k (b :: bs) with
    | some r => some r
    | none => if c.accepts b then starLazy c bs k else none

/-- Submatches of the groups, slot `i` for group `i + 1`; `none` for a group that took
no part in the match. -/
abbrev Caps := List (Option (List Byte))

/-- Backtracking match of `r` at the front of `s`, then the continuation `k` on the rest.
`n` is the length of the whole text, so `s.length = n` holds at its beginning; `base` is
the number of groups opened before `r`. -/
def Re.run {α : Type} : Re → Nat → Nat → List Byte → Caps →
    (List Byte → Caps → Option α) → Option α
  | .bol, n, _, s, caps, k => if s.length = n then k s caps else none
  | .lit b, _, _, s, caps, k =>
    match s with
    | [] => none
    | c :: cs => if c = b then k cs caps else none
  | .cls cl, _, _, s, caps, k =>
    match s with
    | [] => none
    | c :: cs => if cl.accepts c then k cs caps else none
  | .star cl greedy, _, _, s, caps, k =>
    if greedy then starGreedy cl s (fun rest => k rest caps)
    else starLazy cl s (fun rest => k rest caps)
  | .group r, n, base, s, caps, k =>
    r.run n (base + 1) s caps
      (fun rest caps' => k rest (caps'.set base (some (s.take (s.length - rest.length)))))
  | .cat a b, n, base, s, caps, k =>
    a.run n base s caps (fun rest caps' => b.run n (base + a.numGroups) rest caps' k)

/-- A match of `re` that starts at the front of `s`: the matched text followed by the
text of each group (empty for a group that took no part). -/
def matchAt (re : Re) (n : Nat) (s : List Byte) : Option (List (List Byte)) :=
  re.run n 0 s (List.replicate re.numGroups none)
    (fun rest caps => some (s.take (s.length - rest.length) :: caps.map (fun c => c.getD [])))

/-- The leftmost match at or after the front of `s`. -/
def searchFrom (re : Re) (n : Nat) : List Byte → Option (List (List Byte))
  | [] => matchAt re n []
  | c :: cs =>
    match matchAt re n (c :: cs) with
    | some m => some m
    | none => searchFrom re n cs

/-- Go's `regexp.MatchString(pattern, s)` for a pattern that compiles to `re`. -/
def MatchString (re : Re) (s : List Byte) : Bool := (searchFrom re s.length s).isSome

/-- Go's `regexp.MustCompile(pattern).FindStringSubmatch(s)`; nil is the empty list. -/
def FindStringSubmatch (re : Re) (s : List Byte) : List (List Byte) :=
  (searchFrom re s.length s).getD []

/-- The words of a regular expression; `atStart` tells whether the word begins at the
beginning of the text. -/
def Re.Matches : Re → Bool → List Byte → Prop
  | .bol, atStart, w => atStart = true ∧ w = []
  | .lit b, _, w => w = [b]
  | .cls c, _, w => ∃ b, c.accepts b = true ∧ w = [b]
  | .star c _, _, w => ∀ b ∈ w, c.accepts b = true
  | .group r, atStart, w => r.Matches atStart w
  | .cat a b, atStart, w =>
    ∃ w1 w2, w = w1 ++ w2 ∧ a.Matches atStart w1 ∧ b.Matches (atStart && w1.isEmpty) w2

/-- Some prefix of the line is a word of `re` (a match anchored at the start only). -/
def PrefixMatches (re : Re) (line : List Byte) : Prop :=
  ∃ w rest, line = w ++ rest ∧ re.Matches true w

/-! ### The three patterns of parser.go -/

/-- Concatenation of a list of expressions. -/
def Re.seq : List Re → Re
  | [] => .star ⟨false, []⟩ true
  | [r] => r
  | r :: rs => .cat r (Re.seq rs)

/-- The literal text `s`. -/
def Re.str (s : String) : Re := Re.seq ((ascii s).map Re.lit)

/-- The pattern `c+`. -/
def Re.plus (c : CharClass) : Re := .cat (.cls c) (.star c true)

/-- The class `[^ ]`. -/
def notSpace : CharClass := ⟨true, [.byte 32]⟩

/-- The class `\S`, that is `[^\t\n\f\r ]`. -/
def nonBlank : CharClass := ⟨true, [.byte 9, .byte 10, .byte 12, .byte 13, .byte 32]⟩

/-- The class `[A-Z]`. -/
def upper : CharClass := ⟨false, [.range 65 90]⟩

/-- The class `[0-9.]`. -/
def digitDot : CharClass := ⟨false, [.range 48 57, .byte 46]⟩

/-- The class `[\d|-]`: a digit, `|` or `-`. -/
def digitBarDash : CharClass := ⟨false, [.range 48 57, .byte 124, .byte 45]⟩

/-- The class `.`: any byte but the newline. -/
def anyByte : CharClass := ⟨true, [.byte 10]⟩

/-- The group `(HTTP\/[0-9.]+)`. -/
def httpVersion : Re := .group (Re.seq [Re.str "HTTP/", Re.plus digitDot])

/-- The group `([^ ]+ [^ ]+)`. -/
def twoWords : Re := .group (Re.seq [Re.plus notSpace, .lit 32, Re.plus notSpace])

/-- `ApacheFormat`:
`^([^ ]+) [^ ]+ ([^\/\[]+) \[([^ ]+ [^ ]+)\] \"([A-Z]+) (\S+) (HTTP\/[0-9.]+)" ([\d|-]+) ([\d|-]+) \"(.*?)\" \"([^\"]*)\"`. -/
def ApacheFormat : Re :=
  Re.seq [.bol, .group (Re.plus notSpace), .lit 32, Re.plus notSpace, .lit 32,
    .group (Re.plus ⟨true, [.byte 47, .byte 91]⟩), Re.str " [", twoWords, Re.str "] \"",
    .group (Re.plus upper), .lit 32, .group (Re.plus nonBlank), .lit 32, httpVersion,
    Re.str "\" ", .group (Re.plus digitBarDash), .lit 32, .group (Re.plus digitBarDash),
    Re.str " \"", .group (.star anyByte false), Re.str "\" \"",
    .group (.star ⟨true, [.byte 34]⟩ true), .lit 34]

/-- `IISFormat`:
`^(\S+) \[([^ ]+ [^ ]+)\] "([A-Z]+) (\S+) (HTTP\/[0-9.]+)" ([\d|-]+) ([\d|-]+) \S+ (\S+) (\S+)`. -/
def IISFormat : Re :=
  Re.seq [.bol, .group (Re.plus nonBlank), Re.str " [", twoWords, Re.str "] \"",
    .group (Re.plus upper), .lit 32, .group (Re.plus nonBlank), .lit 32, httpVersion,
    Re.str "\" ", .group (Re.plus digitBarDash), .lit 32, .group (Re.plus digitBarDash),
    .lit 32, Re.plus nonBlank, .lit 32, .group (Re.plus nonBlank), .lit 32,
    .group (Re.plus nonBlank)]

/-- `NCSAFormat`:
`^([^ ]+) [^ ]+ (.+) \[([^ ]+ [^ ]+)\] \"([^ ]+) (.+) (HTTP\/[0-9.]+)\" ([\d|-]+) ([\d|-]+)`. -/
def NCSAFormat : Re :=
  Re.seq [.bol, .group (Re.plus notSpace), .lit 32, Re.plus notSpace, .lit 32,
    .group (Re.plus anyByte), Re.str " [", twoWords, Re.str "] \"",
    .group (Re.plus notSpace), .lit 32, .group (Re.plus anyByte), .lit 32, httpVersion,
    Re.str "\" ", .group (Re.plus digitBarDash), .lit 32, .group (Re.plus digitBarDash)]

/-- `ApacheFormatName`. -/
def ApacheFormatName : String := "ApacheFormat"

/-- `IISFormatName`. -/
def IISFormatName : String := "IISFormat"

/-- `NCSAFormatName`. -/
def NCSAFormatName : String := "NCSAFormat"

/-! ## CustomParser -/

/-- `CustomParser.MatchRegex`. -/
def CustomParser.MatchRegex (input : List Byte) : List (List Byte) × String :=
  if MatchString ApacheFormat input then (FindStringSubmatch ApacheFormat input, ApacheFormatName)
  else if MatchString IISFormat input then (FindStringSubmatch IISFormat input, IISFormatName)
  else if MatchString NCSAFormat input then (FindStringSubmatch NCSAFormat input, NCSAFormatName)
  else ([], "")

/-- Index expression `matches[i]` on a slice of strings; the run-time panic when `i` is
out of range. -/
def index (xs : List (List Byte)) (i : Nat) : Outcome (List Byte) :=
  match xs.get? i with
  | some x => .ok x
  | none => .panic

/-- Sequencing of calls that can end the run. -/
def Outcome.bind {α β : Type} (x : Outcome α) (f : α → Outcome β) : Outcome β :=
  match x with
  | .ok a => f a
  | .fatal => .fatal
  | .panic => .panic
  | .timeout => .timeout

/-- `strconv.Atoi` with the fallback the custom parser uses on an error. -/
def atoiOr (dflt : Int) (s : List Byte) : Int :=
  match Atoi s with
  | some v => v
  | none => dflt

/-- `strconv.ParseFloat(s, 64)` with the fallback `0` on an error. -/
def parseFloatOr {F : Type} (fl : Float64Ops F) (s : List Byte) : F :=
  match fl.ParseFloat s with
  | some v => v
  | none => fl.zero

/-- The `case ApacheFormatName` of the switch in `CustomParser.ParseLog`; `.ok none` is
the `break` followed by `return nil`. -/
def CustomParser.apacheCase {F : Type} (fl : Float64Ops F) («matches» : List (List Byte)) :
    Outcome (Option (LogInfo F)) :=
  if «matches».length < 10 then .ok none
  else
    (index «matches» 7).bind fun m7 =>
    (index «matches» 8).bind fun m8 =>
    (index «matches» 1).bind fun m1 =>
    (index «matches» 3).bind fun m3 =>
    (index «matches» 4).bind fun m4 =>
    (index «matches» 5).bind fun m5 =>
    (index «matches» 6).bind fun m6 =>
    (index «matches» 10).bind fun m10 =>
    .ok (some { RemoteAddr := m1, RemoteUser := [], TimeLocal := m3, Method := m4,
                Request := m5, Protocol := m6, Status := atoiOr 500 m7,
                BodyBytesSent := atoiOr 0 m8, HttpReferer := [], HttpUserAgent := m10,
                RequestTime := fl.zero })

/-- The `case IISFormatName` of the switch in `CustomParser.ParseLog`. -/
def CustomParser.iisCase {F : Type} (fl : Float64Ops F) («matches» : List (List Byte)) :
    Outcome (Option (LogInfo F)) :=
  if «matches».length < 10 then .ok none
  else
    (index «matches» 6).bind fun m6 =>
    (index «matches» 7).bind fun m7 =>
    (index «matches» 8).bind fun m8 =>
    (index «matches» 1).bind fun m1 =>
    (index «matches» 2).bind fun m2 =>
    (index «matches» 3).bind fun m3 =>
    (index «matches» 4).bind fun m4 =>
    (index «matches» 5).bind fun m5 =>
    (index «matches» 9).bind fun m9 =>
    .ok (some { RemoteAddr := m1, RemoteUser := [], TimeLocal := m2, Method := m3,
                Request := m4, Protocol := m5, Status := atoiOr 500 m6,
                BodyBytesSent := atoiOr 0 m7, HttpReferer := [], HttpUserAgent := m9,
                RequestTime := parseFloatOr fl m8 })

/-- The `case NCSAFormatName` of the switch in `CustomParser.ParseLog`. -/
def CustomParser.ncsaCase {F : Type} (fl : Float64Ops F) («matches» : List (List Byte)) :
    Outcome (Option (LogInfo F)) :=
  if «matches».length < 9 then .ok none
  else
    (index «matches» 7).bind fun m7 =>
    (index «matches» 8).bind fun m8 =>
    (index «matches» 1).bind fun m1 =>
    (index «matches» 2).bind fun m2 =>
    (index «matches» 3).bind fun m3 =>
    (index «matches» 4).bind fun m4 =>
    (index «matches» 5).bind fun m5 =>
    (index «matches» 6).bind fun m6 =>
    .ok (some { RemoteAddr := m1, RemoteUser := m2, TimeLocal := m3, Method := m4,
                Request := m5, Protocol := m6, Status := atoiOr 500 m7,
                BodyBytesSent := atoiOr 0 m8, HttpReferer := [], HttpUserAgent := [],
                RequestTime := fl.zero })

/-- `CustomParser.ParseLog`; the result `none` is the nil pointer. -/
def CustomParser.ParseLog {F : Type} (fl : Float64Ops F) (line : List Byte) :
    Outcome (Option (LogInfo F)) :=
  let r := CustomParser.MatchRegex line
  if r.2 = ApacheFormatName then CustomParser.apacheCase fl r.1
  else if r.2 = IISFormatName then CustomParser.iisCase fl r.1
  else if r.2 = NCSAFormatName then CustomParser.ncsaCase fl r.1
  else .ok none

/-- The struct literal of the Apache case on the submatches `m`, with `m[i]` read as
empty when `i` is out of range. -/
def CustomParser.apacheRecord {F : Type} (fl : Float64Ops F) (m : List (List Byte)) :
    LogInfo F :=
  { RemoteAddr := m.getD 1 [], RemoteUser := [], TimeLocal := m.getD 3 [],
    Method := m.getD 4 [], Request := m.getD 5 [], Protocol := m.getD 6 [],
    Status := atoiOr 500 (m.getD 7 []), BodyBytesSent := atoiOr 0 (m.getD 8 []),
    HttpReferer := [], HttpUserAgent := m.getD 10 [], RequestTime := fl.zero }

/-- The struct literal of the IIS case on the submatches `m`. -/
def CustomParser.iisRecord {F : Type} (fl : Float64Ops F) (m : List (List Byte)) :
    LogInfo F :=
  { RemoteAddr := m.getD 1 [], RemoteUser := [], TimeLocal := m.getD 2 [],
    Method := m.getD 3 [], Request := m.getD 4 [], Protocol := m.getD 5 [],
    Status := atoiOr 500 (m.getD 6 []), BodyBytesSent := atoiOr 0 (m.getD 7 []),
    HttpReferer := [], HttpUserAgent := m.getD 9 [],
    RequestTime := parseFloatOr fl (m.getD 8 []) }

/-- The struct literal of the NCSA case on the submatches `m`. -/
def CustomParser.ncsaRecord {F : Type} (fl : Float64Ops F) (m : List (List Byte)) :
    LogInfo F :=
  { RemoteAddr := m.getD 1 [], RemoteUser := m.getD 2 [], TimeLocal := m.getD 3 [],
    Method := m.getD 4 [], Request := m.getD 5 [], Protocol := m.getD 6 [],
    Status := atoiOr 500 (m.getD 7 []), BodyBytesSent := atoiOr 0 (m.getD 8 []),
    HttpReferer := [], HttpUserAgent := [], RequestTime := fl.zero }

/-- A line in the Apache layout whose status and size are both `-`. -/
def dashLog : List Byte :=
  ascii "1.2.3.4 - - [31/Oct/2023:19:07:56 +0700] \"GET / HTTP/1.1\" - - \"-\" \"curl\""

/-- The expression matches the whole of `s` (the search a pattern closed by `$` would
run). -/
def MatchesWhole (re : Re) (s : List Byte) : Bool :=
  (re.run s.length 0 s (List.replicate re.numGroups none)
    (fun rest _ => if rest = [] then some () else none)).isSome

/-- The float64 operations reduced to a point; enough to run the parsers on samples. -/
def unitFloat : Float64Ops Unit := ⟨(), fun _ => none⟩

/-- The sample line `apacheLog` of `parser_test.go`. -/
def apacheLog : List Byte :=
  ascii "40.77.167.52 - - [31/Oct/2023:19:07:56 +0700] \"GET /checkout/cart/add?product_id=896&redirect=true HTTP/2\" 302 0 \"-\" \"Mozilla/5.0 AppleWebKit/537.36 (KHTML, like Gecko; compatible; bingbot/2.0; +http://www.bing.com/bingbot.htm) Chrome/103.0.5060.134 Safari/537.36\""

/-- The sample line `iisLog` of `parser_test.go`. -/
def iisLog : List Byte :=
  ascii "211.251.138.161 [10/Sep/2015:17:58:28 +0000] \"GET /t/40x40/dc/0b/bdbef36aee8a0bef2983c88c49d3.jpeg HTTP/1.1\" 200 786 1037 0.798 \"40x40\" 791 4"

/-- The sample line `NCSALog` of `parser_test.go`. -/
def NCSALog : List Byte :=
  ascii "10.100.10.45 - BMAA\\will.smith [01/Jul/2013:07:17:28 +0200] \"GET /Download/__Omnia__Aus- und Weiterbildung__Konsular- und Verwaltungskonferenz, Programm.doc HTTP/1.1\" 200 9076810"

/-! ## The time-window filter of the pipeline (main.go) -/

/-- An instant of Go's `time.Time`, counted in nanoseconds from the zero time
(January 1, year 1, 00:00:00 UTC). -/
abbrev Time := Int

/-- Go's `Time.IsZero`. -/
def Time.IsZero (t : Time) : Bool := decide (t = 0)

/-- Go's `t.Before(u)`. -/
def Time.Before (t u : Time) : Bool := decide (t < u)

/-- Go's `t.After(u)`. -/
def Time.After (t u : Time) : Bool := decide (t > u)

/-- `parser.ParseTime`; `layout` stands for `time.Parse("02/Jan/2006:15:04:05 -0700", ·)`
of the standard library, `none` being its error. -/
def ParseTime (layout : List Byte → Option Time) (timeLocal : List Byte) : Outcome Time :=
  match layout timeLocal with
  | some t => .ok t
  | none => Fatal

/-- `isDateSkipAble`; `since` and `util` are the two bounds held by the analyzer and
`logInfo` is the pointer returned by the parser (`none` is nil). -/
def isDateSkipAble {F : Type} (layout : List Byte → Option Time) (since util : Time)
    (logInfo : Option (LogInfo F)) : Outcome Bool :=
  if !since.IsZero || !util.IsZero then
    match logInfo with
    | none => .panic
    | some info =>
      match ParseTime layout info.TimeLocal with
      | .ok logTime =>
        if !since.IsZero && logTime.Before since then .ok true
        else if !util.IsZero && logTime.After util then .ok true
        else .ok false
      | .fatal => .fatal
      | .panic => .panic
      | .timeout => .timeout
  else .ok false

/-- What a per-line task does with the parsed record: it calls `handler.Input` on the
pointer, or returns early. -/
inductive LineResult (F : Type) where
  | input (logInfo : Option (LogInfo F))
  | dropped
  deriving DecidableEq

/-- `parseLog` after the call of the parser: the filter, then `handler.Input`. -/
def parseLog {F : Type} (layout : List Byte → Option Time) (since util : Time)
    (logInfo : Option (LogInfo F)) : Outcome (LineResult F) :=
  match isDateSkipAble layout since util logInfo with
  | .ok skipAble => if skipAble then .ok .dropped else .ok (.input logInfo)
  | .fatal => .fatal
  | .panic => .panic
  | .timeout => .timeout

/-- The body of the per-line goroutine of `testProcess` after the call of the parser
(steps 3 and 4). -/
def testProcessLine {F : Type} (layout : List Byte → Option Time) (since util : Time)
    (logInfo : Option (LogInfo F)) : Outcome (LineResult F) :=
  if !since.IsZero || !util.IsZero then
    match logInfo with
    | none => .panic
    | some info =>
      match ParseTime layout info.TimeLocal with
      | .ok logTime =>
        if !since.IsZero && logTime.Before since then .ok .dropped
        else if !util.IsZero && logTime.After util then .ok .dropped
        else .ok (.input logInfo)
      | .fatal => .fatal
      | .panic => .panic
      | .timeout => .timeout
  else .ok (.input logInfo)

/-- The instant 2024-01-01T00:00:00Z. -/
def since2024 : Time := 63839664000 * 1000000000

/-- The instant 2024-01-02T00:00:00Z. -/
def until2024 : Time := 63839750400 * 1000000000

/-- A record whose only filled field is its local time. -/
def recordAt (timeLocal : List Byte) : LogInfo Unit :=
  { RemoteAddr := [], RemoteUser := [], TimeLocal := timeLocal, Method := [], Request := [],
    Protocol := [], Status := 0, BodyBytesSent := 0, HttpReferer := [], HttpUserAgent := [],
    RequestTime := () }

/-- The standard layout on the two sample strings that are used below. -/
def sampleLayout (s : List Byte) : Option Time :=
  if s = ascii "01/Jan/2024:00:00:00 +0000" then some since2024
  else if s = ascii "02/Jan/2024:00:00:00 +0000" then some until2024
  else none

/-! ## Go maps -/

/-- A Go `map[string]V`: an association list with one entry per key. The order of the
entries is not observable; two maps are the same when `get?` agrees on every key. -/
abbrev GoMap (V : Type) := List (List Byte × V)

/-- The two-value lookup `v, ok := m[k]`. -/
def GoMap.get? {V : Type} : GoMap V → List Byte → Option V
  | [], _ => none
  | (k', v) :: m, k => if k' = k then some v else GoMap.get? m k

/-- The assignment `m[k] = v`. -/
def GoMap.set {V : Type} : GoMap V → List Byte → V → GoMap V
  | [], k, v => [(k, v)]
  | (k', v') :: m, k, v => if k' = k then (k', v) :: m else (k', v') :: GoMap.set m k v

/-- The statement `m[k]++` on a map of counters (a missing key reads as 0). -/
def GoMap.incr (m : GoMap Int) (k : List Byte) : GoMap Int :=
  m.set k ((m.get? k).getD 0 + 1)

/-- The content of a map of maps, as a function. -/
def GoMap.denote2 {V : Type} (m : GoMap (GoMap V)) :
    List Byte → Option (List Byte → Option V) :=
  fun c => (m.get? c).map GoMap.get?

/-- The content of a map of maps of maps, as a function. -/
def GoMap.denote3 {V : Type} (m : GoMap (GoMap (GoMap V))) :
    List Byte → Option (List Byte → Option (List Byte → Option V)) :=
  fun c => (m.get? c).map GoMap.denote2

/-- The map entry of a key that occurred `n` times: absent for 0, the count otherwise. -/
def countEntry (n : Nat) : Option Int := if n = 0 then none else some (n : Int)

/-! ## MostVisitedFieldsHandler -/

/-- The analysis-type constants that `MostVisitedFieldsHandler.Input` switches on. Their
declaration is not among the sources, so their values are parameters. -/
structure AnalysisTypes where
  AnalysisTypeVisitedIps : Int
  AnalysisTypeVisitedUris : Int
  AnalysisTypeVisitedUserAgents : Int

/-- The case constants of the switch are pairwise distinct (Go rejects a switch with a
duplicate constant case). -/
def AnalysisTypes.Distinct (c : AnalysisTypes) : Prop :=
  c.AnalysisTypeVisitedIps ≠ c.AnalysisTypeVisitedUris ∧
  c.AnalysisTypeVisitedIps ≠ c.AnalysisTypeVisitedUserAgents ∧
  c.AnalysisTypeVisitedUris ≠ c.AnalysisTypeVisitedUserAgents

instance (c : AnalysisTypes) : Decidable c.Distinct := by
  unfold AnalysisTypes.Distinct; infer_instance

/-- The state of a `MostVisitedFieldsHandler`; counters are Go `int`s, which 64 bits keep
from overflowing in any run. -/
structure MostVisitedFieldsHandler where
  analysisType : Int
  countMap : GoMap Int

/-- `NewMostVisitedFieldsHandler`. -/
def NewMostVisitedFieldsHandler (analysisType : Int) : MostVisitedFieldsHandler :=
  { analysisType := analysisType, countMap := [] }

/-- The switch of `MostVisitedFieldsHandler.Input` that selects the field; reading a field
of a nil record is a panic, an unsupported analysis type is fatal. -/
def MostVisitedFieldsHandler.field {F : Type} (c : AnalysisTypes) (analysisType : Int)
    (info : Option (LogInfo F)) : Outcome (List Byte) :=
  if analysisType = c.AnalysisTypeVisitedIps then
    match info with
    | some i => .ok i.RemoteAddr
    | none => .panic
  else if analysisType = c.AnalysisTypeVisitedUris then
    match info with
    | some i => .ok i.Request
    | none => .panic
  else if analysisType = c.AnalysisTypeVisitedUserAgents then
    match info with
    | some i => .ok i.HttpUserAgent
    | none => .panic
  else Fatal

/-- The locked part of `MostVisitedFieldsHandler.Input`: count one more hit of `field`. -/
def countHit (m : GoMap Int) (field : List Byte) : GoMap Int :=
  match m.get? field with
  | some _ => m.incr field
  | none => m.set field 1

/-- `MostVisitedFieldsHandler.Input`. -/
def MostVisitedFieldsHandler.Input {F : Type} (c : AnalysisTypes)
    (handler : MostVisitedFieldsHandler) (info : Option (LogInfo F)) :
    Outcome MostVisitedFieldsHandler :=
  (MostVisitedFieldsHandler.field c handler.analysisType info).bind fun field =>
    .ok { handler with countMap := countHit handler.countMap field }

/-- Feeding a sequence of records, one `Input` call after the other. -/
def MostVisitedFieldsHandler.feed {F : Type} (c : AnalysisTypes) :
    MostVisitedFieldsHandler → List (LogInfo F) → Outcome MostVisitedFieldsHandler
  | handler, [] => .ok handler
  | handler, r :: rs =>
    (MostVisitedFieldsHandler.Input c handler (some r)).bind fun h =>
      MostVisitedFieldsHandler.feed c h rs

/-- The analysis types in the order of the switch of `newLogHandler`. -/
def sampleTypes : AnalysisTypes :=
  { AnalysisTypeVisitedIps := 1, AnalysisTypeVisitedUris := 2,
    AnalysisTypeVisitedUserAgents := 3 }

/-! ## PvAndUvHandler -/

/-- The result of `atomic.AddInt32`: the sum wrapped to 32 bits, two's complement. -/
def wrapInt32 (x : Int) : Int := (x + 2 ^ 31) % 2 ^ 32 - 2 ^ 31

/-- The state of a `PvAndUvHandler`. -/
structure PvAndUvHandler where
  pv : Int
  uv : Int
  uniqMap : GoMap Bool

/-- `NewPvAndUvHandler`. -/
def NewPvAndUvHandler : PvAndUvHandler := { pv := 0, uv := 0, uniqMap := [] }

/-- `PvAndUvHandler.Input`. -/
def PvAndUvHandler.Input {F : Type} (handler : PvAndUvHandler) (info : Option (LogInfo F)) :
    Outcome PvAndUvHandler :=
  match info with
  | none => .panic
  | some i =>
    match handler.uniqMap.get? i.RemoteAddr with
    | some _ => .ok { handler with pv := wrapInt32 (handler.pv + 1) }
    | none =>
      .ok { pv := wrapInt32 (handler.pv + 1), uv := wrapInt32 (handler.uv + 1),
            uniqMap := handler.uniqMap.set i.RemoteAddr true }

/-- Feeding a sequence of records, one `Input` call after the other. -/
def PvAndUvHandler.feed {F : Type} :
    PvAndUvHandler → List (LogInfo F) → Outcome PvAndUvHandler
  | handler, [] => .ok handler
  | handler, r :: rs =>
    (PvAndUvHandler.Input handler (some r)).bind fun h => PvAndUvHandler.feed h rs

/-- The aggregate state of a `PvAndUvHandler`: the two counters and the content of the
map. -/
def PvAndUvHandler.denote (handler : PvAndUvHandler) :
    Int × Int × (List Byte → Option Bool) :=
  (handler.pv, handler.uv, handler.uniqMap.get?)

/-- The aggregate state of a `MostVisitedFieldsHandler`: the content of its map. -/
def MostVisitedFieldsHandler.denote (handler : MostVisitedFieldsHandler) :
    Int × (List Byte → Option Int) :=
  (handler.analysisType, handler.countMap.get?)

/-- The outcome of a call, with its result replaced by what `f` reads from it. -/
def Outcome.map {α β : Type} (f : α → β) : Outcome α → Outcome β
  | .ok a => .ok (f a)
  | .fatal => .fatal
  | .panic => .panic
  | .timeout => .timeout

/-! ## MostVisitedLocationsHandler -/

/-- The three count maps of a `MostVisitedLocationsHandler` (the fields that `Input` reads
and writes) and the limit on the cities listed. -/
structure MostVisitedLocationsHandler where
  limitSecond : Int
  countryCountMap : GoMap Int
  countryCityCountMap : GoMap (GoMap Int)
  countryCityIpCountMap : GoMap (GoMap (GoMap Int))

/-- The maps `NewMostVisitedLocationsHandler` creates. -/
def NewMostVisitedLocationsHandler (limitSecond : Int) : MostVisitedLocationsHandler :=
  { limitSecond := limitSecond, countryCountMap := [], countryCityCountMap := [],
    countryCityIpCountMap := [] }

/-- The block "save or update by country" of `MostVisitedLocationsHandler.Input`. -/
def MostVisitedLocationsHandler.saveCountry (handler : MostVisitedLocationsHandler)
    (country : List Byte) : MostVisitedLocationsHandler :=
  match handler.countryCityIpCountMap.get? country with
  | none =>
    { handler with
      countryCountMap := handler.countryCountMap.set country 1,
      countryCityCountMap := handler.countryCityCountMap.set country [],
      countryCityIpCountMap := handler.countryCityIpCountMap.set country [] }
  | some _ => { handler with countryCountMap := handler.countryCountMap.incr country }

/-- The block "save or update by city"; an assignment into the inner map of a country
that has none is the panic for a write to a nil map. -/
def MostVisitedLocationsHandler.saveCity (handler : MostVisitedLocationsHandler)
    (country city : List Byte) : Outcome MostVisitedLocationsHandler :=
  match (handler.countryCityIpCountMap.get? country).bind (fun m => m.get? city) with
  | none =>
    match handler.countryCityCountMap.get? country with
    | none => .panic
    | some cities =>
      match handler.countryCityIpCountMap.get? country with
      | none => .panic
      | some cityIps =>
        .ok { handler with
              countryCityCountMap := handler.countryCityCountMap.set country (cities.set city 1),
              countryCityIpCountMap :=
                handler.countryCityIpCountMap.set country (cityIps.set city []) }
  | some _ =>
    match handler.countryCityCountMap.get? country with
    | none => .panic
    | some cities =>
      .ok { handler with
            countryCityCountMap := handler.countryCityCountMap.set country (cities.incr city) }

/-- The block "save or update by ip address". -/
def MostVisitedLocationsHandler.saveIp (handler : MostVisitedLocationsHandler)
    (country city ip : List Byte) : Outcome MostVisitedLocationsHandler :=
  match handler.countryCityIpCountMap.get? country with
  | none => .panic
  | some cityIps =>
    match cityIps.get? city with
    | none => .panic
    | some ips =>
      match ips.get? ip with
      | none =>
        .ok { handler with
              countryCityIpCountMap :=
                handler.countryCityIpCountMap.set country (cityIps.set city (ips.set ip 1)) }
      | some _ =>
        .ok { handler with
              countryCityIpCountMap :=
                handler.countryCityIpCountMap.set country (cityIps.set city (ips.incr ip)) }

/-- `MostVisitedLocationsHandler.Input`. `queryIpLocation` is the method of that name as a
function of the address: the (country, city) pair it returns, or `none` when it ends the
run through `ioutil.Fatal`. -/
def MostVisitedLocationsHandler.Input {F : Type}
    (queryIpLocation : List Byte → Option (List Byte × List Byte))
    (handler : MostVisitedLocationsHandler) (info : Option (LogInfo F)) :
    Outcome MostVisitedLocationsHandler :=
  match info with
  | none => .panic
  | some i =>
    match queryIpLocation i.RemoteAddr with
    | none => Fatal
    | some (country, city) =>
      ((handler.saveCountry country).saveCity country city).bind fun h =>
        h.saveIp country city i.RemoteAddr

/-- Feeding a sequence of records, one `Input` call after the other. -/
def MostVisitedLocationsHandler.feed {F : Type}
    (queryIpLocation : List Byte → Option (List Byte × List Byte)) :
    MostVisitedLocationsHandler → List (LogInfo F) → Outcome MostVisitedLocationsHandler
  | handler, [] => .ok handler
  | handler, r :: rs =>
    (MostVisitedLocationsHandler.Input queryIpLocation handler (some r)).bind fun h =>
      MostVisitedLocationsHandler.feed queryIpLocation h rs

/-- The aggregate state of a `MostVisitedLocationsHandler`: the content of its three
maps. -/
def MostVisitedLocationsHandler.denote (handler : MostVisitedLocationsHandler) :
    (List Byte → Option Int) × (List Byte → Option (List Byte → Option Int)) ×
      (List Byte → Option (List Byte → Option (List Byte → Option Int))) :=
  (handler.countryCountMap.get?, handler.countryCityCountMap.denote2,
    handler.countryCityIpCountMap.denote3)

/-! ### Counting tries, to describe the maps that `Input` builds -/

/-- One more occurrence of `x` under the key `a` of a map of aggregates: the aggregate of
`a` (the empty aggregate `e` when `a` is new) is updated by `f`. -/
def GoMap.bumpWith {V β : Type} (f : V → β → V) (e : V) (m : GoMap V) (a : List Byte)
    (x : β) : GoMap V :=
  m.set a (f ((m.get? a).getD e) x)

/-- One more hit of the pair `p` in a two-level map of counters. -/
def bump2 (m : GoMap (GoMap Int)) (p : List Byte × List Byte) : GoMap (GoMap Int) :=
  GoMap.bumpWith countHit [] m p.1 p.2

/-- One more hit of the triple `t` in a three-level map of counters. -/
def bump3 (m : GoMap (GoMap (GoMap Int))) (t : List Byte × List Byte × List Byte) :
    GoMap (GoMap (GoMap Int)) :=
  GoMap.bumpWith bump2 [] m t.1 t.2

/-- The (country, city, address) triple of a record, for a resolver that knows its
address. -/
def located {F : Type} (queryIpLocation : List Byte → Option (List Byte × List Byte))
    (r : LogInfo F) : Option (List Byte × List Byte × List Byte) :=
  (queryIpLocation r.RemoteAddr).map (fun l => (l.1, l.2, r.RemoteAddr))

/-- The effect of one `Input` call on the aggregate state of a `PvAndUvHandler`, for a
record with the address `addr`. -/
def pvUvStep (d : Int × Int × (List Byte → Option Bool)) (addr : List Byte) :
    Int × Int × (List Byte → Option Bool) :=
  (wrapInt32 (d.1 + 1),
    if (d.2.2 addr).isSome then d.2.1 else wrapInt32 (d.2.1 + 1),
    fun k => if (d.2.2 addr).isSome then d.2.2 k
      else if addr = k then some true else d.2.2 k)

/-- The maps of a handler that has counted the located hits `ts`. -/
def trieState (limitSecond : Int) (ts : List (List Byte × List Byte × List Byte)) :
    MostVisitedLocationsHandler :=
  { limitSecond := limitSecond,
    countryCountMap := (ts.map (fun t => t.1)).foldl countHit [],
    countryCityCountMap := (ts.map (fun t => (t.1, t.2.1))).foldl bump2 [],
    countryCityIpCountMap := ts.foldl bump3 [] }

/-- A resolver that knows two addresses. -/
def sampleResolver (ip : List Byte) : Option (List Byte × List Byte) :=
  if ip = ascii "10.0.0.1" then some (ascii "Japan", ascii "Tokyo")
  else if ip = ascii "10.0.0.2" then some (ascii "Japan", ascii "Osaka")
  else none

/-- A record with the given address, request and user agent. -/
def hit (addr request agent : String) : LogInfo Unit :=
  { RemoteAddr := ascii addr, RemoteUser := [], TimeLocal := [], Method := [],
    Request := ascii request, Protocol := [], Status := 200, BodyBytesSent := 0,
    HttpReferer := [], HttpUserAgent := ascii agent, RequestTime := () }

/-- Three hits, two of them from the same address. -/
def sampleHits : List (LogInfo Unit) :=
  [hit "10.0.0.1" "/a" "curl", hit "10.0.0.2" "/a" "curl", hit "10.0.0.1" "/b" "wget"]

/-! ## Output of MostVisitedFieldsHandler -/

/-- The keys of a map, in the order of its entries. -/
def GoMap.keys {V : Type} (m : GoMap V) : List (List Byte) := m.map (fun e => e.1)

/-- What the code may assume of `for k := range m`: the keys come in some order, each
once. `rangeOrder` maps the keys of a map to the order in which one loop yields them. -/
def RangeSpec (rangeOrder : List (List Byte) → List (List Byte)) : Prop :=
  ∀ keys, (rangeOrder keys).Perm keys

/-- What the code may assume of `sort.Slice` with the comparison "has more hits": the
result is a rearrangement of the slice in which no key has more hits than a key before it.
The sort is not stable, so nothing is said of keys with equal hits. -/
def SortSliceSpec
    (sortSlice : (List Byte → List Byte → Bool) → List (List Byte) → List (List Byte)) :
    Prop :=
  ∀ (count : List Byte → Int) (keys : List (List Byte)),
    (sortSlice (fun a b => decide (count a > count b)) keys).Perm keys ∧
    (sortSlice (fun a b => decide (count a > count b)) keys).Pairwise
      (fun a b => count a ≥ count b)

/-- The inner loop of the insertion sort that `sort.Slice` runs on short slices: `x`
moves left past every element it is less than. The part already sorted is given from
right to left. -/
def insertLeft (less : List Byte → List Byte → Bool) (x : List Byte) :
    List (List Byte) → List (List Byte)
  | [] => [x]
  | y :: ys => if less x y then y :: insertLeft less x ys else x :: y :: ys

/-- The insertion sort that `sort.Slice` runs on slices of at most 12 elements. -/
def insertionSortLess (less : List Byte → List Byte → Bool) (keys : List (List Byte)) :
    List (List Byte) :=
  (keys.foldl (fun sorted x => insertLeft less x sorted) []).reverse

/-- The read `m[k]` of a counter: 0 for a missing key. -/
def GoMap.count (m : GoMap Int) (k : List Byte) : Int := (m.get? k).getD 0

/-- The line `fmt.Printf("\"%v\" hits: %v\n", key, count)`. -/
def formatHit (key : List Byte) (count : Int) : List Byte :=
  ascii "\"" ++ key ++ ascii "\" hits: " ++ Itoa count ++ ascii "\n"

/-- The keys that `MostVisitedFieldsHandler.Output` prints, in the order of the lines:
the keys of the map as `range` yields them, sorted by descending count, cut at `limit`. -/
def MostVisitedFieldsHandler.topKeys (rangeOrder : List (List Byte) → List (List Byte))
    (sortSlice : (List Byte → List Byte → Bool) → List (List Byte) → List (List Byte))
    (handler : MostVisitedFieldsHandler) (limit : Int) : List (List Byte) :=
  (sortSlice (fun a b => decide (handler.countMap.count a > handler.countMap.count b))
    (rangeOrder handler.countMap.keys)).take limit.toNat

/-- `MostVisitedFieldsHandler.Output`: the lines written to standard output. -/
def MostVisitedFieldsHandler.Output (rangeOrder : List (List Byte) → List (List Byte))
    (sortSlice : (List Byte → List Byte → Bool) → List (List Byte) → List (List Byte))
    (handler : MostVisitedFieldsHandler) (limit : Int) : List (List Byte) :=
  (MostVisitedFieldsHandler.topKeys rangeOrder sortSlice handler limit).map
    (fun k => formatHit k (handler.countMap.count k))

/-- The list `printed` is a top-`limit` listing of the handler's map: it has
`min(limit, number of keys)` keys of the map, each once; its counts do not increase down
the list; and no key left out has more hits than a listed one. -/
def FieldsReport (handler : MostVisitedFieldsHandler) (limit : Int)
    (printed : List (List Byte)) : Prop :=
  printed.length = min limit.toNat handler.countMap.keys.length ∧
  printed.Nodup ∧
  (∀ k ∈ printed, ∃ n, handler.countMap.get? k = some n ∧ handler.countMap.count k = n) ∧
  printed.Pairwise (fun a b => handler.countMap.count a ≥ handler.countMap.count b) ∧
  (∀ k ∈ handler.countMap.keys, k ∉ printed →
    ∀ p ∈ printed, handler.countMap.count k ≤ handler.countMap.count p)

/-- A handler that has counted two hits of one address and one of another. -/
def sampleFields : MostVisitedFieldsHandler :=
  { analysisType := 1, countMap := [(ascii "10.0.0.1", 2), (ascii "10.0.0.2", 1)] }

/-- A handler that has counted one hit each of two addresses. -/
def tiedFields : MostVisitedFieldsHandler :=
  { analysisType := 1, countMap := [(ascii "10.0.0.1", 1), (ascii "10.0.0.2", 1)] }

/-! ## Output of MostVisitedLocationsHandler -/

/-- The keys of one level of the report: the keys as `range` yields them, sorted by
descending `count`. -/
def sortedKeys (rangeOrder : List (List Byte) → List (List Byte))
    (sortSlice : (List Byte → List Byte → Bool) → List (List Byte) → List (List Byte))
    (keys : List (List Byte)) (count : List Byte → Int) : List (List Byte) :=
  sortSlice (fun a b => decide (count a > count b)) (rangeOrder keys)

/-- The read `handler.countryCityCountMap[country][city]`; a missing country or city
reads as 0. -/
def MostVisitedLocationsHandler.cityCount (handler : MostVisitedLocationsHandler)
    (country city : List Byte) : Int :=
  ((handler.countryCityCountMap.get? country).getD []).count city

/-- The read `handler.countryCityIpCountMap[country]`; a missing country reads as the
empty map. -/
def MostVisitedLocationsHandler.cityIpCountMap (handler : MostVisitedLocationsHandler)
    (country : List Byte) : GoMap (GoMap Int) :=
  (handler.countryCityIpCountMap.get? country).getD []

/-- The read `cityIpCountMap[city]` under a country. -/
def MostVisitedLocationsHandler.ipCountMap (handler : MostVisitedLocationsHandler)
    (country city : List Byte) : GoMap Int :=
  ((handler.cityIpCountMap country).get? city).getD []

/-- The countries that `Output` lists, in order: all of them. -/
def MostVisitedLocationsHandler.countryKeys
    (rangeOrder : List (List Byte) → List (List Byte))
    (sortSlice : (List Byte → List Byte → Bool) → List (List Byte) → List (List Byte))
    (handler : MostVisitedLocationsHandler) : List (List Byte) :=
  sortedKeys rangeOrder sortSlice handler.countryCityIpCountMap.keys
    handler.countryCountMap.count

/-- The cities that `Output` lists under a country, in order: at most `limitSecond`. -/
def MostVisitedLocationsHandler.cityKeys
    (rangeOrder : List (List Byte) → List (List Byte))
    (sortSlice : (List Byte → List Byte → Bool) → List (List Byte) → List (List Byte))
    (handler : MostVisitedLocationsHandler) (country : List Byte) : List (List Byte) :=
  (sortedKeys rangeOrder sortSlice (handler.cityIpCountMap country).keys
    (handler.cityCount country)).take handler.limitSecond.toNat

/-- The addresses that `Output` lists under a city, in order: at most `limit`. -/
def MostVisitedLocationsHandler.ipKeys
    (rangeOrder : List (List Byte) → List (List Byte))
    (sortSlice : (List Byte → List Byte → Bool) → List (List Byte) → List (List Byte))
    (handler : MostVisitedLocationsHandler) (limit : Int) (country city : List Byte) :
    List (List Byte) :=
  (sortedKeys rangeOrder sortSlice (handler.ipCountMap country city).keys
    (handler.ipCountMap country city).count).take limit.toNat

/-- The line `fmt.Printf("[%v] hits: %v\n", country, count)`. -/
def formatCountry (country : List Byte) (count : Int) : List Byte :=
  ascii "[" ++ country ++ ascii "] hits: " ++ Itoa count ++ ascii "\n"

/-- The line `fmt.Printf("  |--[%v] hits: %v\n", city, count)`. -/
def formatCity (city : List Byte) (count : Int) : List Byte :=
  ascii "  |--[" ++ city ++ ascii "] hits: " ++ Itoa count ++ ascii "\n"

/-- The line `fmt.Printf("  |  |--\"%v\" hits: %v\n", ip, count)`. -/
def formatIp (ip : List Byte) (count : Int) : List Byte :=
  ascii "  |  |--\"" ++ ip ++ ascii "\" hits: " ++ Itoa count ++ ascii "\n"

/-- `MostVisitedLocationsHandler.Output`: the lines written to standard output. -/
def MostVisitedLocationsHandler.Output
    (rangeOrder : List (List Byte) → List (List Byte))
    (sortSlice : (List Byte → List Byte → Bool) → List (List Byte) → List (List Byte))
    (handler : MostVisitedLocationsHandler) (limit : Int) : List (List Byte) :=
  (MostVisitedLocationsHandler.countryKeys rangeOrder sortSlice handler).flatMap fun country =>
    formatCountry country (handler.countryCountMap.count country) ::
      (MostVisitedLocationsHandler.cityKeys rangeOrder sortSlice handler country).flatMap
        fun city =>
          formatCity city (handler.cityCount country city) ::
            (MostVisitedLocationsHandler.ipKeys rangeOrder sortSlice handler limit country
                city).map
              fun ip => formatIp ip ((handler.ipCountMap country city).count ip)

/-- The list `printed` is a top-`limit` listing of `keys` by `count`: it has
`min(limit, number of keys)` of the keys, each once; its counts do not increase down the
list; and no key left out has a greater count than a listed one. -/
def TopListing (keys : List (List Byte)) (count : List Byte → Int) (limit : Int)
    (printed : List (List Byte)) : Prop :=
  printed.length = min limit.toNat keys.length ∧
  printed.Nodup ∧
  (∀ k ∈ printed, k ∈ keys) ∧
  printed.Pairwise (fun a b => count a ≥ count b) ∧
  (∀ k ∈ keys, k ∉ printed → ∀ p ∈ printed, count k ≤ count p)

/-- Every map of the handler, at every level, has one entry per key. -/
def MostVisitedLocationsHandler.WellFormed (handler : MostVisitedLocationsHandler) : Prop :=
  handler.countryCityIpCountMap.keys.Nodup ∧
  ∀ e ∈ handler.countryCityIpCountMap, e.2.keys.Nodup ∧ ∀ e2 ∈ e.2, e2.2.keys.Nodup

instance (handler : MostVisitedLocationsHandler) : Decidable handler.WellFormed := by
  unfold MostVisitedLocationsHandler.WellFormed; infer_instance

/-- The maps after three hits: two of `10.0.0.1` in Tokyo, one of `10.0.0.2` in Osaka;
one city is listed per country. -/
def sampleLocations : MostVisitedLocationsHandler :=
  trieState 1
    [(ascii "Japan", ascii "Tokyo", ascii "10.0.0.1"),
     (ascii "Japan", ascii "Osaka", ascii "10.0.0.2"),
     (ascii "Japan", ascii "Tokyo", ascii "10.0.0.1")]

/-! ## The geo lookup of MostVisitedLocationsHandler -/

/-- The constant `countryChina`. -/
def countryChina : List Byte := ascii "China"

/-- The constant `countryJapan`. -/
def countryJapan : List Byte := ascii "Japan"

/-- The constant `areaHongKong`. -/
def areaHongKong : List Byte := ascii "Hong Kong"

/-- The constant `areaTaiwan`. -/
def areaTaiwan : List Byte := ascii "Taiwan"

/-- The constant `cityUnknown`. -/
def cityUnknown : List Byte := ascii "unknown"

/-- The constant `languageEn`. -/
def languageEn : List Byte := ascii "en"

/-- The constant `languageJa`. -/
def languageJa : List Byte := ascii "ja"

/-- The constant `languageZhCn`. -/
def languageZhCn : List Byte := ascii "zh-CN"

/-- The part of a `geoip2.City` record that `queryIpLocation` reads: the two maps from a
language to a name. -/
structure GeoRecord where
  countryNames : GoMap (List Byte)
  cityNames : GoMap (List Byte)
  deriving DecidableEq

/-- The read `names[language]` of a map of strings: the empty string for a missing key. -/
def GoMap.str (names : GoMap (List Byte)) (language : List Byte) : List Byte :=
  (names.get? language).getD []

/-- `fmt.Sprintf("%s %s", a, b)`. -/
def sprintfPair (a b : List Byte) : List Byte := a ++ ascii " " ++ b

/-- `MostVisitedLocationsHandler.queryIpLocation`. `EqualFold` is `strings.EqualFold` of
the standard library and `City` the lookup `geoLite2Db.City(net.ParseIP(ip))` of the
external database, which returns a record (or nil) and whether there is an error. The
result `none` is the end of the run through `ioutil.Fatal`. -/
def queryIpLocation (EqualFold : List Byte → List Byte → Bool)
    (City : List Byte → Option GeoRecord × Bool) (ip : List Byte) :
    Option (List Byte × List Byte) :=
  match City ip with
  | (none, _) => none
  | (some record, err) =>
    if err then none
    else
      let country := record.countryNames.str languageEn
      let city := if record.cityNames.str languageEn = [] then cityUnknown
        else record.cityNames.str languageEn
      if EqualFold countryChina country || EqualFold areaHongKong country ||
          EqualFold areaTaiwan country then
        some (sprintfPair (record.countryNames.str languageZhCn) country,
          if city ≠ cityUnknown ∧ record.cityNames.str languageZhCn ≠ [] then
            sprintfPair (record.cityNames.str languageZhCn) city
          else city)
      else if EqualFold countryJapan country then
        some (sprintfPair (record.countryNames.str languageJa) country,
          if city ≠ cityUnknown ∧ record.cityNames.str languageJa ≠ [] then
            sprintfPair (record.cityNames.str languageJa) city
          else city)
      else some (country, city)

/-- `strings.EqualFold` on ASCII text: equality after folding `A`-`Z` to `a`-`z`. -/
def asciiEqualFold (s t : List Byte) : Bool :=
  s.map (fun b => if 65 ≤ b.toNat ∧ b.toNat ≤ 90 then b + 32 else b) =
    t.map (fun b => if 65 ≤ b.toNat ∧ b.toNat ≤ 90 then b + 32 else b)

/-- The name of Japan in Japanese, in UTF-8. -/
def nihon : List Byte := [0xE6, 0x97, 0xA5, 0xE6, 0x9C, 0xAC]

/-- The name of Tokyo in Japanese, in UTF-8. -/
def tokyoJa : List Byte := [0xE6, 0x9D, 0xB1, 0xE4, 0xBA, 0xAC]

/-- A record for Tokyo, with English and Japanese names. -/
def tokyoRecord : GeoRecord :=
  { countryNames := [(ascii "en", ascii "Japan"), (ascii "ja", nihon)],
    cityNames := [(ascii "en", ascii "Tokyo"), (ascii "ja", tokyoJa)] }

/-- A database that knows one address, in Tokyo. -/
def sampleCity (ip : List Byte) : Option GeoRecord × Bool :=
  if ip = ascii "10.0.0.1" then (some tokyoRecord, false) else (none, true)

/-- The city `queryIpLocation` returns for the English city name `e` and the localized
city name `l`: `l`, a space, then `e` when both are non-empty, otherwise `e`, or the
sentinel for an empty `e`. -/
def localizedCity (e l : List Byte) : List Byte :=
  if e ≠ [] ∧ l ≠ [] then l ++ ascii " " ++ e
  else if e = [] then cityUnknown
  else e

/-- The names `queryIpLocation` is to return for a record, by the country group of its
English country name under `EqualFold`: China, Hong Kong and Taiwan take the `zh-CN`
names as prefix, Japan the `ja` names, every other country none. -/
def LocalizedNames (EqualFold : List Byte → List Byte → Bool) (record : GeoRecord)
    (country city : List Byte) : Prop :=
  (record.cityNames.str languageEn = [] → city = cityUnknown) ∧
  ((EqualFold countryChina (record.countryNames.str languageEn) = true ∨
      EqualFold areaHongKong (record.countryNames.str languageEn) = true ∨
      EqualFold areaTaiwan (record.countryNames.str languageEn) = true) →
    country = record.countryNames.str languageZhCn ++ ascii " " ++
      record.countryNames.str languageEn ∧
    city = localizedCity (record.cityNames.str languageEn)
      (record.cityNames.str languageZhCn)) ∧
  (¬ (EqualFold countryChina (record.countryNames.str languageEn) = true ∨
      EqualFold areaHongKong (record.countryNames.str languageEn) = true ∨
      EqualFold areaTaiwan (record.countryNames.str languageEn) = true) →
    EqualFold countryJapan (record.countryNames.str languageEn) = true →
    country = record.countryNames.str languageJa ++ ascii " " ++
      record.countryNames.str languageEn ∧
    city = localizedCity (record.cityNames.str languageEn)
      (record.cityNames.str languageJa)) ∧
  (¬ (EqualFold countryChina (record.countryNames.str languageEn) = true ∨
      EqualFold areaHongKong (record.countryNames.str languageEn) = true ∨
      EqualFold areaTaiwan (record.countryNames.str languageEn) = true) →
    EqualFold countryJapan (record.countryNames.str languageEn) = false →
    country = record.countryNames.str languageEn ∧
    city = (if record.cityNames.str languageEn = [] then cityUnknown
      else record.cityNames.str languageEn))

/-! ## The address cache of MostVisitedLocationsHandler -/

/-- Modelled from the spec: the cache of `cache.NewLruCache`, whose package is not among
the sources. A store of fixed capacity; `entries` holds the most recently used key
first. -/
structure LruCache (V : Type) where
  capacity : Nat
  entries : List (List Byte × V)
  deriving DecidableEq

/-- Modelled from the spec: `cache.NewLruCache(capacity)`, an empty cache. -/
def NewLruCache (V : Type) (capacity : Nat) : LruCache V := ⟨capacity, []⟩

/-- Modelled from the spec: `Get` returns the stored value and marks the key most recently
used, or signals a miss with nil. -/
def LruCache.Get {V : Type} (c : LruCache V) (key : List Byte) : Option V × LruCache V :=
  match c.entries.find? (fun e => decide (e.1 = key)) with
  | none => (none, c)
  | some e =>
    (some e.2, { c with entries := e :: c.entries.filter (fun e2 => decide (e2.1 ≠ key)) })

/-- Modelled from the spec: `Put` inserts or replaces the value of the key and marks it
most recently used; beyond the capacity the least recently used key goes. -/
def LruCache.Put {V : Type} (c : LruCache V) (key : List Byte) (value : V) : LruCache V :=
  { c with
    entries := ((key, value) :: c.entries.filter (fun e => decide (e.1 ≠ key))).take c.capacity }

/-- A `MostVisitedLocationsHandler` with the two fields that the count maps leave out:
the cache `ipLocationCache`, and for `geoLite2Db` the addresses it has been asked for so
far, oldest first. -/
structure GeoLookups where
  handler : MostVisitedLocationsHandler
  ipLocationCache : LruCache (List Byte × List Byte)
  queries : List (List Byte)

/-- `NewMostVisitedLocationsHandler`: empty maps, a cache of 1000 entries, a database
that has not been asked yet. -/
def NewGeoLookups (limitSecond : Int) : GeoLookups :=
  { handler := NewMostVisitedLocationsHandler limitSecond,
    ipLocationCache := NewLruCache (List Byte × List Byte) 1000,
    queries := [] }

/-- `MostVisitedLocationsHandler.queryIpLocation` with the call of the database
recorded. -/
def GeoLookups.loggedQueryIpLocation (EqualFold : List Byte → List Byte → Bool)
    (City : List Byte → Option GeoRecord × Bool) (s : GeoLookups) (ip : List Byte) :
    Option (List Byte × List Byte) × GeoLookups :=
  (queryIpLocation EqualFold City ip, { s with queries := s.queries ++ [ip] })

/-- `MostVisitedLocationsHandler.cachedQueryIpLocation`: the cached pair on a hit; on a
miss the database is asked and the answer stored. No function of the program calls it. -/
def GeoLookups.cachedQueryIpLocation (EqualFold : List Byte → List Byte → Bool)
    (City : List Byte → Option GeoRecord × Bool) (s : GeoLookups) (ip : List Byte) :
    Option (List Byte × List Byte) × GeoLookups :=
  match s.ipLocationCache.Get ip with
  | (some entry, cache) => (some entry, { s with ipLocationCache := cache })
  | (none, cache) =>
    match GeoLookups.loggedQueryIpLocation EqualFold City { s with ipLocationCache := cache } ip with
    | (none, s1) => (none, s1)
    | (some entry, s1) =>
      (some entry, { s1 with ipLocationCache := s1.ipLocationCache.Put ip entry })

/-- `MostVisitedLocationsHandler.Input` on the whole handler: the first statement is the
call `handler.queryIpLocation(info.RemoteAddr)`, then the three count maps are updated
as in `MostVisitedLocationsHandler.Input`. -/
def GeoLookups.Input {F : Type} (EqualFold : List Byte → List Byte → Bool)
    (City : List Byte → Option GeoRecord × Bool) (s : GeoLookups)
    (info : Option (LogInfo F)) : Outcome GeoLookups :=
  match info with
  | none => .panic
  | some i =>
    match GeoLookups.loggedQueryIpLocation EqualFold City s i.RemoteAddr with
    | (none, _) => Fatal
    | (some (country, city), s1) =>
      (((s1.handler.saveCountry country).saveCity country city).bind fun h =>
        h.saveIp country city i.RemoteAddr).map fun h => { s1 with handler := h }

/-! ## JsonParser -/

/-- `JsonParser.ParseLog`. `Unmarshal` is `json.Unmarshal` of the standard library into a
fresh `LogInfo`: the record decoded from the text, or `none` for its error. The slice
`line[:len(line)-1]` is taken first. -/
def JsonParser.ParseLog {F : Type} (Unmarshal : List Byte → Option (LogInfo F))
    (line : List Byte) : Outcome (LogInfo F) :=
  match slice line 0 ((line.length : Int) - 1) with
  | none => .panic
  | some data =>
    match Unmarshal data with
    | none => Fatal
    | some logInfo => .ok logInfo

/-- The decoder `json.Unmarshal` on the two texts used below: the empty object `{}`
decodes to the record with every field empty or zero, and the lone brace is an error (as
is every other text here). -/
def sampleUnmarshal (data : List Byte) : Option (LogInfo Unit) :=
  if data = ascii "\x7b\x7d" then some (recordAt []) else none

/-- The goroutine of `testProcess` for one line: the call of the parser (step 2), then the
filter and the record handed to `handler.Input` (steps 3 and 4). `ParseLog` is the method
of the parser held by the analyzer; its result `none` is a nil pointer. -/
def testProcessTask {F : Type} (ParseLog : List Byte → Outcome (Option (LogInfo F)))
    (layout : List Byte → Option Time) (since util : Time) (data : List Byte) :
    Outcome (LineResult F) :=
  (ParseLog data).bind (testProcessLine layout since util)

/-! ## The pipeline -/

/-- A call that the pipeline makes on the parser or on the handler of the analyzer. -/
inductive Call (F : Type) where
  | ParseLog (data : List Byte)
  | Input (logInfo : Option (LogInfo F))
  | Output (limit : Int)
  deriving DecidableEq

/-- The loop around `reader.ReadBytes('\n')` on the rest `content` of a file, `cur` being
the bytes of the current line read so far: the lines handed on, each with its newline.
At the end of the content `ReadBytes` returns what is left together with `io.EOF`, and
the loop breaks on `io.EOF` without using it. -/
def readLinesFrom : List Byte → List Byte → List (List Byte)
  | [], _ => []
  | b :: content, cur =>
    if b = 10 then (cur ++ [b]) :: readLinesFrom content []
    else readLinesFrom content (cur ++ [b])

/-- The lines that the read loop of `testProcess` and of `generator` hands on. -/
def readLines (content : List Byte) : List (List Byte) := readLinesFrom content []

/-- The state of a run: the state of the handler and the calls made so far, oldest
first. -/
structure Run (H F : Type) where
  handler : H
  calls : List (Call F)

/-- The effect on the run of one line goroutine whose result up to step 4 is `task`:
`Input` is the method of the handler held by the analyzer. -/
def runTask {H F : Type} (Input : H → Option (LogInfo F) → Outcome H) (run : Run H F)
    (data : List Byte) (task : Outcome (LineResult F)) : Outcome (Run H F) :=
  task.bind fun r =>
    match r with
    | .dropped => .ok { run with calls := run.calls ++ [.ParseLog data] }
    | .input logInfo =>
      (Input run.handler logInfo).map fun h =>
        { handler := h, calls := run.calls ++ [.ParseLog data, .Input logInfo] }

/-- The goroutine of `merge` for one line: `parseLog(loganalyzer, pLog)`, the call of the
parser included. -/
def mergeTask {F : Type} (ParseLog : List Byte → Outcome (Option (LogInfo F)))
    (layout : List Byte → Option Time) (since util : Time) (data : List Byte) :
    Outcome (LineResult F) :=
  (ParseLog data).bind (parseLog layout since util)

/-- Running the goroutines of a list of lines. They are run here one after the other in
the order of the lines, which is one of the schedules of the program. -/
def runTasks {H F : Type} (Input : H → Option (LogInfo F) → Outcome H)
    (task : List Byte → Outcome (LineResult F)) : Run H F → List (List Byte) →
    Outcome (Run H F)
  | run, [] => .ok run
  | run, data :: rest =>
    (runTask Input run data (task data)).bind fun run1 => runTasks Input task run1 rest

/-- The loop of `testProcess` or `process` over the files; a file is its content, or
`none` when it cannot be opened or read, which ends the run through `ioutil.Fatal`. -/
def runFiles {H F : Type} (Input : H → Option (LogInfo F) → Outcome H)
    (task : List Byte → Outcome (LineResult F)) : Run H F → List (Option (List Byte)) →
    Outcome (Run H F)
  | run, [] => .ok run
  | _, none :: _ => Fatal
  | run, some content :: rest =>
    (runTasks Input task run (readLines content)).bind fun run1 =>
      runFiles Input task run1 rest

/-- `testProcess`: for every file the read loop with one goroutine per line and the wait
for them; after the last file the line `loganalyzer.handler.Output(limit)` is a comment,
so only the elapsed time is printed and the run ends. -/
def testProcess {H F : Type} (ParseLog : List Byte → Outcome (Option (LogInfo F)))
    (Input : H → Option (LogInfo F) → Outcome H) (layout : List Byte → Option Time)
    (since util : Time) (handler : H) (logFiles : List (Option (List Byte))) :
    Outcome (Run H F) :=
  runFiles Input (testProcessTask ParseLog layout since util)
    { handler := handler, calls := [] } logFiles

/-- The file that the generator goroutine started in iteration `i` of the loop of `process`
opens. Its closure names the loop variable `logFile`, which all iterations share (the
loop semantics of Go before 1.22), and reads it when the goroutine runs: it finds the
file of iteration `i` or of a later one. `reads i` is the iteration whose file the
goroutine finds, kept within `i .. len(logFiles) - 1`. -/
def capturedFile (logFiles : List (Option (List Byte))) (reads : Nat → Nat) (i : Nat) :
    Option (List Byte) :=
  (logFiles.get? (min (max i (reads i)) (logFiles.length - 1))).getD none

/-- `process`: `generator` and `merge` for every file, then `wg.Wait()`; here too the line
`loganalyzer.handler.Output(limit)` is a comment. The generator of iteration `i` reads the
file `capturedFile logFiles reads i`. -/
def process {H F : Type} (ParseLog : List Byte → Outcome (Option (LogInfo F)))
    (Input : H → Option (LogInfo F) → Outcome H) (layout : List Byte → Option Time)
    (since util : Time) (reads : Nat → Nat) (handler : H)
    (logFiles : List (Option (List Byte))) : Outcome (Run H F) :=
  runFiles Input (mergeTask ParseLog layout since util)
    { handler := handler, calls := [] }
    ((List.range logFiles.length).map (capturedFile logFiles reads))

/-- The method `ParseLog` of a `CombinedParser` behind the interface `Parser`: the pointer
it returns is never nil. -/
def CombinedParser.asParser {F : Type} (fl : Float64Ops F) (line : List Byte) :
    Outcome (Option (LogInfo F)) :=
  (CombinedParser.ParseLog fl line).map some

/-- A short line in the combined format. -/
def shortLog : List Byte :=
  ascii "10.0.0.1 - - [01/Jan/2024:00:00:00 +0000] \"GET / HTTP/1.1\" 200 5 \"-\" \"curl\"\n"

/-- The record of `shortLog`. -/
def shortRecord : LogInfo Unit :=
  { RemoteAddr := ascii "10.0.0.1", RemoteUser := ascii "-",
    TimeLocal := ascii "01/Jan/2024:00:00:00 +0000", Method := [],
    Request := ascii "GET / HTTP/1.1", Protocol := [], Status := 200, BodyBytesSent := 5,
    HttpReferer := ascii "-", HttpUserAgent := ascii "curl", RequestTime := () }

/-! ## Concurrent calls of MostVisitedLocationsHandler.Input

`MostVisitedLocationsHandler` has no mutex and its `Input` takes no lock, so the
statements of two goroutines that run `Input` may alternate. Each of the three blocks of
`Input` is split here into its test (the condition of the `if`) and its body; a
goroutine is stopped only between those, which is coarser than what the program
allows. -/

/-- The condition `_, ok := handler.countryCityIpCountMap[country]`. -/
def MostVisitedLocationsHandler.testCountry (handler : MostVisitedLocationsHandler)
    (country : List Byte) : Bool :=
  (handler.countryCityIpCountMap.get? country).isSome

/-- The body of the block "save or update by country" chosen by `ok`. -/
def MostVisitedLocationsHandler.applyCountry (handler : MostVisitedLocationsHandler)
    (country : List Byte) (ok : Bool) : MostVisitedLocationsHandler :=
  if ok then { handler with countryCountMap := handler.countryCountMap.incr country }
  else
    { handler with
      countryCountMap := handler.countryCountMap.set country 1,
      countryCityCountMap := handler.countryCityCountMap.set country [],
      countryCityIpCountMap := handler.countryCityIpCountMap.set country [] }

/-- The condition `_, ok := handler.countryCityIpCountMap[country][city]`. -/
def MostVisitedLocationsHandler.testCity (handler : MostVisitedLocationsHandler)
    (country city : List Byte) : Bool :=
  ((handler.countryCityIpCountMap.get? country).bind (fun m => m.get? city)).isSome

/-- The body of the block "save or update by city" chosen by `ok`. -/
def MostVisitedLocationsHandler.applyCity (handler : MostVisitedLocationsHandler)
    (country city : List Byte) (ok : Bool) : Outcome MostVisitedLocationsHandler :=
  if ok then
    match handler.countryCityCountMap.get? country with
    | none => .panic
    | some cities =>
      .ok { handler with
            countryCityCountMap := handler.countryCityCountMap.set country (cities.incr city) }
  else
    match handler.countryCityCountMap.get? country with
    | none => .panic
    | some cities =>
      match handler.countryCityIpCountMap.get? country with
      | none => .panic
      | some cityIps =>
        .ok { handler with
              countryCityCountMap := handler.countryCityCountMap.set country (cities.set city 1),
              countryCityIpCountMap :=
                handler.countryCityIpCountMap.set country (cityIps.set city []) }

/-- The condition `_, ok := handler.countryCityIpCountMap[country][city][ip]`. -/
def MostVisitedLocationsHandler.testIp (handler : MostVisitedLocationsHandler)
    (country city ip : List Byte) : Bool :=
  (((handler.countryCityIpCountMap.get? country).bind (fun m => m.get? city)).bind
    (fun m => m.get? ip)).isSome

/-- The body of the block "save or update by ip address" chosen by `ok`. -/
def MostVisitedLocationsHandler.applyIp (handler : MostVisitedLocationsHandler)
    (country city ip : List Byte) (ok : Bool) : Outcome MostVisitedLocationsHandler :=
  match handler.countryCityIpCountMap.get? country with
  | none => .panic
  | some cityIps =>
    match cityIps.get? city with
    | none => .panic
    | some ips =>
      if ok then
        .ok { handler with
              countryCityIpCountMap :=
                handler.countryCityIpCountMap.set country (cityIps.set city (ips.incr ip)) }
      else
        .ok { handler with
              countryCityIpCountMap :=
                handler.countryCityIpCountMap.set country (cityIps.set city (ips.set ip 1)) }

/-- Where a goroutine stands in `MostVisitedLocationsHandler.Input`, after the call of
`queryIpLocation`: before the test of a block, or before its body with the result `ok`
of the test. -/
inductive InputPc where
  | country
  | countryBody (ok : Bool)
  | city
  | cityBody (ok : Bool)
  | ip
  | ipBody (ok : Bool)
  | done
  deriving DecidableEq

/-- A goroutine in `MostVisitedLocationsHandler.Input`: its locals and where it
stands. -/
structure InputTask where
  country : List Byte
  city : List Byte
  ip : List Byte
  pc : InputPc
  deriving DecidableEq

/-- One step of a goroutine on the shared maps. -/
def InputTask.step (handler : MostVisitedLocationsHandler) (t : InputTask) :
    Outcome (MostVisitedLocationsHandler × InputTask) :=
  match t.pc with
  | .country => .ok (handler, { t with pc := .countryBody (handler.testCountry t.country) })
  | .countryBody ok => .ok (handler.applyCountry t.country ok, { t with pc := .city })
  | .city => .ok (handler, { t with pc := .cityBody (handler.testCity t.country t.city) })
  | .cityBody ok =>
    (handler.applyCity t.country t.city ok).map fun h => (h, { t with pc := .ip })
  | .ip => .ok (handler, { t with pc := .ipBody (handler.testIp t.country t.city t.ip) })
  | .ipBody ok =>
    (handler.applyIp t.country t.city t.ip ok).map fun h => (h, { t with pc := .done })
  | .done => .ok (handler, t)

/-- The goroutines `tasks` run under a schedule: the list of the goroutines that take the
next step, by position. -/
def interleave : MostVisitedLocationsHandler → List InputTask → List Nat →
    Outcome (MostVisitedLocationsHandler × List InputTask)
  | handler, tasks, [] => .ok (handler, tasks)
  | handler, tasks, i :: schedule =>
    match tasks.get? i with
    | none => interleave handler tasks schedule
    | some t =>
      (t.step handler).bind fun r => interleave r.1 (tasks.set i r.2) schedule

/-- What the listing shows of a state for one address: the counts of its country, city
and address, and where the goroutines stand. -/
def countsOf (country city ip : List Byte)
    (r : MostVisitedLocationsHandler × List InputTask) : Int × Int × Int × List InputPc :=
  (r.1.countryCountMap.count country, r.1.cityCount country city,
    (r.1.ipCountMap country city).count ip, r.2.map (fun t => t.pc))

/-- A goroutine for the address `10.0.0.1`, resolved to Tokyo in Japan, that has not
taken a step yet. -/
def tokyoTask : InputTask :=
  { country := ascii "Japan", city := ascii "Tokyo", ip := ascii "10.0.0.1", pc := .country }

/-! ## One iteration of the scan loop of CombinedParser.ParseLog -/

/-- One evaluation of the loop condition of `CombinedParser.ParseLog` and, when it holds,
of the loop body: `none` when the condition fails, the next state otherwise. -/
def scanIteration (delimiters : List (List Byte)) (line : List Byte) (st : ScanState) :
    Outcome (Option ScanState) :=
  match delimiters.get? st.k with
  | none => .ok none
  | some d =>
    if (st.j : Int) ≤ (line.length : Int) - (d.length : Int) then
      match slice line st.j (st.j + d.length) with
      | none => .panic
      | some w =>
        if w = d then
          match slice line st.i st.j with
          | none => .panic
          | some v =>
            .ok (some { vars := st.vars ++ [v], i := st.j + d.length,
                        j := st.j + d.length, k := st.k + 1 })
        else .ok (some { st with j := st.j + 1 })
    else .ok none

/-- The state of the scan loop before its first iteration. -/
def scanStart : ScanState := { vars := [], i := 0, j := 0, k := 0 }

/-! ## The lines of a source -/

/-- The lines handed to `ParseLog` among the calls of a run, oldest first. -/
def parseCalls {F : Type} (calls : List (Call F)) : List (List Byte) :=
  calls.filterMap fun c =>
    match c with
    | .ParseLog data => some data
    | _ => none

/-- The byte sequence `content` is the lines `lines`, each ended by its only newline,
followed by a segment `rest` without newline. -/
def LineSplit (content : List Byte) (lines : List (List Byte)) (rest : List Byte) : Prop :=
  content = lines.flatten ++ rest ∧
  (∀ l ∈ lines, ∃ body : List Byte, l = body ++ [10] ∧ (10 : Byte) ∉ body) ∧
  (10 : Byte) ∉ rest

/-- The lines of a content as the specification counts them: the segments ended by a
newline, and the final segment when it is not empty. -/
def specLines (lines : List (List Byte)) (rest : List Byte) : List (List Byte) :=
  if rest = [] then lines else lines ++ [rest]

/-- The line `shortLog` without its newline. -/
def shortLogOpen : List Byte :=
  ascii "10.0.0.1 - - [01/Jan/2024:00:00:00 +0000] \"GET / HTTP/1.1\" 200 5 \"-\" \"curl\""

/-! ## Output of PvAndUvHandler -/

/-- `PvAndUvHandler.Output`: the two lines `PV: <pv>` and `UV: <uv>`, the counters being
printed in decimal; the limit is not used. -/
def PvAndUvHandler.Output (handler : PvAndUvHandler) (_limit : Int) : List (List Byte) :=
  [ascii "PV: " ++ Itoa handler.pv ++ ascii "\n", ascii "UV: " ++ Itoa handler.uv ++ ascii "\n"]

/-- The number of distinct `RemoteAddr` values of a sequence of records. -/
def distinctAddrs {F : Type} (rs : List (LogInfo F)) : Nat :=
  ((rs.map fun r => r.RemoteAddr).dedup).length

/-- The aggregate state of a `PvAndUvHandler` after records with the addresses `seen`:
both counters wrapped to 32 bits, and the set of the addresses. -/
def pvUvAfter (seen : List (List Byte)) : Int × Int × (List Byte → Option Bool) :=
  (wrapInt32 (seen.length : Int), wrapInt32 (seen.dedup.length : Int),
    fun k => if k ∈ seen then some true else none)

/-! ## The rollup of MostVisitedLocationsHandler -/

/-- The sum of the counts of a map of counters. -/
def GoMap.total (m : GoMap Int) : Int := (m.map fun e => e.2).sum

/-- Every key of `m` is a key of `m1`, with a value related by `R` to the one it had. -/
def GoMap.Grows {V : Type} (R : V → V → Prop) (m m1 : GoMap V) : Prop :=
  ∀ k v, m.get? k = some v → ∃ v1, m1.get? k = some v1 ∧ R v v1

/-- The read `handler.countryCityCountMap[country]`; a missing country reads as the empty
map. -/
def MostVisitedLocationsHandler.cityCountMap (handler : MostVisitedLocationsHandler)
    (country : List Byte) : GoMap Int :=
  (handler.countryCityCountMap.get? country).getD []

/-- The rollup of the three maps after `calls` calls of `Input`: every map has one entry
per key; the three maps hold the same countries and, per country, the same cities; the
count of a country is the sum of the counts of its cities, the count of a city the sum of
the counts of its addresses, and the counts of the countries add up to `calls`. -/
def Rollup (handler : MostVisitedLocationsHandler) (calls : Nat) : Prop :=
  handler.countryCountMap.keys.Nodup ∧
  handler.countryCityCountMap.keys.Nodup ∧
  (∀ country, (handler.cityCountMap country).keys.Nodup) ∧
  handler.WellFormed ∧
  (∀ country, country ∈ handler.countryCountMap.keys ↔
    country ∈ handler.countryCityIpCountMap.keys) ∧
  (∀ country, country ∈ handler.countryCityCountMap.keys ↔
    country ∈ handler.countryCityIpCountMap.keys) ∧
  (∀ country city, city ∈ (handler.cityCountMap country).keys ↔
    city ∈ (handler.cityIpCountMap country).keys) ∧
  (∀ country, handler.countryCountMap.count country =
    GoMap.total (handler.cityCountMap country)) ∧
  (∀ country city, handler.cityCount country city =
    GoMap.total (handler.ipCountMap country city)) ∧
  GoMap.total handler.countryCountMap = (calls : Int)

/-- From `handler` to `handler1` no key is removed and no count lowered, at any of the
three levels. -/
def MostVisitedLocationsHandler.GrowsTo (handler handler1 : MostVisitedLocationsHandler) :
    Prop :=
  GoMap.Grows (fun a b : Int => a ≤ b) handler.countryCountMap handler1.countryCountMap ∧
  GoMap.Grows (GoMap.Grows (fun a b : Int => a ≤ b)) handler.countryCityCountMap
    handler1.countryCityCountMap ∧
  GoMap.Grows (GoMap.Grows (GoMap.Grows (fun a b : Int => a ≤ b)))
    handler.countryCityIpCountMap handler1.countryCityIpCountMap

/-! ## The parser that the program installs -/

/-- The constant `LogFormatTypeCombined`. -/
def LogFormatTypeCombined : List Byte := ascii "combined"

/-- The constant `LogFormatTypeJson`. -/
def LogFormatTypeJson : List Byte := ascii "json"

/-- The method `ParseLog` of a `JsonParser` behind the interface `Parser`: the pointer it
returns is never nil. -/
def JsonParser.asParser {F : Type} (Unmarshal : List Byte → Option (LogInfo F))
    (line : List Byte) : Outcome (Option (LogInfo F)) :=
  (JsonParser.ParseLog Unmarshal line).map some

/-- `newLogParser`: the parser for the value of the flag `-lf`, or the end of the run
through `ioutil.Fatal` for any other value. -/
def newLogParser {F : Type} (fl : Float64Ops F) (Unmarshal : List Byte → Option (LogInfo F))
    (logFormat : List Byte) : Outcome (List Byte → Outcome (Option (LogInfo F))) :=
  if logFormat = LogFormatTypeCombined then .ok (CombinedParser.asParser fl)
  else if logFormat = LogFormatTypeJson then .ok (JsonParser.asParser Unmarshal)
  else Fatal

/-- No skip on a grammar mismatch, for one line under one parser: the parser returns a
record or ends the run, and then the per-line step ends the run too; the per-line step
drops the line only after the parser has returned a record, which the time window
excludes. -/
def NoSkipOnMismatch {F : Type} (parser : List Byte → Outcome (Option (LogInfo F)))
    (layout : List Byte → Option Time) (since util : Time) (line : List Byte) : Prop :=
  (parser line = Fatal ∨ ∃ r, parser line = .ok (some r)) ∧
  (parser line = Fatal →
    testProcessTask parser layout since util line = Fatal ∧
      mergeTask parser layout since util line = Fatal) ∧
  (testProcessTask parser layout since util line = .ok .dropped →
    ∃ r, parser line = .ok (some r) ∧
      testProcessLine layout since util (some r) = .ok .dropped)

/-- A second line in the combined format, from another address. -/
def otherLog : List Byte :=
  ascii "10.0.0.2 - - [01/Jan/2024:00:00:00 +0000] \"GET / HTTP/1.1\" 200 5 \"-\" \"curl\"\n"

/-- The record of `otherLog`. -/
def otherRecord : LogInfo Unit :=
  { RemoteAddr := ascii "10.0.0.2", RemoteUser := ascii "-",
    TimeLocal := ascii "01/Jan/2024:00:00:00 +0000", Method := [],
    Request := ascii "GET / HTTP/1.1", Protocol := [], Status := 200, BodyBytesSent := 5,
    HttpReferer := ascii "-", HttpUserAgent := ascii "curl", RequestTime := () }

/-! ## Theorems -/

/-! ### CombinedParser -/

theorem slice_nat (s : List Byte) (a b : Nat) (h1 : a ≤ b) (h2 : b ≤ s.length) :
    slice s (a : Int) (b : Int) = some ((s.drop a).take (b - a)) := by
  unfold slice
  have h : (0 : Int) ≤ (a : Int) ∧ (a : Int) ≤ (b : Int) ∧ (b : Int) ≤ (s.length : Int) := by
    omega
  simp [h]

theorem slice_nat_add (s : List Byte) (a n : Nat) (h2 : a + n ≤ s.length) :
    slice s (a : Int) ((a : Int) + (n : Int)) = some ((s.drop a).take n) := by
  have := slice_nat s a (a + n) (by omega) h2
  simpa using this

theorem findFirst_eq_some {d : List Byte} :
    ∀ {s f rest : List Byte}, findFirst d s = some (f, rest) → s = f ++ d ++ rest := by
  intro s
  induction s with
  | nil =>
    intro f rest h
    unfold findFirst at h
    split at h
    · next hd => cases h; simp [hd]
    · cases h
  | cons c cs ih =>
    intro f rest h
    unfold findFirst at h
    split at h
    · next ht =>
      cases h
      have := List.take_append_drop d.length (c :: cs)
      rw [ht] at this
      simpa using this.symm
    · cases hf : findFirst d cs with
      | none => simp [hf] at h
      | some r =>
        obtain ⟨f', rest'⟩ := r
        simp [hf] at h
        obtain ⟨rfl, rfl⟩ := h
        have := ih hf
        simp [this]


theorem scanLoop_step_match (delims : List (List Byte)) (line d : List Byte)
    (vars : List (List Byte)) (i j k fuel : Nat) (hd : delims.get? k = some d)
    (hij : i ≤ j) (hm : (line.drop j).take d.length = d) (hlen : j + d.length ≤ line.length) :
    scanLoop delims line (fuel + 1) ⟨vars, i, j, k⟩ =
      scanLoop delims line fuel
        ⟨vars ++ [(line.drop i).take (j - i)], j + d.length, j + d.length, k + 1⟩ := by
  have hc : (j : Int) ≤ (line.length : Int) - (d.length : Int) := by omega
  rw [scanLoop]
  simp only [hd, hc, if_true, slice_nat_add line j d.length hlen, hm,
    slice_nat line i j hij (by omega)]

theorem scanLoop_step_skip (delims : List (List Byte)) (line d : List Byte)
    (vars : List (List Byte)) (i j k fuel : Nat) (hd : delims.get? k = some d)
    (hm : (line.drop j).take d.length ≠ d) (hlen : j + d.length ≤ line.length) :
    scanLoop delims line (fuel + 1) ⟨vars, i, j, k⟩ =
      scanLoop delims line fuel ⟨vars, i, j + 1, k⟩ := by
  have hc : (j : Int) ≤ (line.length : Int) - (d.length : Int) := by omega
  rw [scanLoop]
  simp only [hd, hc, if_true, slice_nat_add line j d.length hlen, hm, if_false]

theorem scanLoop_step_exit (delims : List (List Byte)) (line d : List Byte)
    (st : ScanState) (fuel : Nat) (hd : delims.get? st.k = some d)
    (hlen : line.length < st.j + d.length) :
    scanLoop delims line (fuel + 1) st = .ok st := by
  have hc : ¬ (st.j : Int) ≤ (line.length : Int) - (d.length : Int) := by omega
  rw [scanLoop]
  simp only [hd, hc, if_false]

theorem scanLoop_step_done (delims : List (List Byte)) (line : List Byte)
    (st : ScanState) (fuel : Nat) (hd : delims.get? st.k = none) :
    scanLoop delims line (fuel + 1) st = .ok st := by
  rw [scanLoop]
  simp only [hd]

theorem findFirst_length_le {d : List Byte} {s f rest : List Byte}
    (h : findFirst d s = some (f, rest)) : f.length + d.length + rest.length = s.length := by
  have := congrArg List.length (findFirst_eq_some h)
  simp at this
  omega

theorem scanLoop_find (delims : List (List Byte)) (line d : List Byte) (k : Nat)
    (hd : delims.get? k = some d) :
    ∀ (s : List Byte) (j i : Nat) (vars : List (List Byte)) (fuel : Nat),
      line.drop j = s → i ≤ j → j ≤ line.length →
      match findFirst d s with
      | some (f, _) =>
          scanLoop delims line (fuel + f.length + 1) ⟨vars, i, j, k⟩ =
            scanLoop delims line fuel
              ⟨vars ++ [(line.drop i).take (j + f.length - i)], j + f.length + d.length,
                j + f.length + d.length, k + 1⟩
      | none =>
          ∃ j', scanLoop delims line (fuel + s.length + 1) ⟨vars, i, j, k⟩ =
            .ok ⟨vars, i, j', k⟩ := by
  intro s
  induction s with
  | nil =>
    intro j i vars fuel hs hij hj
    have hjl : j = line.length := by
      have := congrArg List.length hs
      simp at this; omega
    unfold findFirst
    by_cases hd0 : d = []
    · simp only [hd0, if_true]
      have := scanLoop_step_match delims line d vars i j k fuel hd hij
        (by simp [hd0]) (by simp [hd0]; omega)
      simpa [hd0] using this
    · simp only [hd0, if_false]
      refine ⟨j, ?_⟩
      have hpos : 0 < d.length := List.length_pos.mpr hd0
      exact scanLoop_step_exit delims line d ⟨vars, i, j, k⟩ _ hd (by simp; omega)
  | cons c cs ih =>
    intro j i vars fuel hs hij hj
    have hjl : j + (cs.length + 1) = line.length := by
      have := congrArg List.length hs
      simp at this; omega
    have hs' : line.drop (j + 1) = cs := by
      rw [← List.drop_drop, hs]; rfl
    unfold findFirst
    by_cases hm : (c :: cs).take d.length = d
    · simp only [hm, if_true]
      have hlen : j + d.length ≤ line.length := by
        have := congrArg List.length hm
        simp at this; omega
      have := scanLoop_step_match delims line d vars i j k fuel hd hij (by rw [hs]; exact hm) hlen
      simpa using this
    · simp only [hm, if_false]
      by_cases hlen : j + d.length ≤ line.length
      · have hstep := fun fuel => scanLoop_step_skip delims line d vars i j k fuel hd
          (by rw [hs]; exact hm) hlen
        have ih' := ih (j + 1) i vars fuel hs' (by omega) (by omega)
        cases hf : findFirst d cs with
        | none =>
          simp only [hf] at ih' ⊢
          obtain ⟨j', hj'⟩ := ih'
          refine ⟨j', ?_⟩
          simp only [Option.map_none', List.length_cons]
          rw [show fuel + (cs.length + 1) + 1 = (fuel + cs.length + 1) + 1 by omega, hstep, hj']
        | some r =>
          obtain ⟨f', rest'⟩ := r
          simp only [hf] at ih' ⊢
          simp only [Option.map_some', List.length_cons]
          rw [show fuel + (f'.length + 1) + 1 = (fuel + f'.length + 1) + 1 by omega, hstep, ih']
          simp only [show j + 1 + f'.length = j + (f'.length + 1) by omega]
      · cases hf : findFirst d cs with
        | none =>
          simp only [Option.map_none']
          exact ⟨j, scanLoop_step_exit delims line d ⟨vars, i, j, k⟩ _ hd (by simp; omega)⟩
        | some r =>
          obtain ⟨f', rest'⟩ := r
          have := findFirst_length_le hf
          omega

theorem scanLoop_split (delims : List (List Byte)) (line : List Byte) :
    ∀ (ds : List (List Byte)) (k j : Nat) (vars : List (List Byte)) (fuel : Nat),
      delims.drop k = ds → k ≤ delims.length → j ≤ line.length →
      (line.length - j) + ds.length + 1 ≤ fuel →
      match splitFields ds (line.drop j) with
      | some fs => ∃ j', scanLoop delims line fuel ⟨vars, j, j, k⟩ =
          .ok ⟨vars ++ fs, j', j', delims.length⟩
      | none => ∃ st, scanLoop delims line fuel ⟨vars, j, j, k⟩ = .ok st ∧
          st.k < delims.length := by
  intro ds
  induction ds with
  | nil =>
    intro k j vars fuel hds hk hj hfuel
    have hk' : k = delims.length := by
      have := congrArg List.length hds
      simp at this; omega
    obtain ⟨fuel', rfl⟩ : ∃ f', fuel = f' + 1 := ⟨fuel - 1, by omega⟩
    simp only [splitFields]
    refine ⟨j, ?_⟩
    have hnone : delims.get? k = none := by
      rw [List.get?_eq_getElem?, List.getElem?_eq_none]; omega
    rw [scanLoop_step_done delims line ⟨vars, j, j, k⟩ fuel' hnone, hk']
    simp
  | cons d ds ih =>
    intro k j vars fuel hds hk hj hfuel
    have hklt : k < delims.length := by
      have := congrArg List.length hds
      simp at this; omega
    have hd : delims.get? k = some d := by
      rw [List.get?_eq_getElem?, ← List.head?_drop, hds]; rfl
    have hds' : delims.drop (k + 1) = ds := by
      rw [← List.drop_drop, hds]; rfl
    simp only [splitFields]
    cases hf : findFirst d (line.drop j) with
    | none =>
      simp only []
      have hfind := scanLoop_find delims line d k hd (line.drop j) j j vars
        (fuel - (line.drop j).length - 1) rfl (le_refl _) hj
      simp only [hf] at hfind
      obtain ⟨j', hj'⟩ := hfind
      refine ⟨⟨vars, j, j', k⟩, ?_, hklt⟩
      rw [← hj']
      congr 1
      simp at hfuel ⊢
      omega
    | some r =>
      obtain ⟨f, rest⟩ := r
      simp only []
      have hsplit := findFirst_eq_some hf
      have hlen := findFirst_length_le hf
      simp only [List.length_drop] at hlen
      have hfind := scanLoop_find delims line d k hd (line.drop j) j j vars
        (fuel - f.length - 1) rfl (le_refl _) hj
      simp only [hf] at hfind
      have hfuel' : fuel - f.length - 1 + f.length + 1 = fuel := by
        simp at hfuel; omega
      rw [hfuel'] at hfind
      have htake : (line.drop j).take (j + f.length - j) = f := by
        rw [hsplit]; simp
      rw [htake] at hfind
      have hrest : line.drop (j + f.length + d.length) = rest := by
        rw [show j + f.length + d.length = j + (f.length + d.length) by omega,
          ← List.drop_drop, hsplit]
        simp [List.append_assoc]
      have ih' := ih (k + 1) (j + f.length + d.length) (vars ++ [f]) (fuel - f.length - 1)
        hds' (by omega) (by omega) (by simp at hfuel ⊢; omega)
      rw [hrest] at ih'
      cases hs : splitFields ds rest with
      | none =>
        simp only [hs] at ih' ⊢
        simp only [Option.map_none']
        rw [hfind]; exact ih'
      | some fs =>
        simp only [hs] at ih' ⊢
        simp only [Option.map_some']
        rw [hfind]
        simpa using ih'

/-- What `CombinedParser.ParseLogWith` computes, in terms of the index-free scan. -/
theorem ParseLogWith_eq {F : Type} (fl : Float64Ops F) (delims : List (List Byte))
    (line : List Byte) :
    CombinedParser.ParseLogWith fl delims line =
      match splitFields delims line with
      | some fs =>
        match fs.get? 4 with
        | none => .panic
        | some v4 =>
          match Atoi v4 with
          | none => .fatal
          | some status =>
            match fs.get? 5 with
            | none => .panic
            | some v5 =>
              match Atoi v5 with
              | none => .fatal
              | some bodyBytesSent =>
                match fs.get? 0, fs.get? 1, fs.get? 2, fs.get? 3, fs.get? 6, fs.get? 7 with
                | some v0, some v1, some v2, some v3, some v6, some v7 =>
                  .ok { RemoteAddr := v0, RemoteUser := v1, TimeLocal := v2, Method := [],
                        Request := v3, Protocol := [], Status := status,
                        BodyBytesSent := bodyBytesSent, HttpReferer := v6,
                        HttpUserAgent := v7, RequestTime := fl.zero }
                | _, _, _, _, _, _ => .panic
      | none => .fatal := by
  have h := scanLoop_split delims line delims 0 0 [] (line.length + delims.length + 1)
    rfl (Nat.zero_le _) (Nat.zero_le _) (by simp)
  unfold CombinedParser.ParseLogWith
  simp only [List.drop_zero] at h
  cases hs : splitFields delims line with
  | none =>
    simp only [hs] at h ⊢
    obtain ⟨st, hst, hk⟩ := h
    rw [hst]
    simp only [combinedRecord]
    rw [if_pos (by omega)]
  | some fs =>
    simp only [hs] at h ⊢
    obtain ⟨j', hj'⟩ := h
    rw [hj']
    simp only [combinedRecord, List.nil_append, ne_eq, not_true_eq_false, if_false]

theorem OnlyAtEnd_tail {c : Byte} {f d : List Byte} (h : OnlyAtEnd (c :: f) d) :
    OnlyAtEnd f d := by
  intro p hp
  have := h (p + 1) (by simpa using hp)
  simpa [OccursAt] using this

theorem findFirst_generated (d : List Byte) :
    ∀ (f rest : List Byte), OnlyAtEnd f d → findFirst d (f ++ (d ++ rest)) = some (f, rest) := by
  intro f
  induction f with
  | nil =>
    intro rest _
    cases hs : d ++ rest with
    | nil =>
      have hd : d = [] := (List.append_eq_nil.mp hs).1
      have hr : rest = [] := (List.append_eq_nil.mp hs).2
      simp [findFirst, hd, hr]
    | cons c cs =>
      simp only [List.nil_append, hs, findFirst]
      rw [← hs]
      simp
  | cons c f ih =>
    intro rest h
    have h0 := h 0 (by simp)
    have hne : ¬ (c :: (f ++ (d ++ rest))).take d.length = d := by
      intro hc
      apply h0
      unfold OccursAt
      have h1 : c :: (f ++ (d ++ rest)) = (c :: f ++ d) ++ rest := by simp
      rw [h1, List.take_append_of_le_length (by simp; omega)] at hc
      simpa using hc
    rw [List.cons_append, findFirst, if_neg hne, ih rest (OnlyAtEnd_tail h)]
    rfl

theorem splitFields_generated (d : List Byte) (ds : List (List Byte)) (f rest : List Byte)
    (h : OnlyAtEnd f d) :
    splitFields (d :: ds) (f ++ (d ++ rest)) = (splitFields ds rest).map (fun fs => f :: fs) := by
  simp only [splitFields, findFirst_generated d f rest h]

theorem parseDigits_append (xs : List Byte) (c : Byte) :
    ∀ acc, parseDigits (xs ++ [c]) acc =
      (parseDigits xs acc).bind (fun a =>
        if 48 ≤ c.toNat ∧ c.toNat ≤ 57 then some (a * 10 + (c.toNat - 48)) else none) := by
  induction xs with
  | nil => intro acc; simp [parseDigits]; 
  | cons x xs ih =>
    intro acc
    simp only [List.cons_append, parseDigits]
    split
    · exact ih _
    · rfl

theorem digit_toNat : ∀ m, m < 10 → ((48 + m).toUInt8).toNat = 48 + m := by decide

theorem parseDigits_natDigits : ∀ (fuel n : Nat), n < fuel →
    parseDigits (natDigits fuel n) 0 = some n := by
  intro fuel
  induction fuel with
  | zero => intro n h; omega
  | succ fuel ih =>
    intro n h
    unfold natDigits
    split
    · next hlt =>
      simp [parseDigits, digit_toNat n hlt]
      omega
    · next hge =>
      rw [parseDigits_append, ih (n / 10) (by omega)]
      have := digit_toNat (n % 10) (Nat.mod_lt _ (by decide))
      simp [this]
      omega

theorem natDigits_ne_nil : ∀ (fuel n : Nat), n < fuel → natDigits fuel n ≠ [] := by
  intro fuel n h
  cases fuel with
  | zero => omega
  | succ fuel =>
    unfold natDigits
    split <;> simp

theorem natDigits_mem : ∀ (fuel n : Nat) (b : Byte), b ∈ natDigits fuel n →
    48 ≤ b.toNat ∧ b.toNat ≤ 57 := by
  intro fuel
  induction fuel with
  | zero => intro n b h; simp [natDigits] at h
  | succ fuel ih =>
    intro n b h
    unfold natDigits at h
    split at h
    · next hlt =>
      simp at h; subst h
      rw [digit_toNat n hlt]; omega
    · simp at h
      rcases h with h | h
      · exact ih _ _ h
      · subst h
        rw [digit_toNat _ (Nat.mod_lt _ (by decide))]
        have := Nat.mod_lt n (show 0 < 10 by decide)
        omega

theorem inIntRange_eq (v : Int) (h1 : -(2 : Int) ^ 63 ≤ v) (h2 : v < (2 : Int) ^ 63) :
    inIntRange v = some v := by
  unfold inIntRange
  rw [show intSize - 1 = 63 from rfl, if_pos ⟨h1, h2⟩]

theorem inIntRange_eq_some_iff (v w : Int) :
    inIntRange v = some w ↔ v = w ∧ -(2 : Int) ^ 63 ≤ v ∧ v < (2 : Int) ^ 63 := by
  unfold inIntRange
  rw [show intSize - 1 = 63 from rfl]
  split
  · next h =>
    simp only [Option.some.injEq]
    exact ⟨fun e => ⟨e, h⟩, fun e => e.1⟩
  · next h => simp only [reduceCtorEq, false_iff]; intro hc; exact h hc.2

theorem digit_ne_sign (c : Byte) (hc : 48 ≤ c.toNat ∧ c.toNat ≤ 57) : c ≠ 45 ∧ c ≠ 43 := by
  constructor
  · intro h; subst h; revert hc; decide
  · intro h; subst h; revert hc; decide

theorem Atoi_neg (cs : List Byte) :
    Atoi (45 :: cs) = if cs = [] then none else
      (parseDigits cs 0).bind (fun n => inIntRange (-(n : Int))) := by
  rw [Atoi, if_pos rfl]

theorem Atoi_plus (cs : List Byte) :
    Atoi (43 :: cs) = if cs = [] then none else
      (parseDigits cs 0).bind (fun n => inIntRange (n : Int)) := by
  rw [Atoi, if_neg (by decide), if_pos rfl]

theorem Atoi_unsigned (c : Byte) (cs : List Byte) (h45 : c ≠ 45) (h43 : c ≠ 43) :
    Atoi (c :: cs) = (parseDigits (c :: cs) 0).bind (fun n => inIntRange (n : Int)) := by
  rw [Atoi, if_neg h45, if_neg h43]

theorem Atoi_Itoa (v : Int) (h1 : -(2 : Int) ^ 63 ≤ v) (h2 : v < (2 : Int) ^ 63) :
    Atoi (Itoa v) = some v := by
  have hdig := parseDigits_natDigits (v.natAbs + 1) v.natAbs (by omega)
  have hne := natDigits_ne_nil (v.natAbs + 1) v.natAbs (by omega)
  unfold Itoa
  by_cases hv : v < 0
  · rw [if_pos hv, Atoi_neg, if_neg hne, hdig, Option.some_bind,
      show -((v.natAbs : Nat) : Int) = v by omega, inIntRange_eq v h1 h2]
  · rw [if_neg hv]
    cases hs : natDigits (v.natAbs + 1) v.natAbs with
    | nil => exact absurd hs hne
    | cons c cs =>
      have hc := digit_ne_sign c (natDigits_mem (v.natAbs + 1) v.natAbs c (by rw [hs]; simp))
      rw [Atoi_unsigned c cs hc.1 hc.2, ← hs, hdig, Option.some_bind,
        show ((v.natAbs : Nat) : Int) = v by omega, inIntRange_eq v h1 h2]

theorem OnlyAtEnd_of_not_mem (f : List Byte) (c : Byte) (d : List Byte)
    (h : ∀ b ∈ f, b ≠ c) : OnlyAtEnd f (c :: d) := by
  induction f with
  | nil => intro p hp; simp at hp
  | cons x f ih =>
    intro p hp
    cases p with
    | zero =>
      unfold OccursAt
      simp only [List.drop_zero, List.cons_append, List.length_cons, List.take_succ_cons]
      intro hc
      injection hc with hx _
      exact h x (by simp) hx
    | succ p =>
      have := ih (fun b hb => h b (by simp [hb])) p (by simpa using hp)
      simpa [OccursAt] using this

theorem Itoa_mem (v : Int) (b : Byte) (h : b ∈ Itoa v) :
    b = 45 ∨ (48 ≤ b.toNat ∧ b.toNat ≤ 57) := by
  unfold Itoa at h
  split at h
  · simp at h
    rcases h with h | h
    · exact Or.inl h
    · exact Or.inr (natDigits_mem _ _ _ h)
  · exact Or.inr (natDigits_mem _ _ _ h)

theorem Itoa_no_space (v : Int) : ∀ b ∈ Itoa v, b ≠ 32 := by
  intro b hb hc
  subst hc
  rcases Itoa_mem v _ hb with h | h
  · revert h; decide
  · revert h; decide

theorem ascii_space : ascii " " = [32] := by decide
theorem ascii_space_quote : ascii " \"" = [32, 34] := by decide

theorem splitFields_combined (addr user time request status bytes referer agent : List Byte)
    (h0 : OnlyAtEnd addr (ascii " - ")) (h1 : OnlyAtEnd user (ascii " ["))
    (h2 : OnlyAtEnd time (ascii "] \"")) (h3 : OnlyAtEnd request (ascii "\" "))
    (h4 : OnlyAtEnd status (ascii " ")) (h5 : OnlyAtEnd bytes (ascii " \""))
    (h6 : OnlyAtEnd referer (ascii "\" \"")) (h7 : OnlyAtEnd agent (ascii "\"\n")) :
    splitFields combinedDelimiters
      (addr ++ ascii " - " ++ user ++ ascii " [" ++ time ++ ascii "] \"" ++ request ++
        ascii "\" " ++ status ++ ascii " " ++ bytes ++ ascii " \"" ++ referer ++
        ascii "\" \"" ++ agent ++ ascii "\"\n") =
      some [addr, user, time, request, status, bytes, referer, agent] := by
  have hline : addr ++ ascii " - " ++ user ++ ascii " [" ++ time ++ ascii "] \"" ++ request ++
        ascii "\" " ++ status ++ ascii " " ++ bytes ++ ascii " \"" ++ referer ++
        ascii "\" \"" ++ agent ++ ascii "\"\n" =
      addr ++ (ascii " - " ++ (user ++ (ascii " [" ++ (time ++ (ascii "] \"" ++ (request ++
        (ascii "\" " ++ (status ++ (ascii " " ++ (bytes ++ (ascii " \"" ++ (referer ++
        (ascii "\" \"" ++ (agent ++ (ascii "\"\n" ++ []))))))))))))))) := by
    simp only [List.append_assoc, List.append_nil]
  rw [hline, combinedDelimiters, splitFields_generated _ _ _ _ h0,
    splitFields_generated _ _ _ _ h1, splitFields_generated _ _ _ _ h2,
    splitFields_generated _ _ _ _ h3, splitFields_generated _ _ _ _ h4,
    splitFields_generated _ _ _ _ h5, splitFields_generated _ _ _ _ h6,
    splitFields_generated _ _ _ _ h7]
  rfl

/-- C1: round trip of the delimiter grammar. For eight field values, where status and
bytes are the decimal renderings of two Go ints and each text field followed by its
delimiter contains that delimiter nowhere but at its end, `CombinedParser.ParseLog` on the
generated line returns the record holding exactly those eight values. -/
theorem combined_round_trip {F : Type} (fl : Float64Ops F)
    (addr user time request referer agent : List Byte) (status bytes : Int)
    (hs1 : -(2 : Int) ^ 63 ≤ status) (hs2 : status < (2 : Int) ^ 63)
    (hb1 : -(2 : Int) ^ 63 ≤ bytes) (hb2 : bytes < (2 : Int) ^ 63)
    (h0 : OnlyAtEnd addr (ascii " - ")) (h1 : OnlyAtEnd user (ascii " ["))
    (h2 : OnlyAtEnd time (ascii "] \"")) (h3 : OnlyAtEnd request (ascii "\" "))
    (h6 : OnlyAtEnd referer (ascii "\" \"")) (h7 : OnlyAtEnd agent (ascii "\"\n")) :
    CombinedParser.ParseLog fl
      (addr ++ ascii " - " ++ user ++ ascii " [" ++ time ++ ascii "] \"" ++ request ++
        ascii "\" " ++ Itoa status ++ ascii " " ++ Itoa bytes ++ ascii " \"" ++ referer ++
        ascii "\" \"" ++ agent ++ ascii "\"\n") =
      .ok { RemoteAddr := addr, RemoteUser := user, TimeLocal := time, Method := [],
            Request := request, Protocol := [], Status := status, BodyBytesSent := bytes,
            HttpReferer := referer, HttpUserAgent := agent, RequestTime := fl.zero } := by
  have h4 : OnlyAtEnd (Itoa status) (ascii " ") := by
    rw [ascii_space]; exact OnlyAtEnd_of_not_mem _ _ _ (Itoa_no_space status)
  have h5 : OnlyAtEnd (Itoa bytes) (ascii " \"") := by
    rw [ascii_space_quote]; exact OnlyAtEnd_of_not_mem _ _ _ (Itoa_no_space bytes)
  unfold CombinedParser.ParseLog
  rw [ParseLogWith_eq, splitFields_combined _ _ _ _ _ _ _ _ h0 h1 h2 h3 h4 h5 h6 h7]
  simp [Atoi_Itoa status hs1 hs2, Atoi_Itoa bytes hb1 hb2]

set_option maxRecDepth 1000000 in
/-- The sample line of `TestParseLogCombined`, generated from its eight fields. -/
theorem combined_round_trip_witness :
    CombinedParser.ParseLog unitFloat
      (ascii "103.131.71.189" ++ ascii " - " ++ ascii "-" ++ ascii " [" ++
        ascii "31/Oct/2023:19:07:45 +0700" ++ ascii "] \"" ++ ascii "GET /robots.txt HTTP/1.1" ++
        ascii "\" " ++ Itoa 200 ++ ascii " " ++ Itoa 182 ++ ascii " \"" ++ ascii "-" ++
        ascii "\" \"" ++ ascii "Mozilla/5.0 (compatible; coccocbot-web/1.0; +http://help.coccoc.com/searchengine)" ++ ascii "\"\n") =
      .ok { RemoteAddr := ascii "103.131.71.189", RemoteUser := ascii "-",
            TimeLocal := ascii "31/Oct/2023:19:07:45 +0700", Method := [],
            Request := ascii "GET /robots.txt HTTP/1.1", Protocol := [], Status := 200,
            BodyBytesSent := 182, HttpReferer := ascii "-",
            HttpUserAgent := ascii "Mozilla/5.0 (compatible; coccocbot-web/1.0; +http://help.coccoc.com/searchengine)",
            RequestTime := () } :=
  combined_round_trip _ _ _ _ _ _ _ 200 182 (by decide) (by decide) (by decide) (by decide)
    (by decide) (by decide) (by decide) (by decide) (by decide) (by decide)

theorem parseDigits_eq_some_iff (xs : List Byte) : ∀ (acc n : Nat),
    parseDigits xs acc = some n ↔
      (∀ b ∈ xs, 48 ≤ b.toNat ∧ b.toNat ≤ 57) ∧
        n = xs.foldl (fun a b => a * 10 + (b.toNat - 48)) acc := by
  induction xs with
  | nil => intro acc n; simp [parseDigits, eq_comm]
  | cons x xs ih =>
    intro acc n
    unfold parseDigits
    by_cases hx : 48 ≤ x.toNat ∧ x.toNat ≤ 57
    · rw [if_pos hx, ih]
      simp [hx]
    · rw [if_neg hx]
      simp only [false_iff, reduceCtorEq]
      intro h
      exact hx (h.1 x (by simp))

theorem Atoi_eq_some_iff (s : List Byte) (v : Int) : Atoi s = some v ↔ IsDecimalInt s v := by
  constructor
  · intro h
    cases s with
    | nil => simp [Atoi] at h
    | cons c cs =>
      by_cases h45 : c = 45
      · subst h45
        rw [Atoi_neg] at h
        split at h
        · simp at h
        · next hne =>
          cases hp : parseDigits cs 0 with
          | none => simp [hp] at h
          | some n =>
            rw [hp, Option.some_bind, inIntRange_eq_some_iff] at h
            rw [parseDigits_eq_some_iff] at hp
            refine ⟨cs, hne, hp.1, Or.inr ⟨rfl, ?_⟩, ?_⟩
            · rw [← h.1, hp.2]; rfl
            · rw [← h.1]; exact h.2
      · by_cases h43 : c = 43
        · subst h43
          rw [Atoi_plus] at h
          split at h
          · simp at h
          · next hne =>
            cases hp : parseDigits cs 0 with
            | none => simp [hp] at h
            | some n =>
              rw [hp, Option.some_bind, inIntRange_eq_some_iff] at h
              rw [parseDigits_eq_some_iff] at hp
              refine ⟨cs, hne, hp.1, Or.inl ⟨Or.inr rfl, ?_⟩, ?_⟩
              · rw [← h.1, hp.2]; rfl
              · rw [← h.1]; exact h.2
        · rw [Atoi_unsigned c cs h45 h43] at h
          cases hp : parseDigits (c :: cs) 0 with
          | none => simp [hp] at h
          | some n =>
            rw [hp, Option.some_bind, inIntRange_eq_some_iff] at h
            rw [parseDigits_eq_some_iff] at hp
            refine ⟨c :: cs, by simp, hp.1, Or.inl ⟨Or.inl rfl, ?_⟩, ?_⟩
            · rw [← h.1, hp.2]; rfl
            · rw [← h.1]; exact h.2
  · rintro ⟨digits, hne, hdig, hcase, hr1, hr2⟩
    have hpd : parseDigits digits 0 = some (decimalValue digits) :=
      (parseDigits_eq_some_iff digits 0 _).mpr ⟨hdig, rfl⟩
    rcases hcase with ⟨hs | hs, hv⟩ | ⟨hs, hv⟩
    · cases hd : digits with
      | nil => exact absurd hd hne
      | cons c cs =>
        have hc := digit_ne_sign c (hdig c (by rw [hd]; simp))
        rw [hs, hd, Atoi_unsigned c cs hc.1 hc.2, ← hd, hpd, Option.some_bind, ← hv,
          inIntRange_eq v hr1 hr2]
    · rw [hs, Atoi_plus, if_neg hne, hpd, Option.some_bind, ← hv, inIntRange_eq v hr1 hr2]
    · rw [hs, Atoi_neg, if_neg hne, hpd, Option.some_bind, ← hv, inIntRange_eq v hr1 hr2]

theorem splitFields_length : ∀ (ds : List (List Byte)) (s : List Byte) (fs : List (List Byte)),
    splitFields ds s = some fs → fs.length = ds.length := by
  intro ds
  induction ds with
  | nil => intro s fs h; simp [splitFields] at h; simp [← h]
  | cons d ds ih =>
    intro s fs h
    simp only [splitFields] at h
    split at h
    · simp at h
    · next f rest hf =>
      cases hs : splitFields ds rest with
      | none => simp [hs] at h
      | some fs' =>
        simp [hs] at h
        subst h
        simp [ih rest fs' hs]

theorem Atoi_eq_none_iff (s : List Byte) : Atoi s = none ↔ ∀ v, ¬ IsDecimalInt s v := by
  constructor
  · intro h v hv
    rw [← Atoi_eq_some_iff, h] at hv
    cases hv
  · intro h
    cases ha : Atoi s with
    | none => rfl
    | some v => exact absurd ((Atoi_eq_some_iff s v).mp ha) (h v)

theorem splitFields_combined_shape (line : List Byte) (fs : List (List Byte))
    (h : splitFields combinedDelimiters line = some fs) :
    ∃ addr user time request status bytes referer agent,
      fs = [addr, user, time, request, status, bytes, referer, agent] := by
  have hlen := splitFields_length _ _ _ h
  have h8 : combinedDelimiters.length = 8 := rfl
  rw [h8] at hlen
  match fs, hlen with
  | [a0, a1, a2, a3, a4, a5, a6, a7], _ => exact ⟨a0, a1, a2, a3, a4, a5, a6, a7, rfl⟩

/-- C2: `CombinedParser.ParseLog` aborts the run exactly when the left-to-right scan
cannot match all eight delimiters in order before the end of the line, or the text
captured for status or for body size is not a decimal integer (one that `int` holds);
on every other line it returns a record. -/
theorem combined_abort_iff {F : Type} (fl : Float64Ops F) (line : List Byte) :
    (CombinedParser.ParseLog fl line = .fatal ↔
      (splitFields combinedDelimiters line = none ∨
        ∃ addr user time request status bytes referer agent,
          splitFields combinedDelimiters line =
            some [addr, user, time, request, status, bytes, referer, agent] ∧
          ((∀ v, ¬ IsDecimalInt status v) ∨ (∀ v, ¬ IsDecimalInt bytes v)))) ∧
    (CombinedParser.ParseLog fl line = .fatal ∨
      ∃ r, CombinedParser.ParseLog fl line = .ok r) := by
  unfold CombinedParser.ParseLog
  rw [ParseLogWith_eq]
  cases hs : splitFields combinedDelimiters line with
  | none => simp
  | some fs =>
    obtain ⟨a0, a1, a2, a3, a4, a5, a6, a7, rfl⟩ := splitFields_combined_shape line fs hs
    simp only [List.get?_cons_succ, List.get?_cons_zero, reduceCtorEq, false_or,
      Option.some.injEq, List.cons.injEq, and_true]
    cases h4 : Atoi a4 with
    | none =>
      have := (Atoi_eq_none_iff a4).mp h4
      simp only [true_and, true_or, and_true]
      exact iff_of_true trivial
        ⟨a0, a1, a2, a3, a4, a5, a6, a7, ⟨rfl, rfl, rfl, rfl, rfl, rfl, rfl, rfl⟩, Or.inl this⟩
    | some status =>
      cases h5 : Atoi a5 with
      | none =>
        have := (Atoi_eq_none_iff a5).mp h5
        simp only [true_and, true_or, and_true]
        exact iff_of_true trivial ⟨a0, a1, a2, a3, a4, a5, a6, a7,
          ⟨rfl, rfl, rfl, rfl, rfl, rfl, rfl, rfl⟩, Or.inr this⟩
      | some bytes =>
        have v4 := (Atoi_eq_some_iff a4 status).mp h4
        have v5 := (Atoi_eq_some_iff a5 bytes).mp h5
        simp only [reduceCtorEq, false_iff, false_or, Outcome.ok.injEq, exists_eq', and_true]
        rintro ⟨b0, b1, b2, b3, b4, b5, b6, b7, ⟨_, _, _, _, rfl, rfl, _, _⟩, hb | hb⟩
        · exact hb status v4
        · exact hb bytes v5

/-! ### The time-window filter -/

theorem testProcessLine_eq_parseLog {F : Type} (layout : List Byte → Option Time)
    (since util : Time) (logInfo : Option (LogInfo F)) :
    testProcessLine layout since util logInfo = parseLog layout since util logInfo := by
  unfold testProcessLine parseLog isDateSkipAble
  split
  · cases logInfo with
    | none => rfl
    | some info =>
      simp only
      cases ParseTime layout info.TimeLocal with
      | ok t =>
        simp only
        split
        · rfl
        · split <;> rfl
      | fatal => rfl
      | panic => rfl
      | timeout => rfl
  · rfl

/-- C3 (the claim as stated fails): the record stamped exactly at `until` (2024-01-02T00:00:00Z,
with `since` = 2024-01-01T00:00:00Z) is passed to `handler.Input`, although its time is not
before `until`. -/
theorem time_window_until_is_kept :
    sampleLayout (ascii "02/Jan/2024:00:00:00 +0000") = some until2024 ∧
    testProcessLine sampleLayout since2024 until2024
        (some (recordAt (ascii "02/Jan/2024:00:00:00 +0000"))) =
      .ok (.input (some (recordAt (ascii "02/Jan/2024:00:00:00 +0000")))) ∧
    ¬ (since2024 ≤ until2024 ∧ until2024 < until2024) := by
  decide

/-- C3 (amended): with both bounds set, a record whose local time parses to `t` is passed
to `handler.Input` if and only if `since ≤ t` and `t ≤ until`; both in the goroutine of
`testProcess` and in `parseLog`. -/
theorem time_window_filter {F : Type} (layout : List Byte → Option Time) (since util t : Time)
    (info : LogInfo F) (hs : since ≠ 0) (hu : util ≠ 0)
    (ht : layout info.TimeLocal = some t) :
    (testProcessLine layout since util (some info) = .ok (.input (some info)) ↔
      since ≤ t ∧ t ≤ util) ∧
    (testProcessLine layout since util (some info) = .ok .dropped ↔
      ¬ (since ≤ t ∧ t ≤ util)) ∧
    parseLog layout since util (some info) = testProcessLine layout since util (some info) := by
  refine ⟨?_, ?_, (testProcessLine_eq_parseLog _ _ _ _).symm⟩
  · simp only [testProcessLine, ParseTime, ht, Time.IsZero, Time.Before, Time.After, hs, hu]
    by_cases h1 : t < since
    · simp [h1]
    · by_cases h2 : t > util
      · simp [h1, h2]
      · simp [h1, h2]
        exact ⟨not_lt.mp h1, not_lt.mp h2⟩
  · simp only [testProcessLine, ParseTime, ht, Time.IsZero, Time.Before, Time.After, hs, hu]
    by_cases h1 : t < since
    · simp [h1]
    · by_cases h2 : t > util
      · simp [h1, h2]
      · simp [h1, h2]

/-- The record stamped exactly at `since` is kept. -/
theorem time_window_filter_witness :
    (testProcessLine sampleLayout since2024 until2024
        (some (recordAt (ascii "01/Jan/2024:00:00:00 +0000"))) =
        .ok (.input (some (recordAt (ascii "01/Jan/2024:00:00:00 +0000")))) ↔
      since2024 ≤ since2024 ∧ since2024 ≤ until2024) ∧
    (testProcessLine sampleLayout since2024 until2024
        (some (recordAt (ascii "01/Jan/2024:00:00:00 +0000"))) = .ok .dropped ↔
      ¬ (since2024 ≤ since2024 ∧ since2024 ≤ until2024)) ∧
    parseLog sampleLayout since2024 until2024
        (some (recordAt (ascii "01/Jan/2024:00:00:00 +0000"))) =
      testProcessLine sampleLayout since2024 until2024
        (some (recordAt (ascii "01/Jan/2024:00:00:00 +0000"))) :=
  time_window_filter sampleLayout since2024 until2024 since2024
    (recordAt (ascii "01/Jan/2024:00:00:00 +0000")) (by decide) (by decide) (by decide)

/-! ### The regular-expression search -/

theorem starGreedy_sound {α : Type} (c : CharClass) (k : List Byte → Option α) (x : α) :
    ∀ s, starGreedy c s k = some x →
      ∃ w rest, s = w ++ rest ∧ (∀ b ∈ w, c.accepts b = true) ∧ k rest = some x := by
  intro s
  induction s with
  | nil =>
    intro h
    exact ⟨[], [], rfl, by simp, by simpa [starGreedy] using h⟩
  | cons b bs ih =>
    intro h
    rw [starGreedy] at h
    by_cases hb : c.accepts b = true
    · rw [if_pos hb] at h
      cases hr : starGreedy c bs k with
      | some r =>
        rw [hr] at h
        obtain ⟨w, rest, hs, hw, hk⟩ := ih (by rw [hr]; exact h)
        refine ⟨b :: w, rest, by rw [hs]; rfl, ?_, hk⟩
        intro y hy
        rcases List.mem_cons.mp hy with rfl | hy
        · exact hb
        · exact hw y hy
      | none =>
        rw [hr] at h
        exact ⟨[], b :: bs, rfl, by simp, h⟩
    · rw [if_neg hb] at h
      exact ⟨[], b :: bs, rfl, by simp, h⟩

theorem starLazy_sound {α : Type} (c : CharClass) (k : List Byte → Option α) (x : α) :
    ∀ s, starLazy c s k = some x →
      ∃ w rest, s = w ++ rest ∧ (∀ b ∈ w, c.accepts b = true) ∧ k rest = some x := by
  intro s
  induction s with
  | nil =>
    intro h
    exact ⟨[], [], rfl, by simp, by simpa [starLazy] using h⟩
  | cons b bs ih =>
    intro h
    rw [starLazy] at h
    cases hk : k (b :: bs) with
    | some r =>
      rw [hk] at h
      exact ⟨[], b :: bs, rfl, by simp, by rw [hk]; exact h⟩
    | none =>
      rw [hk] at h
      by_cases hb : c.accepts b = true
      · rw [if_pos hb] at h
        obtain ⟨w, rest, hs, hw, hk'⟩ := ih h
        refine ⟨b :: w, rest, by rw [hs]; rfl, ?_, hk'⟩
        intro y hy
        rcases List.mem_cons.mp hy with rfl | hy
        · exact hb
        · exact hw y hy
      · rw [if_neg hb] at h
        cases h

theorem starGreedy_complete {α : Type} (c : CharClass) (k : List Byte → Option α)
    (rest : List Byte) (hk : (k rest).isSome = true) :
    ∀ w, (∀ b ∈ w, c.accepts b = true) → (starGreedy c (w ++ rest) k).isSome = true := by
  intro w
  induction w with
  | nil =>
    intro _
    cases rest with
    | nil => simpa [starGreedy] using hk
    | cons b bs =>
      simp only [List.nil_append, starGreedy]
      split
      · split
        · rfl
        · exact hk
      · exact hk
  | cons b w ih =>
    intro hw
    have hb : c.accepts b = true := hw b (by simp)
    have := ih (fun y hy => hw y (by simp [hy]))
    rw [List.cons_append, starGreedy, if_pos hb]
    cases hn : starGreedy c (w ++ rest) k with
    | some r => rfl
    | none => rw [hn] at this; cases this

theorem starLazy_complete {α : Type} (c : CharClass) (k : List Byte → Option α)
    (rest : List Byte) (hk : (k rest).isSome = true) :
    ∀ w, (∀ b ∈ w, c.accepts b = true) → (starLazy c (w ++ rest) k).isSome = true := by
  intro w
  induction w with
  | nil =>
    intro _
    cases rest with
    | nil => simpa [starLazy] using hk
    | cons b bs =>
      simp only [List.nil_append, starLazy]
      split
      · rfl
      · next hn => rw [hn] at hk; cases hk
  | cons b w ih =>
    intro hw
    have hb : c.accepts b = true := hw b (by simp)
    have := ih (fun y hy => hw y (by simp [hy]))
    rw [List.cons_append, starLazy]
    cases hn : k (b :: (w ++ rest)) with
    | some r => rfl
    | none => simp only [hb, if_true]; exact this

/-- Soundness of the backtracking search: what it consumes is a word of the expression. -/
theorem Re.run_sound {α : Type} (n : Nat) (x : α) :
    ∀ (re : Re) (base : Nat) (s : List Byte) (caps : Caps)
      (k : List Byte → Caps → Option α), s.length ≤ n →
      re.run n base s caps k = some x →
      ∃ w rest caps', s = w ++ rest ∧ re.Matches (decide (s.length = n)) w ∧
        caps'.length = caps.length ∧ k rest caps' = some x := by
  intro re
  induction re with
  | bol =>
    intro base s caps k _ h
    simp only [Re.run] at h
    split at h
    · next hs => exact ⟨[], s, caps, rfl, ⟨by simpa using hs, rfl⟩, rfl, h⟩
    · cases h
  | lit b =>
    intro base s caps k _ h
    cases s with
    | nil => simp [Re.run] at h
    | cons c cs =>
      simp only [Re.run] at h
      split at h
      · next hc => exact ⟨[c], cs, caps, rfl, by rw [hc]; rfl, rfl, h⟩
      · cases h
  | cls cl =>
    intro base s caps k _ h
    cases s with
    | nil => simp [Re.run] at h
    | cons c cs =>
      simp only [Re.run] at h
      split at h
      · next hc => exact ⟨[c], cs, caps, rfl, ⟨c, hc, rfl⟩, rfl, h⟩
      · cases h
  | star cl greedy =>
    intro base s caps k _ h
    simp only [Re.run] at h
    split at h
    · obtain ⟨w, rest, hs, hw, hk⟩ := starGreedy_sound cl _ x s h
      exact ⟨w, rest, caps, hs, hw, rfl, hk⟩
    · obtain ⟨w, rest, hs, hw, hk⟩ := starLazy_sound cl _ x s h
      exact ⟨w, rest, caps, hs, hw, rfl, hk⟩
  | group r ih =>
    intro base s caps k hn h
    simp only [Re.run] at h
    obtain ⟨w, rest, caps', hs, hw, hl, hk⟩ := ih (base + 1) s caps _ hn h
    exact ⟨w, rest, _, hs, hw, by rw [List.length_set, hl], hk⟩
  | cat a b iha ihb =>
    intro base s caps k hn h
    simp only [Re.run] at h
    obtain ⟨w1, rest1, caps1, hs1, hw1, hl1, hk1⟩ := iha base s caps _ hn h
    have hlen : s.length = w1.length + rest1.length := by rw [hs1]; simp
    obtain ⟨w2, rest, caps2, hs2, hw2, hl2, hk2⟩ :=
      ihb (base + a.numGroups) rest1 caps1 k (by omega) hk1
    refine ⟨w1 ++ w2, rest, caps2, by rw [hs1, hs2]; simp, ⟨w1, w2, rfl, hw1, ?_⟩,
      by rw [hl2, hl1], hk2⟩
    have hflag : decide (rest1.length = n) = (decide (s.length = n) && w1.isEmpty) := by
      cases w1 with
      | nil => simp [hlen]
      | cons c cs =>
        simp only [List.length_cons] at hlen
        simp only [List.isEmpty_cons, Bool.and_false, decide_eq_false_iff_not]
        omega
    rw [← hflag]
    exact hw2

/-- Completeness of the backtracking search: it finds a match whenever some prefix is a
word of the expression and the continuation accepts what follows. -/
theorem Re.run_complete {α : Type} (n : Nat) :
    ∀ (re : Re) (base : Nat) (s : List Byte) (caps : Caps)
      (k : List Byte → Caps → Option α) (w rest : List Byte), s = w ++ rest →
      s.length ≤ n → re.Matches (decide (s.length = n)) w →
      (∀ caps', (k rest caps').isSome = true) →
      (re.run n base s caps k).isSome = true := by
  intro re
  induction re with
  | bol =>
    intro base s caps k w rest hs _ hm hk
    obtain ⟨hst, hw⟩ := hm
    subst hw
    simp only [List.nil_append] at hs
    subst hs
    simp only [Re.run]
    rw [if_pos (by simpa using hst)]
    exact hk caps
  | lit b =>
    intro base s caps k w rest hs _ hm hk
    simp only [Re.Matches] at hm
    subst hm
    subst hs
    simp only [List.singleton_append, Re.run, if_true]
    exact hk caps
  | cls cl =>
    intro base s caps k w rest hs _ hm hk
    obtain ⟨b, hb, hw⟩ := hm
    subst hw
    subst hs
    simp only [List.singleton_append, Re.run, hb, if_true]
    exact hk caps
  | star cl greedy =>
    intro base s caps k w rest hs _ hm hk
    subst hs
    simp only [Re.run]
    split
    · exact starGreedy_complete cl _ rest (hk caps) w hm
    · exact starLazy_complete cl _ rest (hk caps) w hm
  | group r ih =>
    intro base s caps k w rest hs hn hm hk
    simp only [Re.run]
    exact ih (base + 1) s caps _ w rest hs hn hm (fun caps' => hk _)
  | cat a b iha ihb =>
    intro base s caps k w rest hs hn hm hk
    obtain ⟨w1, w2, hw, hm1, hm2⟩ := hm
    simp only [Re.run]
    have hlen : s.length = w1.length + (w2 ++ rest).length := by rw [hs, hw]; simp
    have hflag : decide ((w2 ++ rest).length = n) = (decide (s.length = n) && w1.isEmpty) := by
      cases w1 with
      | nil => simp [hlen]
      | cons c cs =>
        simp only [List.length_cons] at hlen
        simp only [List.isEmpty_cons, Bool.and_false, decide_eq_false_iff_not]
        omega
    refine iha base s caps _ w1 (w2 ++ rest) (by rw [hs, hw]; simp) hn hm1 ?_
    intro caps'
    exact ihb (base + a.numGroups) (w2 ++ rest) caps' k w2 rest rfl (by omega)
      (by rw [hflag]; exact hm2) hk

theorem matchAt_isSome_iff (re : Re) (s : List Byte) :
    (matchAt re s.length s).isSome = true ↔ PrefixMatches re s := by
  constructor
  · intro h
    cases hm : matchAt re s.length s with
    | none => rw [hm] at h; cases h
    | some x =>
      obtain ⟨w, rest, _, hs, hw, _, _⟩ := Re.run_sound s.length x re 0 s _ _ (le_refl _) hm
      exact ⟨w, rest, hs, by simpa using hw⟩
  · rintro ⟨w, rest, hs, hw⟩
    exact Re.run_complete s.length re 0 s _ _ w rest hs (le_refl _) (by simpa using hw)
      (fun _ => rfl)

theorem matchAt_length (re : Re) (n : Nat) (s : List Byte) (m : List (List Byte))
    (hn : s.length ≤ n) (h : matchAt re n s = some m) : m.length = re.numGroups + 1 := by
  obtain ⟨w, rest, caps', _, _, hl, hk⟩ := Re.run_sound n m re 0 s _ _ hn h
  simp only [Option.some.injEq] at hk
  rw [← hk]
  simp [hl]

theorem matchAt_bol_none (r : Re) (n : Nat) (s : List Byte) (h : s.length ≠ n) :
    matchAt (.cat .bol r) n s = none := by
  simp only [matchAt, Re.run, h, if_false]

theorem searchFrom_bol_none (r : Re) (n : Nat) :
    ∀ s : List Byte, s.length < n → searchFrom (.cat .bol r) n s = none := by
  intro s
  induction s with
  | nil =>
    intro h
    rw [searchFrom, matchAt_bol_none r n [] (by simp at h ⊢; omega)]
  | cons c cs ih =>
    intro h
    simp only [List.length_cons] at h
    rw [searchFrom, matchAt_bol_none r n (c :: cs) (by simp; omega)]
    exact ih (by omega)

/-- For a pattern that begins with `^` the search tries the beginning of the text only. -/
theorem searchFrom_bol (r : Re) (s : List Byte) :
    searchFrom (.cat .bol r) s.length s = matchAt (.cat .bol r) s.length s := by
  cases s with
  | nil => rfl
  | cons c cs =>
    rw [searchFrom]
    cases hm : matchAt (.cat .bol r) (c :: cs).length (c :: cs) with
    | some m => rfl
    | none => exact searchFrom_bol_none r _ cs (by simp)

theorem MatchString_bol_iff (r : Re) (s : List Byte) :
    MatchString (.cat .bol r) s = true ↔ PrefixMatches (.cat .bol r) s := by
  rw [MatchString, searchFrom_bol, matchAt_isSome_iff]

theorem FindStringSubmatch_bol_length (r : Re) (s : List Byte)
    (h : MatchString (.cat .bol r) s = true) :
    (FindStringSubmatch (.cat .bol r) s).length = (Re.cat .bol r).numGroups + 1 := by
  rw [MatchString, searchFrom_bol] at h
  rw [FindStringSubmatch, searchFrom_bol]
  cases hm : matchAt (.cat .bol r) s.length s with
  | none => rw [hm] at h; cases h
  | some m => exact matchAt_length _ _ _ _ (le_refl _) hm

/-- Appending text to a line keeps every anchored-at-the-start match. -/
theorem PrefixMatches_append (re : Re) (line extra : List Byte) (h : PrefixMatches re line) :
    PrefixMatches re (line ++ extra) := by
  obtain ⟨w, rest, hs, hw⟩ := h
  exact ⟨w, rest ++ extra, by rw [hs, List.append_assoc], hw⟩

/-! ### CustomParser -/

theorem MatchesWhole_iff (re : Re) (s : List Byte) :
    MatchesWhole re s = true ↔ re.Matches true s := by
  unfold MatchesWhole
  constructor
  · intro h
    cases hm : re.run s.length 0 s (List.replicate re.numGroups none)
        (fun rest _ => if rest = [] then some () else none) with
    | none => rw [hm] at h; cases h
    | some x =>
      obtain ⟨w, rest, _, hs, hw, _, hk⟩ := Re.run_sound s.length x re 0 s _ _ (le_refl _) hm
      split at hk
      · next hr =>
        subst hr
        rw [List.append_nil] at hs
        subst hs
        simpa using hw
      · cases hk
  · intro h
    exact Re.run_complete s.length re 0 s _ _ s [] (by simp) (le_refl _) (by simpa using h)
      (fun _ => rfl)

theorem index_of_lt (xs : List (List Byte)) (i : Nat) (h : i < xs.length) :
    index xs i = .ok (xs.getD i []) := by
  unfold index
  rw [List.get?_eq_getElem?, List.getElem?_eq_getElem h, List.getD_eq_getElem _ _ h]

theorem apacheCase_eq {F : Type} (fl : Float64Ops F) (m : List (List Byte))
    (h : m.length = 11) :
    CustomParser.apacheCase fl m =
      .ok (some (CustomParser.apacheRecord fl m)) := by
  unfold CustomParser.apacheCase CustomParser.apacheRecord
  rw [if_neg (by omega)]
  simp only [index_of_lt m _ (show 1 < m.length by omega),
    index_of_lt m _ (show 3 < m.length by omega), index_of_lt m _ (show 4 < m.length by omega),
    index_of_lt m _ (show 5 < m.length by omega), index_of_lt m _ (show 6 < m.length by omega),
    index_of_lt m _ (show 7 < m.length by omega), index_of_lt m _ (show 8 < m.length by omega),
    index_of_lt m _ (show 10 < m.length by omega), Outcome.bind]

theorem iisCase_eq {F : Type} (fl : Float64Ops F) (m : List (List Byte))
    (h : m.length = 10) :
    CustomParser.iisCase fl m =
      .ok (some (CustomParser.iisRecord fl m)) := by
  unfold CustomParser.iisCase CustomParser.iisRecord
  rw [if_neg (by omega)]
  simp only [index_of_lt m _ (show 1 < m.length by omega),
    index_of_lt m _ (show 2 < m.length by omega),
    index_of_lt m _ (show 3 < m.length by omega), index_of_lt m _ (show 4 < m.length by omega),
    index_of_lt m _ (show 5 < m.length by omega), index_of_lt m _ (show 6 < m.length by omega),
    index_of_lt m _ (show 7 < m.length by omega), index_of_lt m _ (show 8 < m.length by omega),
    index_of_lt m _ (show 9 < m.length by omega), Outcome.bind]

theorem ncsaCase_eq {F : Type} (fl : Float64Ops F) (m : List (List Byte))
    (h : m.length = 9) :
    CustomParser.ncsaCase fl m =
      .ok (some (CustomParser.ncsaRecord fl m)) := by
  unfold CustomParser.ncsaCase CustomParser.ncsaRecord
  rw [if_neg (by omega)]
  simp only [index_of_lt m _ (show 1 < m.length by omega),
    index_of_lt m _ (show 2 < m.length by omega),
    index_of_lt m _ (show 3 < m.length by omega), index_of_lt m _ (show 4 < m.length by omega),
    index_of_lt m _ (show 5 < m.length by omega), index_of_lt m _ (show 6 < m.length by omega),
    index_of_lt m _ (show 7 < m.length by omega), index_of_lt m _ (show 8 < m.length by omega),
    Outcome.bind]

theorem ApacheFormat_bol : ∃ r, ApacheFormat = .cat .bol r := ⟨_, rfl⟩
theorem IISFormat_bol : ∃ r, IISFormat = .cat .bol r := ⟨_, rfl⟩
theorem NCSAFormat_bol : ∃ r, NCSAFormat = .cat .bol r := ⟨_, rfl⟩

theorem ApacheFormat_numGroups : ApacheFormat.numGroups = 10 := by decide
theorem IISFormat_numGroups : IISFormat.numGroups = 9 := by decide
theorem NCSAFormat_numGroups : NCSAFormat.numGroups = 8 := by decide

theorem Apache_length (line : List Byte) (h : MatchString ApacheFormat line = true) :
    (FindStringSubmatch ApacheFormat line).length = 11 := by
  obtain ⟨r, hr⟩ := ApacheFormat_bol
  have := FindStringSubmatch_bol_length r line (by rw [← hr]; exact h)
  rw [← hr, ApacheFormat_numGroups] at this
  exact this

theorem IIS_length (line : List Byte) (h : MatchString IISFormat line = true) :
    (FindStringSubmatch IISFormat line).length = 10 := by
  obtain ⟨r, hr⟩ := IISFormat_bol
  have := FindStringSubmatch_bol_length r line (by rw [← hr]; exact h)
  rw [← hr, IISFormat_numGroups] at this
  exact this

theorem NCSA_length (line : List Byte) (h : MatchString NCSAFormat line = true) :
    (FindStringSubmatch NCSAFormat line).length = 9 := by
  obtain ⟨r, hr⟩ := NCSAFormat_bol
  have := FindStringSubmatch_bol_length r line (by rw [← hr]; exact h)
  rw [← hr, NCSAFormat_numGroups] at this
  exact this

theorem MatchString_Apache_iff (line : List Byte) :
    MatchString ApacheFormat line = true ↔ PrefixMatches ApacheFormat line := by
  obtain ⟨r, hr⟩ := ApacheFormat_bol
  rw [hr]; exact MatchString_bol_iff r line

theorem MatchString_IIS_iff (line : List Byte) :
    MatchString IISFormat line = true ↔ PrefixMatches IISFormat line := by
  obtain ⟨r, hr⟩ := IISFormat_bol
  rw [hr]; exact MatchString_bol_iff r line

theorem MatchString_NCSA_iff (line : List Byte) :
    MatchString NCSAFormat line = true ↔ PrefixMatches NCSAFormat line := by
  obtain ⟨r, hr⟩ := NCSAFormat_bol
  rw [hr]; exact MatchString_bol_iff r line

/-- The switch of `CustomParser.ParseLog` on the name returned by `MatchRegex`, as a choice
of the first pattern that matches. -/
theorem CustomParser.ParseLog_eq {F : Type} (fl : Float64Ops F) (line : List Byte) :
    CustomParser.ParseLog fl line =
      if MatchString ApacheFormat line = true then
        CustomParser.apacheCase fl (FindStringSubmatch ApacheFormat line)
      else if MatchString IISFormat line = true then
        CustomParser.iisCase fl (FindStringSubmatch IISFormat line)
      else if MatchString NCSAFormat line = true then
        CustomParser.ncsaCase fl (FindStringSubmatch NCSAFormat line)
      else .ok none := by
  unfold CustomParser.ParseLog CustomParser.MatchRegex
  by_cases ha : MatchString ApacheFormat line = true
  · simp only [ha, if_true]
  · by_cases hi : MatchString IISFormat line = true
    · simp only [ha, hi, if_true, if_false, Bool.false_eq_true]
      rw [if_neg (by decide)]
    · by_cases hn : MatchString NCSAFormat line = true
      · simp only [ha, hi, hn, if_true, if_false, Bool.false_eq_true]
        rw [if_neg (by decide), if_neg (by decide)]
      · simp only [ha, hi, hn, if_false, Bool.false_eq_true]
        rw [if_neg (by decide), if_neg (by decide), if_neg (by decide)]

/-- What `CustomParser.ParseLog` returns, pattern by pattern. -/
theorem CustomParser.ParseLog_cases {F : Type} (fl : Float64Ops F) (line : List Byte) :
    CustomParser.ParseLog fl line =
      if MatchString ApacheFormat line = true then
        .ok (some (CustomParser.apacheRecord fl (FindStringSubmatch ApacheFormat line)))
      else if MatchString IISFormat line = true then
        .ok (some (CustomParser.iisRecord fl (FindStringSubmatch IISFormat line)))
      else if MatchString NCSAFormat line = true then
        .ok (some (CustomParser.ncsaRecord fl (FindStringSubmatch NCSAFormat line)))
      else .ok none := by
  rw [CustomParser.ParseLog_eq]
  by_cases ha : MatchString ApacheFormat line = true
  · rw [if_pos ha, if_pos ha, apacheCase_eq fl _ (Apache_length line ha)]
  · rw [if_neg ha, if_neg ha]
    by_cases hi : MatchString IISFormat line = true
    · rw [if_pos hi, if_pos hi, iisCase_eq fl _ (IIS_length line hi)]
    · rw [if_neg hi, if_neg hi]
      by_cases hn : MatchString NCSAFormat line = true
      · rw [if_pos hn, if_pos hn, ncsaCase_eq fl _ (NCSA_length line hn)]
      · rw [if_neg hn, if_neg hn]

theorem MatchRegex_eq (line : List Byte) :
    CustomParser.MatchRegex line =
      if MatchString ApacheFormat line = true then
        (FindStringSubmatch ApacheFormat line, ApacheFormatName)
      else if MatchString IISFormat line = true then
        (FindStringSubmatch IISFormat line, IISFormatName)
      else if MatchString NCSAFormat line = true then
        (FindStringSubmatch NCSAFormat line, NCSAFormatName)
      else ([], "") := rfl

theorem MatchRegex_apache_iff (line : List Byte) :
    (CustomParser.MatchRegex line).2 = ApacheFormatName ↔
      MatchString ApacheFormat line = true := by
  rw [MatchRegex_eq]
  by_cases ha : MatchString ApacheFormat line = true
  · simp [ha]
  · by_cases hi : MatchString IISFormat line = true
    · simp only [ha, hi, if_true, if_false, Bool.false_eq_true, iff_false]; decide
    · by_cases hn : MatchString NCSAFormat line = true
      · simp only [ha, hi, hn, if_true, if_false, Bool.false_eq_true, iff_false]; decide
      · simp only [ha, hi, hn, if_false, Bool.false_eq_true, iff_false]; decide

theorem MatchRegex_iis_iff (line : List Byte) :
    (CustomParser.MatchRegex line).2 = IISFormatName ↔
      MatchString ApacheFormat line = false ∧ MatchString IISFormat line = true := by
  rw [MatchRegex_eq]
  by_cases ha : MatchString ApacheFormat line = true
  · simp only [ha, if_true, Bool.true_eq_false, false_and, iff_false]; decide
  · by_cases hi : MatchString IISFormat line = true
    · simp [ha, hi]
    · by_cases hn : MatchString NCSAFormat line = true
      · simp only [ha, hi, hn, if_true, if_false, Bool.false_eq_true, and_false, iff_false]
        decide
      · simp only [ha, hi, hn, if_false, Bool.false_eq_true, and_false, iff_false]; decide

theorem MatchRegex_ncsa_iff (line : List Byte) :
    (CustomParser.MatchRegex line).2 = NCSAFormatName ↔
      MatchString ApacheFormat line = false ∧ MatchString IISFormat line = false ∧
        MatchString NCSAFormat line = true := by
  rw [MatchRegex_eq]
  by_cases ha : MatchString ApacheFormat line = true
  · simp only [ha, if_true, Bool.true_eq_false, false_and, iff_false]; decide
  · by_cases hi : MatchString IISFormat line = true
    · simp only [ha, hi, if_true, if_false, Bool.false_eq_true, Bool.true_eq_false, false_and,
        and_false, iff_false]
      decide
    · by_cases hn : MatchString NCSAFormat line = true
      · simp [ha, hi, hn]
      · simp only [ha, hi, hn, if_false, Bool.false_eq_true, and_false, iff_false]; decide

theorem list_of_length_11 (m : List (List Byte)) (h : m.length = 11) :
    ∃ a0 a1 a2 a3 a4 a5 a6 a7 a8 a9 a10, m = [a0, a1, a2, a3, a4, a5, a6, a7, a8, a9, a10] := by
  match m, h with
  | [a0, a1, a2, a3, a4, a5, a6, a7, a8, a9, a10], _ =>
    exact ⟨a0, a1, a2, a3, a4, a5, a6, a7, a8, a9, a10, rfl⟩

theorem list_of_length_10 (m : List (List Byte)) (h : m.length = 10) :
    ∃ a0 a1 a2 a3 a4 a5 a6 a7 a8 a9, m = [a0, a1, a2, a3, a4, a5, a6, a7, a8, a9] := by
  match m, h with
  | [a0, a1, a2, a3, a4, a5, a6, a7, a8, a9], _ =>
    exact ⟨a0, a1, a2, a3, a4, a5, a6, a7, a8, a9, rfl⟩

theorem list_of_length_9 (m : List (List Byte)) (h : m.length = 9) :
    ∃ a0 a1 a2 a3 a4 a5 a6 a7 a8, m = [a0, a1, a2, a3, a4, a5, a6, a7, a8] := by
  match m, h with
  | [a0, a1, a2, a3, a4, a5, a6, a7, a8], _ =>
    exact ⟨a0, a1, a2, a3, a4, a5, a6, a7, a8, rfl⟩

set_option maxRecDepth 1000000 in
theorem apacheLog_matches_Apache : MatchString ApacheFormat apacheLog = true := by decide

set_option maxRecDepth 1000000 in
theorem apacheLog_matches_NCSA : MatchString NCSAFormat apacheLog = true := by decide

/-- C4: `CustomParser` tries the Apache pattern, then the IIS pattern, then the NCSA
pattern, and builds the record with the field mapping of the first one that matches (a
pattern matches when a prefix of the line is one of its words); the sample Apache line is
matched by the NCSA pattern too and is given the Apache mapping. -/
theorem custom_first_pattern_wins {F : Type} (fl : Float64Ops F) (line : List Byte) :
    (MatchString ApacheFormat line = true ↔ PrefixMatches ApacheFormat line) ∧
    (MatchString IISFormat line = true ↔ PrefixMatches IISFormat line) ∧
    (MatchString NCSAFormat line = true ↔ PrefixMatches NCSAFormat line) ∧
    (CustomParser.ParseLog fl line =
      if MatchString ApacheFormat line = true then
        .ok (some (CustomParser.apacheRecord fl (FindStringSubmatch ApacheFormat line)))
      else if MatchString IISFormat line = true then
        .ok (some (CustomParser.iisRecord fl (FindStringSubmatch IISFormat line)))
      else if MatchString NCSAFormat line = true then
        .ok (some (CustomParser.ncsaRecord fl (FindStringSubmatch NCSAFormat line)))
      else .ok none) ∧
    (MatchString ApacheFormat apacheLog = true ∧ MatchString NCSAFormat apacheLog = true ∧
      CustomParser.ParseLog fl apacheLog =
        .ok (some (CustomParser.apacheRecord fl (FindStringSubmatch ApacheFormat apacheLog)))) := by
  have ha := apacheLog_matches_Apache
  have hn := apacheLog_matches_NCSA
  refine ⟨MatchString_Apache_iff line, MatchString_IIS_iff line, MatchString_NCSA_iff line,
    CustomParser.ParseLog_cases fl line, ha, hn, ?_⟩
  rw [CustomParser.ParseLog_cases, if_pos ha]

/-- C6: `CustomParser.ParseLog` returns nil exactly when none of the three patterns matches
the line, and a record otherwise; it never aborts the run. -/
theorem custom_nil_iff_no_match {F : Type} (fl : Float64Ops F) (line : List Byte) :
    (CustomParser.ParseLog fl line = .ok none ↔
      (MatchString ApacheFormat line = false ∧ MatchString IISFormat line = false ∧
        MatchString NCSAFormat line = false)) ∧
    (CustomParser.ParseLog fl line = .ok none ↔
      (¬ PrefixMatches ApacheFormat line ∧ ¬ PrefixMatches IISFormat line ∧
        ¬ PrefixMatches NCSAFormat line)) ∧
    (CustomParser.ParseLog fl line = .ok none ∨
      ∃ r, CustomParser.ParseLog fl line = .ok (some r)) := by
  have key : CustomParser.ParseLog fl line = .ok none ↔
      (MatchString ApacheFormat line = false ∧ MatchString IISFormat line = false ∧
        MatchString NCSAFormat line = false) := by
    rw [CustomParser.ParseLog_cases]
    by_cases ha : MatchString ApacheFormat line = true
    · simp [ha]
    · by_cases hi : MatchString IISFormat line = true
      · simp [ha, hi]
      · by_cases hn : MatchString NCSAFormat line = true
        · simp [ha, hi, hn]
        · simp [ha, hi, hn]
  refine ⟨key, ?_, ?_⟩
  · rw [key, ← MatchString_Apache_iff, ← MatchString_IIS_iff, ← MatchString_NCSA_iff]
    simp
  · rw [CustomParser.ParseLog_cases]
    by_cases ha : MatchString ApacheFormat line = true
    · exact Or.inr ⟨_, by rw [if_pos ha]⟩
    · by_cases hi : MatchString IISFormat line = true
      · exact Or.inr ⟨_, by rw [if_neg ha, if_pos hi]⟩
      · by_cases hn : MatchString NCSAFormat line = true
        · exact Or.inr ⟨_, by rw [if_neg ha, if_neg hi, if_pos hn]⟩
        · exact Or.inl (by rw [if_neg ha, if_neg hi, if_neg hn])

set_option maxRecDepth 1000000 in
theorem iisLog_record :
    CustomParser.ParseLog unitFloat iisLog =
      .ok (some { RemoteAddr := ascii "211.251.138.161", RemoteUser := [],
                  TimeLocal := ascii "10/Sep/2015:17:58:28 +0000", Method := ascii "GET",
                  Request := ascii "/t/40x40/dc/0b/bdbef36aee8a0bef2983c88c49d3.jpeg",
                  Protocol := ascii "HTTP/1.1", Status := 200, BodyBytesSent := 786,
                  HttpReferer := [], HttpUserAgent := ascii "\"40x40\"",
                  RequestTime := () }) := by
  decide

set_option maxRecDepth 1000000 in
theorem iisLog_whole_match :
    (FindStringSubmatch IISFormat iisLog).head? =
      some (ascii "211.251.138.161 [10/Sep/2015:17:58:28 +0000] \"GET /t/40x40/dc/0b/bdbef36aee8a0bef2983c88c49d3.jpeg HTTP/1.1\" 200 786 1037 0.798 \"40x40\"") := by
  decide

set_option maxRecDepth 1000000 in
theorem iisLog_not_whole :
    MatchesWhole ApacheFormat iisLog = false ∧ MatchesWhole IISFormat iisLog = false ∧
      MatchesWhole NCSAFormat iisLog = false := by
  decide

/-- C5 (the claim as stated fails): the sample IIS line of `parser_test.go` yields a record,
although no pattern matches the entire line: the IIS match stops after `"40x40"` and leaves
the trailing ` 791 4` uncovered. -/
theorem custom_trailing_text_yields_record :
    CustomParser.ParseLog unitFloat iisLog =
      .ok (some { RemoteAddr := ascii "211.251.138.161", RemoteUser := [],
                  TimeLocal := ascii "10/Sep/2015:17:58:28 +0000", Method := ascii "GET",
                  Request := ascii "/t/40x40/dc/0b/bdbef36aee8a0bef2983c88c49d3.jpeg",
                  Protocol := ascii "HTTP/1.1", Status := 200, BodyBytesSent := 786,
                  HttpReferer := [], HttpUserAgent := ascii "\"40x40\"",
                  RequestTime := () }) ∧
    (FindStringSubmatch IISFormat iisLog).head? =
      some (ascii "211.251.138.161 [10/Sep/2015:17:58:28 +0000] \"GET /t/40x40/dc/0b/bdbef36aee8a0bef2983c88c49d3.jpeg HTTP/1.1\" 200 786 1037 0.798 \"40x40\"") ∧
    ¬ ApacheFormat.Matches true iisLog ∧ ¬ IISFormat.Matches true iisLog ∧
    ¬ NCSAFormat.Matches true iisLog := by
  refine ⟨iisLog_record, iisLog_whole_match, ?_, ?_, ?_⟩
  · intro h
    have := (MatchesWhole_iff _ _).mpr h
    rw [iisLog_not_whole.1] at this
    cases this
  · intro h
    have := (MatchesWhole_iff _ _).mpr h
    rw [iisLog_not_whole.2.1] at this
    cases this
  · intro h
    have := (MatchesWhole_iff _ _).mpr h
    rw [iisLog_not_whole.2.2] at this
    cases this

theorem ParseLog_some_iff {F : Type} (fl : Float64Ops F) (line : List Byte) :
    (∃ r, CustomParser.ParseLog fl line = .ok (some r)) ↔
      (PrefixMatches ApacheFormat line ∨ PrefixMatches IISFormat line ∨
        PrefixMatches NCSAFormat line) := by
  rw [← MatchString_Apache_iff, ← MatchString_IIS_iff, ← MatchString_NCSA_iff,
    CustomParser.ParseLog_cases]
  by_cases ha : MatchString ApacheFormat line = true
  · simp [ha]
  · by_cases hi : MatchString IISFormat line = true
    · simp [ha, hi]
    · by_cases hn : MatchString NCSAFormat line = true
      · simp [ha, hi, hn]
      · simp [ha, hi, hn]

/-- C5 (amended): the three patterns are anchored at the start of the line only.
`CustomParser.ParseLog` yields a record exactly when a prefix of the line, from its first
character on, is a word of one of the patterns; the text after that prefix is ignored, so
a line that yields a record still yields one when any text is appended to it. -/
theorem custom_prefix_anchored {F : Type} (fl : Float64Ops F) (line : List Byte) :
    ((∃ r, CustomParser.ParseLog fl line = .ok (some r)) ↔
      (PrefixMatches ApacheFormat line ∨ PrefixMatches IISFormat line ∨
        PrefixMatches NCSAFormat line)) ∧
    (∀ extra : List Byte, (∃ r, CustomParser.ParseLog fl line = .ok (some r)) →
      ∃ r, CustomParser.ParseLog fl (line ++ extra) = .ok (some r)) := by
  refine ⟨ParseLog_some_iff fl line, ?_⟩
  intro extra h
  rw [ParseLog_some_iff] at h ⊢
  rcases h with h | h | h
  · exact Or.inl (PrefixMatches_append _ _ _ h)
  · exact Or.inr (Or.inl (PrefixMatches_append _ _ _ h))
  · exact Or.inr (Or.inr (PrefixMatches_append _ _ _ h))

theorem atoiOr_spec (dflt : Int) (s : List Byte) :
    (∃ v, IsDecimalInt s v ∧ atoiOr dflt s = v) ∨
      ((∀ v, ¬ IsDecimalInt s v) ∧ atoiOr dflt s = dflt) := by
  unfold atoiOr
  cases h : Atoi s with
  | some v => exact Or.inl ⟨v, (Atoi_eq_some_iff s v).mp h, rfl⟩
  | none => exact Or.inr ⟨(Atoi_eq_none_iff s).mp h, rfl⟩

theorem parseFloatOr_spec {F : Type} (fl : Float64Ops F) (s : List Byte) :
    (∃ x, fl.ParseFloat s = some x ∧ parseFloatOr fl s = x) ∨
      (fl.ParseFloat s = none ∧ parseFloatOr fl s = fl.zero) := by
  unfold parseFloatOr
  cases h : fl.ParseFloat s with
  | some x => exact Or.inl ⟨x, rfl, rfl⟩
  | none => exact Or.inr ⟨rfl, rfl⟩

theorem ApacheFormatName_ne_IIS : ApacheFormatName ≠ IISFormatName := by decide

theorem NCSAFormatName_ne_IIS : NCSAFormatName ≠ IISFormatName := by decide

theorem MatchRegex_fst_apache (line : List Byte) (h : MatchString ApacheFormat line = true) :
    CustomParser.MatchRegex line = (FindStringSubmatch ApacheFormat line, ApacheFormatName) := by
  rw [MatchRegex_eq, if_pos h]

theorem MatchRegex_fst_iis (line : List Byte) (ha : MatchString ApacheFormat line = false)
    (h : MatchString IISFormat line = true) :
    CustomParser.MatchRegex line = (FindStringSubmatch IISFormat line, IISFormatName) := by
  rw [MatchRegex_eq, if_neg (by simp [ha]), if_pos h]

theorem MatchRegex_fst_ncsa (line : List Byte) (ha : MatchString ApacheFormat line = false)
    (hi : MatchString IISFormat line = false) (h : MatchString NCSAFormat line = true) :
    CustomParser.MatchRegex line = (FindStringSubmatch NCSAFormat line, NCSAFormatName) := by
  rw [MatchRegex_eq, if_neg (by simp [ha]), if_neg (by simp [hi]), if_pos h]

/-- C7: numeric conversion in the auto-detect parser never aborts. On a matched line
`Status` is the value of the captured status text when that text is a decimal integer and
500 otherwise, `BodyBytesSent` the value of the captured size text and 0 otherwise, and for
the IIS pattern `RequestTime` is the parsed latency text and 0 otherwise. -/
theorem custom_numeric_defaults {F : Type} (fl : Float64Ops F) (line : List Byte) :
    CustomParser.ParseLog fl line = .ok none ∨
    ∃ r, CustomParser.ParseLog fl line = .ok (some r) ∧
      ∃ statusText sizeText,
        (((CustomParser.MatchRegex line).2 = IISFormatName ∧
            statusText = (CustomParser.MatchRegex line).1.getD 6 [] ∧
            sizeText = (CustomParser.MatchRegex line).1.getD 7 [] ∧
            ((∃ x, fl.ParseFloat ((CustomParser.MatchRegex line).1.getD 8 []) = some x ∧
                r.RequestTime = x) ∨
              (fl.ParseFloat ((CustomParser.MatchRegex line).1.getD 8 []) = none ∧
                r.RequestTime = fl.zero))) ∨
          ((CustomParser.MatchRegex line).2 ≠ IISFormatName ∧
            statusText = (CustomParser.MatchRegex line).1.getD 7 [] ∧
            sizeText = (CustomParser.MatchRegex line).1.getD 8 [])) ∧
        ((∃ v, IsDecimalInt statusText v ∧ r.Status = v) ∨
          ((∀ v, ¬ IsDecimalInt statusText v) ∧ r.Status = 500)) ∧
        ((∃ v, IsDecimalInt sizeText v ∧ r.BodyBytesSent = v) ∨
          ((∀ v, ¬ IsDecimalInt sizeText v) ∧ r.BodyBytesSent = 0)) := by
  rw [CustomParser.ParseLog_cases]
  by_cases ha : MatchString ApacheFormat line = true
  · right
    rw [if_pos ha, MatchRegex_fst_apache line ha]
    refine ⟨_, rfl, _, _, Or.inr ⟨ApacheFormatName_ne_IIS, rfl, rfl⟩, atoiOr_spec _ _,
      atoiOr_spec _ _⟩
  · have ha' : MatchString ApacheFormat line = false := by simpa using ha
    rw [if_neg ha]
    by_cases hi : MatchString IISFormat line = true
    · right
      rw [if_pos hi, MatchRegex_fst_iis line ha' hi]
      exact ⟨_, rfl, _, _, Or.inl ⟨rfl, rfl, rfl, parseFloatOr_spec _ _⟩, atoiOr_spec _ _,
        atoiOr_spec _ _⟩
    · have hi' : MatchString IISFormat line = false := by simpa using hi
      rw [if_neg hi]
      by_cases hn : MatchString NCSAFormat line = true
      · right
        rw [if_pos hn, MatchRegex_fst_ncsa line ha' hi' hn]
        exact ⟨_, rfl, _, _, Or.inr ⟨NCSAFormatName_ne_IIS, rfl, rfl⟩, atoiOr_spec _ _,
          atoiOr_spec _ _⟩
      · left
        rw [if_neg hn]

set_option maxRecDepth 1000000 in
theorem dashLog_record :
    CustomParser.ParseLog unitFloat dashLog =
      .ok (some { RemoteAddr := ascii "1.2.3.4", RemoteUser := [],
                  TimeLocal := ascii "31/Oct/2023:19:07:56 +0700", Method := ascii "GET",
                  Request := ascii "/", Protocol := ascii "HTTP/1.1", Status := 500,
                  BodyBytesSent := 0, HttpReferer := [], HttpUserAgent := ascii "curl",
                  RequestTime := () }) := by
  decide

/-- C8: positional field mapping of the auto-detect parser, for a line matched as Apache,
as IIS and as NCSA; the submatch list is the whole match followed by the groups. -/
theorem custom_field_mapping {F : Type} (fl : Float64Ops F) (line : List Byte) :
    ((CustomParser.MatchRegex line).2 = ApacheFormatName →
      ∃ g0 g1 g2 g3 g4 g5 g6 g7 g8 g9 g10 r,
        (CustomParser.MatchRegex line).1 = [g0, g1, g2, g3, g4, g5, g6, g7, g8, g9, g10] ∧
        CustomParser.ParseLog fl line = .ok (some r) ∧
        r.RemoteAddr = g1 ∧ r.TimeLocal = g3 ∧ r.Method = g4 ∧ r.Request = g5 ∧
        r.Protocol = g6 ∧ r.HttpUserAgent = g10 ∧ r.RemoteUser = [] ∧ r.HttpReferer = [] ∧
        r.RequestTime = fl.zero) ∧
    ((CustomParser.MatchRegex line).2 = IISFormatName →
      ∃ g0 g1 g2 g3 g4 g5 g6 g7 g8 g9 r,
        (CustomParser.MatchRegex line).1 = [g0, g1, g2, g3, g4, g5, g6, g7, g8, g9] ∧
        CustomParser.ParseLog fl line = .ok (some r) ∧
        r.RemoteAddr = g1 ∧ r.TimeLocal = g2 ∧ r.Method = g3 ∧ r.Request = g4 ∧
        r.Protocol = g5 ∧ r.HttpUserAgent = g9 ∧ r.RequestTime = parseFloatOr fl g8 ∧
        r.RemoteUser = []) ∧
    ((CustomParser.MatchRegex line).2 = NCSAFormatName →
      ∃ g0 g1 g2 g3 g4 g5 g6 g7 g8 r,
        (CustomParser.MatchRegex line).1 = [g0, g1, g2, g3, g4, g5, g6, g7, g8] ∧
        CustomParser.ParseLog fl line = .ok (some r) ∧
        r.RemoteAddr = g1 ∧ r.RemoteUser = g2 ∧ r.TimeLocal = g3 ∧ r.Method = g4 ∧
        r.Request = g5 ∧ r.Protocol = g6 ∧ r.HttpUserAgent = []) := by
  refine ⟨?_, ?_, ?_⟩
  · intro h
    have ha := (MatchRegex_apache_iff line).mp h
    obtain ⟨g0, g1, g2, g3, g4, g5, g6, g7, g8, g9, g10, hm⟩ :=
      list_of_length_11 _ (Apache_length line ha)
    refine ⟨g0, g1, g2, g3, g4, g5, g6, g7, g8, g9, g10,
      CustomParser.apacheRecord fl (FindStringSubmatch ApacheFormat line), ?_, ?_, ?_⟩
    · rw [MatchRegex_fst_apache line ha, hm]
    · rw [CustomParser.ParseLog_cases, if_pos ha]
    · rw [hm]
      exact ⟨rfl, rfl, rfl, rfl, rfl, rfl, rfl, rfl, rfl⟩
  · intro h
    obtain ⟨ha, hi⟩ := (MatchRegex_iis_iff line).mp h
    obtain ⟨g0, g1, g2, g3, g4, g5, g6, g7, g8, g9, hm⟩ :=
      list_of_length_10 _ (IIS_length line hi)
    refine ⟨g0, g1, g2, g3, g4, g5, g6, g7, g8, g9,
      CustomParser.iisRecord fl (FindStringSubmatch IISFormat line), ?_, ?_, ?_⟩
    · rw [MatchRegex_fst_iis line ha hi, hm]
    · rw [CustomParser.ParseLog_cases, if_neg (by simp [ha]), if_pos hi]
    · rw [hm]
      exact ⟨rfl, rfl, rfl, rfl, rfl, rfl, rfl, rfl⟩
  · intro h
    obtain ⟨ha, hi, hn⟩ := (MatchRegex_ncsa_iff line).mp h
    obtain ⟨g0, g1, g2, g3, g4, g5, g6, g7, g8, hm⟩ :=
      list_of_length_9 _ (NCSA_length line hn)
    refine ⟨g0, g1, g2, g3, g4, g5, g6, g7, g8,
      CustomParser.ncsaRecord fl (FindStringSubmatch NCSAFormat line), ?_, ?_, ?_⟩
    · rw [MatchRegex_fst_ncsa line ha hi hn, hm]
    · rw [CustomParser.ParseLog_cases, if_neg (by simp [ha]), if_neg (by simp [hi]), if_pos hn]
    · rw [hm]
      exact ⟨rfl, rfl, rfl, rfl, rfl, rfl, rfl⟩

set_option maxRecDepth 1000000 in
theorem apacheLog_record :
    CustomParser.ParseLog unitFloat apacheLog =
      .ok (some { RemoteAddr := ascii "40.77.167.52", RemoteUser := [],
                  TimeLocal := ascii "31/Oct/2023:19:07:56 +0700", Method := ascii "GET",
                  Request := ascii "/checkout/cart/add?product_id=896&redirect=true",
                  Protocol := ascii "HTTP/2", Status := 302, BodyBytesSent := 0,
                  HttpReferer := [],
                  HttpUserAgent := ascii "Mozilla/5.0 AppleWebKit/537.36 (KHTML, like Gecko; compatible; bingbot/2.0; +http://www.bing.com/bingbot.htm) Chrome/103.0.5060.134 Safari/537.36",
                  RequestTime := () }) := by
  decide

set_option maxRecDepth 1000000 in
theorem NCSALog_record :
    CustomParser.ParseLog unitFloat NCSALog =
      .ok (some { RemoteAddr := ascii "10.100.10.45", RemoteUser := ascii "BMAA\\will.smith",
                  TimeLocal := ascii "01/Jul/2013:07:17:28 +0200", Method := ascii "GET",
                  Request := ascii "/Download/__Omnia__Aus- und Weiterbildung__Konsular- und Verwaltungskonferenz, Programm.doc",
                  Protocol := ascii "HTTP/1.1", Status := 200, BodyBytesSent := 9076810,
                  HttpReferer := [], HttpUserAgent := [], RequestTime := () }) := by
  decide

set_option maxRecDepth 1000000 in
theorem sample_format_names :
    (CustomParser.MatchRegex apacheLog).2 = ApacheFormatName ∧
      (CustomParser.MatchRegex iisLog).2 = IISFormatName ∧
      (CustomParser.MatchRegex NCSALog).2 = NCSAFormatName := by
  decide

/-- The three sample lines of `parser_test.go` are matched as Apache, IIS and NCSA, and
their records are the ones `TestCustomLog` expects. -/
theorem custom_field_mapping_witness :
    (CustomParser.ParseLog unitFloat apacheLog =
      .ok (some { RemoteAddr := ascii "40.77.167.52", RemoteUser := [],
                  TimeLocal := ascii "31/Oct/2023:19:07:56 +0700", Method := ascii "GET",
                  Request := ascii "/checkout/cart/add?product_id=896&redirect=true",
                  Protocol := ascii "HTTP/2", Status := 302, BodyBytesSent := 0,
                  HttpReferer := [],
                  HttpUserAgent := ascii "Mozilla/5.0 AppleWebKit/537.36 (KHTML, like Gecko; compatible; bingbot/2.0; +http://www.bing.com/bingbot.htm) Chrome/103.0.5060.134 Safari/537.36",
                  RequestTime := () })) ∧
    (∃ g0 g1 g2 g3 g4 g5 g6 g7 g8 g9 g10 r,
      (CustomParser.MatchRegex apacheLog).1 = [g0, g1, g2, g3, g4, g5, g6, g7, g8, g9, g10] ∧
      CustomParser.ParseLog unitFloat apacheLog = .ok (some r) ∧
      r.RemoteAddr = g1 ∧ r.TimeLocal = g3 ∧ r.Method = g4 ∧ r.Request = g5 ∧
      r.Protocol = g6 ∧ r.HttpUserAgent = g10 ∧ r.RemoteUser = [] ∧ r.HttpReferer = [] ∧
      r.RequestTime = unitFloat.zero) ∧
    (∃ g0 g1 g2 g3 g4 g5 g6 g7 g8 g9 r,
      (CustomParser.MatchRegex iisLog).1 = [g0, g1, g2, g3, g4, g5, g6, g7, g8, g9] ∧
      CustomParser.ParseLog unitFloat iisLog = .ok (some r) ∧
      r.RemoteAddr = g1 ∧ r.TimeLocal = g2 ∧ r.Method = g3 ∧ r.Request = g4 ∧
      r.Protocol = g5 ∧ r.HttpUserAgent = g9 ∧ r.RequestTime = parseFloatOr unitFloat g8 ∧
      r.RemoteUser = []) ∧
    (∃ g0 g1 g2 g3 g4 g5 g6 g7 g8 r,
      (CustomParser.MatchRegex NCSALog).1 = [g0, g1, g2, g3, g4, g5, g6, g7, g8] ∧
      CustomParser.ParseLog unitFloat NCSALog = .ok (some r) ∧
      r.RemoteAddr = g1 ∧ r.RemoteUser = g2 ∧ r.TimeLocal = g3 ∧ r.Method = g4 ∧
      r.Request = g5 ∧ r.Protocol = g6 ∧ r.HttpUserAgent = []) :=
  ⟨apacheLog_record,
   (custom_field_mapping unitFloat apacheLog).1 sample_format_names.1,
   (custom_field_mapping unitFloat iisLog).2.1 sample_format_names.2.1,
   (custom_field_mapping unitFloat NCSALog).2.2 sample_format_names.2.2⟩

/-- On a line whose status and size are both `-` the record has `Status` 500 and
`BodyBytesSent` 0. -/
theorem custom_numeric_defaults_witness :
    CustomParser.ParseLog unitFloat dashLog =
      .ok (some { RemoteAddr := ascii "1.2.3.4", RemoteUser := [],
                  TimeLocal := ascii "31/Oct/2023:19:07:56 +0700", Method := ascii "GET",
                  Request := ascii "/", Protocol := ascii "HTTP/1.1", Status := 500,
                  BodyBytesSent := 0, HttpReferer := [], HttpUserAgent := ascii "curl",
                  RequestTime := () }) ∧
    (CustomParser.ParseLog unitFloat dashLog = .ok none ∨
      ∃ r, CustomParser.ParseLog unitFloat dashLog = .ok (some r) ∧
        ∃ statusText sizeText,
          (((CustomParser.MatchRegex dashLog).2 = IISFormatName ∧
              statusText = (CustomParser.MatchRegex dashLog).1.getD 6 [] ∧
              sizeText = (CustomParser.MatchRegex dashLog).1.getD 7 [] ∧
              ((∃ x, unitFloat.ParseFloat ((CustomParser.MatchRegex dashLog).1.getD 8 []) =
                    some x ∧ r.RequestTime = x) ∨
                (unitFloat.ParseFloat ((CustomParser.MatchRegex dashLog).1.getD 8 []) = none ∧
                  r.RequestTime = unitFloat.zero))) ∨
            ((CustomParser.MatchRegex dashLog).2 ≠ IISFormatName ∧
              statusText = (CustomParser.MatchRegex dashLog).1.getD 7 [] ∧
              sizeText = (CustomParser.MatchRegex dashLog).1.getD 8 [])) ∧
          ((∃ v, IsDecimalInt statusText v ∧ r.Status = v) ∨
            ((∀ v, ¬ IsDecimalInt statusText v) ∧ r.Status = 500)) ∧
          ((∃ v, IsDecimalInt sizeText v ∧ r.BodyBytesSent = v) ∨
            ((∀ v, ¬ IsDecimalInt sizeText v) ∧ r.BodyBytesSent = 0))) :=
  ⟨dashLog_record, custom_numeric_defaults unitFloat dashLog⟩

/-! ### Handlers -/

theorem GoMap.get?_set {V : Type} (m : GoMap V) (k k' : List Byte) (v : V) :
    (m.set k v).get? k' = if k = k' then some v else m.get? k' := by
  induction m with
  | nil =>
    simp only [GoMap.set, GoMap.get?]
  | cons e m ih =>
    obtain ⟨a, b⟩ := e
    simp only [GoMap.set]
    by_cases hak : a = k
    · subst hak
      simp only [if_true, GoMap.get?]
      by_cases hak' : a = k'
      · simp only [hak', if_true]
      · simp only [hak', if_false]
    · simp only [hak, if_false, GoMap.get?, ih]
      by_cases hak' : a = k'
      · subst hak'
        simp only [if_true, if_neg (Ne.symm hak)]
      · simp only [hak', if_false]

theorem countHit_get? (m : GoMap Int) (field k : List Byte) :
    (countHit m field).get? k =
      if field = k then some ((m.get? field).getD 0 + 1) else m.get? k := by
  unfold countHit
  cases h : m.get? field with
  | none => simp only [GoMap.get?_set, Option.getD_none, zero_add]
  | some v => simp only [GoMap.incr, GoMap.get?_set, h, Option.getD_some]

/-- The content of the map after counting the hits of a list of keys, from any map. -/
theorem countHit_foldl (keys : List (List Byte)) :
    ∀ (m : GoMap Int) (k : List Byte),
      (keys.foldl countHit m).get? k =
        if keys.count k = 0 then m.get? k
        else some ((m.get? k).getD 0 + (keys.count k : Int)) := by
  induction keys with
  | nil => intro m k; simp
  | cons a keys ih =>
    intro m k
    rw [List.foldl_cons, ih, countHit_get?]
    by_cases hak : a = k
    · subst hak
      simp only [if_true, List.count_cons_self, Option.getD_some]
      by_cases hc : List.count a keys = 0
      · simp [hc]
      · simp only [hc, if_false, Nat.add_eq_zero, one_ne_zero, and_false, Option.some.injEq]
        push_cast
        ring
    · simp only [hak, if_false, List.count_cons_of_ne (Ne.symm hak)]

theorem fields_feed_eq {F : Type} (c : AnalysisTypes) (t : Int) (sel : LogInfo F → List Byte)
    (hsel : ∀ r, MostVisitedFieldsHandler.field c t (some r) = .ok (sel r)) :
    ∀ (rs : List (LogInfo F)) (m : GoMap Int),
      MostVisitedFieldsHandler.feed c { analysisType := t, countMap := m } rs =
        .ok { analysisType := t, countMap := (rs.map sel).foldl countHit m } := by
  intro rs
  induction rs with
  | nil => intro m; rfl
  | cons r rs ih =>
    intro m
    simp only [MostVisitedFieldsHandler.feed, MostVisitedFieldsHandler.Input, hsel,
      Outcome.bind, ih, List.map_cons, List.foldl_cons]

theorem count_map_eq_countP {F : Type} (sel : LogInfo F → List Byte) (k : List Byte)
    (rs : List (LogInfo F)) :
    (rs.map sel).count k = rs.countP (fun r => decide (sel r = k)) := by
  induction rs with
  | nil => rfl
  | cons r rs ih =>
    by_cases h : sel r = k
    · simp [List.countP_cons, h, ih]
    · rw [List.map_cons, List.count_cons_of_ne (Ne.symm h), ih]
      simp [List.countP_cons, h]

theorem fields_counts {F : Type} (c : AnalysisTypes) (t : Int) (sel : LogInfo F → List Byte)
    (hsel : ∀ r, MostVisitedFieldsHandler.field c t (some r) = .ok (sel r))
    (rs : List (LogInfo F)) :
    ∃ h, MostVisitedFieldsHandler.feed c (NewMostVisitedFieldsHandler t) rs = .ok h ∧
      ∀ k, h.countMap.get? k = countEntry (rs.countP (fun r => decide (sel r = k))) := by
  refine ⟨_, fields_feed_eq c t sel hsel rs [], ?_⟩
  intro k
  simp only [countHit_foldl, count_map_eq_countP, countEntry, GoMap.get?, Option.getD_none,
    zero_add]

theorem field_ips {F : Type} (c : AnalysisTypes) (r : LogInfo F) :
    MostVisitedFieldsHandler.field c c.AnalysisTypeVisitedIps (some r) = .ok r.RemoteAddr := by
  simp only [MostVisitedFieldsHandler.field, if_true]

theorem field_uris {F : Type} (c : AnalysisTypes) (hd : c.Distinct) (r : LogInfo F) :
    MostVisitedFieldsHandler.field c c.AnalysisTypeVisitedUris (some r) = .ok r.Request := by
  simp only [MostVisitedFieldsHandler.field, if_neg (Ne.symm hd.1), if_true]

theorem field_agents {F : Type} (c : AnalysisTypes) (hd : c.Distinct) (r : LogInfo F) :
    MostVisitedFieldsHandler.field c c.AnalysisTypeVisitedUserAgents (some r) =
      .ok r.HttpUserAgent := by
  simp only [MostVisitedFieldsHandler.field, if_neg (Ne.symm hd.2.1), if_neg (Ne.symm hd.2.2),
    if_true]

theorem countP_replicate_self {F : Type} (sel : LogInfo F → List Byte) (r : LogInfo F)
    (n : Nat) : (List.replicate n r).countP (fun x => decide (sel x = sel r)) = n := by
  induction n with
  | zero => rfl
  | succ n ih => simp [List.replicate_succ, List.countP_cons, ih]

/-- C9: for each of the three analysis types and every sequence of records fed to `Input`
of a fresh `MostVisitedFieldsHandler`, the count stored for a key is the number of records
whose selected field is that key, and a key that never occurred is absent; the same key
fed `T * M` times has the count `T * M`. -/
theorem fields_count_exact {F : Type} (c : AnalysisTypes) (hd : c.Distinct)
    (rs : List (LogInfo F)) :
    (∃ h, MostVisitedFieldsHandler.feed c
        (NewMostVisitedFieldsHandler c.AnalysisTypeVisitedIps) rs = .ok h ∧
      ∀ k, h.countMap.get? k =
        countEntry (rs.countP (fun r => decide (r.RemoteAddr = k)))) ∧
    (∃ h, MostVisitedFieldsHandler.feed c
        (NewMostVisitedFieldsHandler c.AnalysisTypeVisitedUris) rs = .ok h ∧
      ∀ k, h.countMap.get? k =
        countEntry (rs.countP (fun r => decide (r.Request = k)))) ∧
    (∃ h, MostVisitedFieldsHandler.feed c
        (NewMostVisitedFieldsHandler c.AnalysisTypeVisitedUserAgents) rs = .ok h ∧
      ∀ k, h.countMap.get? k =
        countEntry (rs.countP (fun r => decide (r.HttpUserAgent = k)))) ∧
    (∀ (T M : Nat) (r : LogInfo F), 0 < T → 0 < M →
      (∃ h, MostVisitedFieldsHandler.feed c
          (NewMostVisitedFieldsHandler c.AnalysisTypeVisitedIps)
          (List.replicate (T * M) r) = .ok h ∧
        h.countMap.get? r.RemoteAddr = some ((T * M : Nat) : Int)) ∧
      (∃ h, MostVisitedFieldsHandler.feed c
          (NewMostVisitedFieldsHandler c.AnalysisTypeVisitedUris)
          (List.replicate (T * M) r) = .ok h ∧
        h.countMap.get? r.Request = some ((T * M : Nat) : Int)) ∧
      (∃ h, MostVisitedFieldsHandler.feed c
          (NewMostVisitedFieldsHandler c.AnalysisTypeVisitedUserAgents)
          (List.replicate (T * M) r) = .ok h ∧
        h.countMap.get? r.HttpUserAgent = some ((T * M : Nat) : Int))) := by
  refine ⟨fields_counts c _ _ (field_ips c) rs, fields_counts c _ _ (field_uris c hd) rs,
    fields_counts c _ _ (field_agents c hd) rs, ?_⟩
  intro T M r hT hM
  have hpos : T * M ≠ 0 := Nat.pos_iff_ne_zero.mp (Nat.mul_pos hT hM)
  refine ⟨?_, ?_, ?_⟩
  · obtain ⟨h, hf, hc⟩ := fields_counts c _ _ (field_ips c) (List.replicate (T * M) r)
    refine ⟨h, hf, ?_⟩
    rw [hc, countP_replicate_self (fun x => x.RemoteAddr), countEntry, if_neg hpos]
  · obtain ⟨h, hf, hc⟩ := fields_counts c _ _ (field_uris c hd) (List.replicate (T * M) r)
    refine ⟨h, hf, ?_⟩
    rw [hc, countP_replicate_self (fun x => x.Request), countEntry, if_neg hpos]
  · obtain ⟨h, hf, hc⟩ := fields_counts c _ _ (field_agents c hd) (List.replicate (T * M) r)
    refine ⟨h, hf, ?_⟩
    rw [hc, countP_replicate_self (fun x => x.HttpUserAgent), countEntry, if_neg hpos]

/-- The three sample hits, counted by address: two for `10.0.0.1`, one for `10.0.0.2`. -/
theorem fields_count_exact_witness :
    sampleTypes.Distinct ∧
    (∃ h, MostVisitedFieldsHandler.feed sampleTypes
        (NewMostVisitedFieldsHandler sampleTypes.AnalysisTypeVisitedIps) sampleHits = .ok h ∧
      ∀ k, h.countMap.get? k =
        countEntry (sampleHits.countP (fun r => decide (r.RemoteAddr = k)))) ∧
    countEntry (sampleHits.countP (fun r => decide (r.RemoteAddr = ascii "10.0.0.1"))) =
      some 2 :=
  ⟨by decide, (fields_count_exact sampleTypes (by decide) sampleHits).1, by decide⟩

theorem PvAndUvHandler.Input_denote {F : Type} (h : PvAndUvHandler) (r : LogInfo F) :
    ∃ h', PvAndUvHandler.Input h (some r) = .ok h' ∧
      h'.denote = pvUvStep h.denote r.RemoteAddr := by
  cases hg : h.uniqMap.get? r.RemoteAddr with
  | some v =>
    refine ⟨{ h with pv := wrapInt32 (h.pv + 1) }, ?_, ?_⟩
    · simp only [PvAndUvHandler.Input, hg]
    · simp [PvAndUvHandler.denote, pvUvStep, hg]
  | none =>
    refine ⟨{ pv := wrapInt32 (h.pv + 1), uv := wrapInt32 (h.uv + 1),
              uniqMap := h.uniqMap.set r.RemoteAddr true }, ?_, ?_⟩
    · simp only [PvAndUvHandler.Input, hg]
    · simp only [PvAndUvHandler.denote, pvUvStep, hg, Option.isSome_none, Bool.false_eq_true,
        if_false]
      congr 2
      funext k
      rw [GoMap.get?_set]

theorem pvUvStep_comm (d : Int × Int × (List Byte → Option Bool)) (a b : List Byte) :
    pvUvStep (pvUvStep d a) b = pvUvStep (pvUvStep d b) a := by
  obtain ⟨pv, uv, f⟩ := d
  unfold pvUvStep
  by_cases hab : a = b
  · subst hab; rfl
  · have hba : ¬ b = a := fun h => hab h.symm
    cases hfa : f a with
    | some va =>
      cases hfb : f b with
      | some vb => simp [hfa, hfb]
      | none => simp [hfa, hfb, hab, hba]
    | none =>
      cases hfb : f b with
      | some vb => simp [hfa, hfb, hab, hba]
      | none =>
        simp only [hfa, hfb, hab, hba, Option.isSome_none, Bool.false_eq_true, if_false,
          Prod.mk.injEq, true_and]
        funext k
        by_cases hak : a = k
        · subst hak; simp [hab]
        · simp [hak]

theorem PvAndUvHandler.feed_denote {F : Type} (rs : List (LogInfo F)) :
    ∀ h : PvAndUvHandler, ∃ h', PvAndUvHandler.feed h rs = .ok h' ∧
      h'.denote = (rs.map (fun r => r.RemoteAddr)).foldl pvUvStep h.denote := by
  induction rs with
  | nil => intro h; exact ⟨h, rfl, rfl⟩
  | cons r rs ih =>
    intro h
    obtain ⟨h1, hi, hd⟩ := PvAndUvHandler.Input_denote h r
    obtain ⟨h2, hf, hd2⟩ := ih h1
    refine ⟨h2, ?_, ?_⟩
    · simp only [PvAndUvHandler.feed, hi, Outcome.bind, hf]
    · rw [hd2, hd]; rfl

theorem foldl_perm_of_comm {D A : Type} (step : D → A → D)
    (hcomm : ∀ d a b, step (step d a) b = step (step d b) a) {l1 l2 : List A}
    (hp : l1.Perm l2) : ∀ d, l1.foldl step d = l2.foldl step d := by
  induction hp with
  | nil => intro d; rfl
  | cons a _ ih => intro d; exact ih (step d a)
  | swap a b l => intro d; simp only [List.foldl_cons, hcomm]
  | trans _ _ ih1 ih2 => intro d; rw [ih1, ih2]

theorem pvUv_feed_perm {F : Type} (rs1 rs2 : List (LogInfo F)) (hp : rs1.Perm rs2) :
    (PvAndUvHandler.feed NewPvAndUvHandler rs1).map PvAndUvHandler.denote =
      (PvAndUvHandler.feed NewPvAndUvHandler rs2).map PvAndUvHandler.denote := by
  obtain ⟨h1, hf1, hd1⟩ := PvAndUvHandler.feed_denote rs1 NewPvAndUvHandler
  obtain ⟨h2, hf2, hd2⟩ := PvAndUvHandler.feed_denote rs2 NewPvAndUvHandler
  rw [hf1, hf2]
  simp only [Outcome.map, Outcome.ok.injEq]
  rw [hd1, hd2]
  exact foldl_perm_of_comm pvUvStep pvUvStep_comm (hp.map _) _

theorem fields_feed_fatal {F : Type} (c : AnalysisTypes) (t : Int)
    (hf : ∀ r : LogInfo F, MostVisitedFieldsHandler.field c t (some r) = .fatal)
    (h : MostVisitedFieldsHandler) (ht : h.analysisType = t) (r : LogInfo F)
    (rs : List (LogInfo F)) :
    MostVisitedFieldsHandler.feed c h (r :: rs) = .fatal := by
  simp only [MostVisitedFieldsHandler.feed, MostVisitedFieldsHandler.Input, ht, hf,
    Outcome.bind]

theorem field_cases {F : Type} (c : AnalysisTypes) (t : Int) :
    (∃ sel : LogInfo F → List Byte,
        ∀ r, MostVisitedFieldsHandler.field c t (some r) = .ok (sel r)) ∨
      (∀ r : LogInfo F, MostVisitedFieldsHandler.field c t (some r) = .fatal) := by
  unfold MostVisitedFieldsHandler.field
  by_cases h1 : t = c.AnalysisTypeVisitedIps
  · exact Or.inl ⟨fun r => r.RemoteAddr, fun r => by rw [if_pos h1]⟩
  · by_cases h2 : t = c.AnalysisTypeVisitedUris
    · exact Or.inl ⟨fun r => r.Request, fun r => by rw [if_neg h1, if_pos h2]⟩
    · by_cases h3 : t = c.AnalysisTypeVisitedUserAgents
      · exact Or.inl ⟨fun r => r.HttpUserAgent,
          fun r => by rw [if_neg h1, if_neg h2, if_pos h3]⟩
      · exact Or.inr (fun r => by rw [if_neg h1, if_neg h2, if_neg h3])

theorem countHit_foldl_perm (l1 l2 : List (List Byte)) (hp : l1.Perm l2) :
    (l1.foldl countHit []).get? = (l2.foldl countHit []).get? := by
  funext k
  rw [countHit_foldl, countHit_foldl]
  simp only [List.count, hp.countP_eq]

theorem fields_feed_perm {F : Type} (c : AnalysisTypes) (t : Int)
    (rs1 rs2 : List (LogInfo F)) (hp : rs1.Perm rs2) :
    (MostVisitedFieldsHandler.feed c (NewMostVisitedFieldsHandler t) rs1).map
        MostVisitedFieldsHandler.denote =
      (MostVisitedFieldsHandler.feed c (NewMostVisitedFieldsHandler t) rs2).map
        MostVisitedFieldsHandler.denote := by
  rcases field_cases (F := F) c t with ⟨sel, hsel⟩ | hf
  · unfold NewMostVisitedFieldsHandler
    rw [fields_feed_eq c t sel hsel, fields_feed_eq c t sel hsel]
    simp only [Outcome.map, MostVisitedFieldsHandler.denote, Outcome.ok.injEq, Prod.mk.injEq,
      true_and]
    exact countHit_foldl_perm _ _ (hp.map sel)
  · cases rs1 with
    | nil =>
      have := hp.symm.eq_nil
      subst this
      rfl
    | cons r1 l1 =>
      cases rs2 with
      | nil => exact absurd hp.eq_nil (by simp)
      | cons r2 l2 =>
        rw [fields_feed_fatal c t hf _ rfl, fields_feed_fatal c t hf _ rfl]

theorem GoMap.set_set {V : Type} (m : GoMap V) (k : List Byte) (v v' : V) :
    (m.set k v).set k v' = m.set k v' := by
  induction m with
  | nil => simp [GoMap.set]
  | cons e m ih =>
    obtain ⟨a, b⟩ := e
    by_cases hak : a = k
    · simp [GoMap.set, hak]
    · simp [GoMap.set, hak, ih]

theorem GoMap.get?_set_self {V : Type} (m : GoMap V) (k : List Byte) (v : V) :
    (m.set k v).get? k = some v := by
  rw [GoMap.get?_set, if_pos rfl]

theorem countHit_of_none (m : GoMap Int) (k : List Byte) (h : m.get? k = none) :
    countHit m k = m.set k 1 := by
  simp only [countHit, h]

theorem countHit_of_some (m : GoMap Int) (k : List Byte) (v : Int) (h : m.get? k = some v) :
    countHit m k = m.incr k := by
  simp only [countHit, h]

/-- Under the agreement of the three maps on which countries and cities they hold, one
`Input` call counts one more hit at each level. -/
theorem MostVisitedLocationsHandler.Input_eq_bump {F : Type}
    (query : List Byte → Option (List Byte × List Byte)) (ls : Int) (m1 : GoMap Int)
    (m2 : GoMap (GoMap Int)) (m3 : GoMap (GoMap (GoMap Int))) (r : LogInfo F)
    (c ci : List Byte) (hq : query r.RemoteAddr = some (c, ci))
    (h1 : (m1.get? c).isSome = (m3.get? c).isSome)
    (h2 : (m2.get? c).isSome = (m3.get? c).isSome)
    (h3 : ∀ cities cityIps, m2.get? c = some cities → m3.get? c = some cityIps →
      (cities.get? ci).isSome = (cityIps.get? ci).isSome) :
    MostVisitedLocationsHandler.Input query
        { limitSecond := ls, countryCountMap := m1, countryCityCountMap := m2,
          countryCityIpCountMap := m3 } (some r) =
      .ok { limitSecond := ls, countryCountMap := countHit m1 c,
            countryCityCountMap := bump2 m2 (c, ci),
            countryCityIpCountMap := bump3 m3 (c, ci, r.RemoteAddr) } := by
  simp only [MostVisitedLocationsHandler.Input, hq]
  cases hm3 : m3.get? c with
  | none =>
    have hm1 : m1.get? c = none := by
      rw [hm3] at h1; simpa using h1
    have hm2 : m2.get? c = none := by
      rw [hm3] at h2; simpa using h2
    simp only [MostVisitedLocationsHandler.saveCountry, hm3,
      MostVisitedLocationsHandler.saveCity, GoMap.get?_set_self, Option.bind, GoMap.get?,
      Outcome.bind, MostVisitedLocationsHandler.saveIp, GoMap.set, if_true, GoMap.set_set,
      countHit_of_none m1 c hm1, bump2, bump3, GoMap.bumpWith, hm2, Option.getD_none,
      countHit, hm1]
  | some cityIps =>
    obtain ⟨v1, hm1⟩ : ∃ v, m1.get? c = some v := by
      rw [hm3] at h1; exact Option.isSome_iff_exists.mp (by simpa using h1)
    obtain ⟨cities, hm2⟩ : ∃ v, m2.get? c = some v := by
      rw [hm3] at h2; exact Option.isSome_iff_exists.mp (by simpa using h2)
    have h3' := h3 cities cityIps hm2 hm3
    cases hci : cityIps.get? ci with
    | none =>
      have hcities : cities.get? ci = none := by
        rw [hci] at h3'; simpa using h3'
      simp only [MostVisitedLocationsHandler.saveCountry, hm3,
        MostVisitedLocationsHandler.saveCity, Option.bind, hci, hm2, Outcome.bind,
        MostVisitedLocationsHandler.saveIp, GoMap.get?_set_self, GoMap.get?, GoMap.set_set,
        countHit_of_some m1 c v1 hm1, bump2, bump3, GoMap.bumpWith, Option.getD_some,
        Option.getD_none, countHit_of_none cities ci hcities, countHit, GoMap.set, hm1,
        hcities]
    | some ips =>
      obtain ⟨v2, hcities⟩ : ∃ v, cities.get? ci = some v := by
        rw [hci] at h3'; exact Option.isSome_iff_exists.mp (by simpa using h3')
      cases hip : ips.get? r.RemoteAddr with
      | none =>
        simp only [MostVisitedLocationsHandler.saveCountry, hm3,
          MostVisitedLocationsHandler.saveCity, Option.bind, hci, hm2, Outcome.bind,
          MostVisitedLocationsHandler.saveIp, hip,
          countHit_of_some m1 c v1 hm1, bump2, bump3, GoMap.bumpWith, Option.getD_some,
          countHit_of_some cities ci v2 hcities, countHit_of_none ips _ hip]
      | some v3 =>
        simp only [MostVisitedLocationsHandler.saveCountry, hm3,
          MostVisitedLocationsHandler.saveCity, Option.bind, hci, hm2, Outcome.bind,
          MostVisitedLocationsHandler.saveIp, hip,
          countHit_of_some m1 c v1 hm1, bump2, bump3, GoMap.bumpWith, Option.getD_some,
          countHit_of_some cities ci v2 hcities, countHit_of_some ips _ v3 hip]

theorem GoMap.get?_bumpWith {V β : Type} (f : V → β → V) (e : V) (m : GoMap V)
    (a a' : List Byte) (x : β) :
    (GoMap.bumpWith f e m a x).get? a' =
      if a = a' then some (f ((m.get? a).getD e) x) else m.get? a' := by
  rw [GoMap.bumpWith, GoMap.get?_set]

/-- The entry of `a` after a run of `bumpWith`: untouched when no item is for `a`,
otherwise the aggregate of the items for `a`, in their order. -/
theorem bumpWith_foldl_get? {V β : Type} (f : V → β → V) (e : V) (a : List Byte) :
    ∀ (xs : List (List Byte × β)) (m : GoMap V),
      (xs.foldl (fun m x => GoMap.bumpWith f e m x.1 x.2) m).get? a =
        if (xs.filter (fun x => decide (x.1 = a))).isEmpty then m.get? a
        else some (((xs.filter (fun x => decide (x.1 = a))).map (fun x => x.2)).foldl f
          ((m.get? a).getD e)) := by
  intro xs
  induction xs with
  | nil => intro m; rfl
  | cons x xs ih =>
    intro m
    rw [List.foldl_cons, ih, GoMap.get?_bumpWith]
    by_cases hx : x.1 = a
    · simp only [hx, if_true, List.filter_cons, decide_True, List.isEmpty_cons,
        Bool.false_eq_true, if_false, List.map_cons, List.foldl_cons, Option.getD_some]
      cases hf : (xs.filter (fun x => decide (x.1 = a))).isEmpty with
      | true =>
        have : xs.filter (fun x => decide (x.1 = a)) = [] := List.isEmpty_iff.mp hf
        simp [this]
      | false => simp
    · simp only [hx, if_false, List.filter_cons, decide_False, Bool.false_eq_true]

theorem countHit_foldl_isSome (ks : List (List Byte)) (k : List Byte) :
    ((ks.foldl countHit []).get? k).isSome = decide (k ∈ ks) := by
  rw [countHit_foldl]
  by_cases h : k ∈ ks
  · have : List.count k ks ≠ 0 := Nat.pos_iff_ne_zero.mp (List.count_pos_iff.mpr h)
    simp [this, h]
  · have : List.count k ks = 0 := List.count_eq_zero.mpr h
    simp [this, h, GoMap.get?]

theorem filter_isEmpty_iff {β : Type} (xs : List (List Byte × β)) (a : List Byte) :
    (xs.filter (fun x => decide (x.1 = a))).isEmpty = !decide (a ∈ xs.map (fun x => x.1)) := by
  induction xs with
  | nil => rfl
  | cons x xs ih =>
    by_cases hx : x.1 = a
    · simp [List.filter_cons, hx]
    · have hx' : ¬ a = x.1 := fun h => hx h.symm
      simp only [List.filter_cons, hx, decide_False, Bool.false_eq_true, if_false, ih,
        List.map_cons, List.mem_cons, hx', false_or]

theorem bumpWith_foldl_isSome {V β : Type} (f : V → β → V) (e : V) (a : List Byte)
    (xs : List (List Byte × β)) :
    ((xs.foldl (fun m x => GoMap.bumpWith f e m x.1 x.2) []).get? a).isSome =
      decide (a ∈ xs.map (fun x => x.1)) := by
  rw [bumpWith_foldl_get?, filter_isEmpty_iff]
  by_cases h : a ∈ xs.map (fun x => x.1)
  · simp [h]
  · simp [h, GoMap.get?]

theorem bump2_foldl_eq (ps : List (List Byte × List Byte)) (m : GoMap (GoMap Int)) :
    ps.foldl bump2 m = ps.foldl (fun m x => GoMap.bumpWith countHit [] m x.1 x.2) m := rfl

theorem bump3_foldl_eq (ts : List (List Byte × List Byte × List Byte))
    (m : GoMap (GoMap (GoMap Int))) :
    ts.foldl bump3 m = ts.foldl (fun m x => GoMap.bumpWith bump2 [] m x.1 x.2) m := rfl

/-- The maps of `trieState` agree on the countries and cities they hold. -/
theorem trieState_consistent (ts : List (List Byte × List Byte × List Byte))
    (c ci : List Byte) :
    ((((ts.map (fun t => t.1)).foldl countHit []).get? c).isSome =
        ((ts.foldl bump3 []).get? c).isSome) ∧
    ((((ts.map (fun t => (t.1, t.2.1))).foldl bump2 []).get? c).isSome =
        ((ts.foldl bump3 []).get? c).isSome) ∧
    (∀ cities cityIps,
      ((ts.map (fun t => (t.1, t.2.1))).foldl bump2 []).get? c = some cities →
      (ts.foldl bump3 []).get? c = some cityIps →
      (cities.get? ci).isSome = (cityIps.get? ci).isSome) := by
  refine ⟨?_, ?_, ?_⟩
  · rw [countHit_foldl_isSome, bump3_foldl_eq, bumpWith_foldl_isSome]
  · rw [bump2_foldl_eq, bump3_foldl_eq, bumpWith_foldl_isSome, bumpWith_foldl_isSome]
    simp [List.map_map, Function.comp]
  · intro cities cityIps h2 h3
    rw [bump2_foldl_eq, bumpWith_foldl_get?] at h2
    rw [bump3_foldl_eq, bumpWith_foldl_get?] at h3
    split at h2
    · simp [GoMap.get?] at h2
    · split at h3
      · simp [GoMap.get?] at h3
      · simp only [Option.some.injEq, GoMap.get?, Option.getD_none] at h2 h3
        rw [← h2, ← h3, countHit_foldl_isSome, bump2_foldl_eq, bumpWith_foldl_isSome]
        congr 1
        simp only [List.mem_map, List.mem_filter, decide_eq_true_eq, eq_iff_iff]
        constructor
        · rintro ⟨p, ⟨⟨t, ht, rfl⟩, hc⟩, rfl⟩
          exact ⟨t.2, ⟨t, ⟨ht, hc⟩, rfl⟩, rfl⟩
        · rintro ⟨q, ⟨t, ⟨ht, hc⟩, rfl⟩, rfl⟩
          exact ⟨(t.1, t.2.1), ⟨⟨t, ht, rfl⟩, hc⟩, rfl⟩

theorem trieState_snoc (ls : Int) (ts : List (List Byte × List Byte × List Byte))
    (t : List Byte × List Byte × List Byte) :
    trieState ls (ts ++ [t]) =
      { limitSecond := ls,
        countryCountMap := countHit (trieState ls ts).countryCountMap t.1,
        countryCityCountMap := bump2 (trieState ls ts).countryCityCountMap (t.1, t.2.1),
        countryCityIpCountMap := bump3 (trieState ls ts).countryCityIpCountMap t } := by
  simp only [trieState, List.map_append, List.foldl_append, List.map_cons, List.map_nil,
    List.foldl_cons, List.foldl_nil]

/-- The maps after feeding records to a handler that holds the counts of `ts`: fatal when
the resolver fails on one of the addresses, the counts of `ts` and of the new hits
otherwise. -/
theorem MostVisitedLocationsHandler.feed_eq {F : Type}
    (query : List Byte → Option (List Byte × List Byte)) (ls : Int) :
    ∀ (rs : List (LogInfo F)) (ts : List (List Byte × List Byte × List Byte)),
      MostVisitedLocationsHandler.feed query (trieState ls ts) rs =
        if rs.all (fun r => (query r.RemoteAddr).isSome) then
          .ok (trieState ls (ts ++ rs.filterMap (located query)))
        else .fatal := by
  intro rs
  induction rs with
  | nil => intro ts; simp [MostVisitedLocationsHandler.feed]
  | cons r rs ih =>
    intro ts
    cases hq : query r.RemoteAddr with
    | none =>
      simp [MostVisitedLocationsHandler.feed, MostVisitedLocationsHandler.Input, hq,
        Outcome.bind]
    | some loc =>
      obtain ⟨c, ci⟩ := loc
      obtain ⟨h1, h2, h3⟩ := trieState_consistent ts c ci
      have hstep := MostVisitedLocationsHandler.Input_eq_bump query ls _ _ _ r c ci hq h1 h2 h3
      have hsnoc := trieState_snoc ls ts (c, ci, r.RemoteAddr)
      have hin : MostVisitedLocationsHandler.Input query (trieState ls ts) (some r) =
          .ok (trieState ls (ts ++ [(c, ci, r.RemoteAddr)])) := by
        rw [hsnoc]; exact hstep
      rw [MostVisitedLocationsHandler.feed, hin]
      simp only [Outcome.bind, ih, List.all_cons, hq, Option.isSome_some, Bool.true_and,
        List.filterMap_cons, located, Option.map_some', List.append_assoc,
        List.singleton_append]

theorem perm_isEmpty {α : Type} {l l' : List α} (hp : l.Perm l') : l.isEmpty = l'.isEmpty := by
  cases l with
  | nil => rw [hp.symm.eq_nil]
  | cons a l =>
    cases l' with
    | nil => exact absurd hp.eq_nil (by simp)
    | cons b l' => rfl

/-- A run of `bumpWith` from the empty map gives the same content for every order of the
items, when the aggregates do. -/
theorem bumpWith_foldl_perm {V β D : Type} (f : V → β → V) (e : V) (den : V → D)
    (hinner : ∀ l l' : List β, l.Perm l' → den (l.foldl f e) = den (l'.foldl f e))
    (xs xs' : List (List Byte × β)) (hp : xs.Perm xs') (a : List Byte) :
    ((xs.foldl (fun m x => GoMap.bumpWith f e m x.1 x.2) []).get? a).map den =
      ((xs'.foldl (fun m x => GoMap.bumpWith f e m x.1 x.2) []).get? a).map den := by
  rw [bumpWith_foldl_get?, bumpWith_foldl_get?]
  have hf := hp.filter (fun x => decide (x.1 = a))
  rw [perm_isEmpty hf]
  split
  · rfl
  · simp only [Option.map_some', Option.some.injEq]
    exact hinner _ _ (hf.map _)

theorem bump2_foldl_perm (ps ps' : List (List Byte × List Byte)) (hp : ps.Perm ps') :
    GoMap.denote2 (ps.foldl bump2 []) = GoMap.denote2 (ps'.foldl bump2 []) := by
  funext c
  simp only [GoMap.denote2, bump2_foldl_eq]
  exact bumpWith_foldl_perm countHit [] GoMap.get? countHit_foldl_perm ps ps' hp c

theorem bump3_foldl_perm (ts ts' : List (List Byte × List Byte × List Byte))
    (hp : ts.Perm ts') :
    GoMap.denote3 (ts.foldl bump3 []) = GoMap.denote3 (ts'.foldl bump3 []) := by
  funext c
  simp only [GoMap.denote3, bump3_foldl_eq]
  exact bumpWith_foldl_perm bump2 [] GoMap.denote2 bump2_foldl_perm ts ts' hp c

theorem trieState_perm (ls : Int) (ts ts' : List (List Byte × List Byte × List Byte))
    (hp : ts.Perm ts') : (trieState ls ts).denote = (trieState ls ts').denote := by
  simp only [MostVisitedLocationsHandler.denote, trieState, Prod.mk.injEq]
  exact ⟨countHit_foldl_perm _ _ (hp.map _), bump2_foldl_perm _ _ (hp.map _),
    bump3_foldl_perm _ _ hp⟩

theorem perm_all {α : Type} (p : α → Bool) {l l' : List α} (hp : l.Perm l') :
    l.all p = l'.all p := by
  rw [Bool.eq_iff_iff, List.all_eq_true, List.all_eq_true]
  exact ⟨fun h x hx => h x (hp.mem_iff.mpr hx), fun h x hx => h x (hp.mem_iff.mp hx)⟩

theorem locations_feed_perm {F : Type}
    (query : List Byte → Option (List Byte × List Byte)) (ls : Int)
    (rs1 rs2 : List (LogInfo F)) (hp : rs1.Perm rs2) :
    (MostVisitedLocationsHandler.feed query (NewMostVisitedLocationsHandler ls) rs1).map
        MostVisitedLocationsHandler.denote =
      (MostVisitedLocationsHandler.feed query (NewMostVisitedLocationsHandler ls) rs2).map
        MostVisitedLocationsHandler.denote := by
  have hnew : NewMostVisitedLocationsHandler ls = trieState ls [] := rfl
  rw [hnew, MostVisitedLocationsHandler.feed_eq, MostVisitedLocationsHandler.feed_eq,
    perm_all _ hp]
  split
  · simp only [Outcome.map, List.nil_append, Outcome.ok.injEq]
    exact trieState_perm ls _ _ (hp.filterMap _)
  · rfl

/-- C10: order independence of aggregation. For each of `PvAndUvHandler`,
`MostVisitedFieldsHandler` and `MostVisitedLocationsHandler` (with a resolver that is a
function of the address), feeding a sequence of records to a fresh handler ends the same
way, and with the same content of the counters and maps, for every permutation of the
sequence. -/
theorem aggregation_order_independent {F : Type} (c : AnalysisTypes) (analysisType : Int)
    (queryIpLocation : List Byte → Option (List Byte × List Byte)) (limitSecond : Int)
    (rs1 rs2 : List (LogInfo F)) (hp : rs1.Perm rs2) :
    ((PvAndUvHandler.feed NewPvAndUvHandler rs1).map PvAndUvHandler.denote =
      (PvAndUvHandler.feed NewPvAndUvHandler rs2).map PvAndUvHandler.denote) ∧
    ((MostVisitedFieldsHandler.feed c (NewMostVisitedFieldsHandler analysisType) rs1).map
        MostVisitedFieldsHandler.denote =
      (MostVisitedFieldsHandler.feed c (NewMostVisitedFieldsHandler analysisType) rs2).map
        MostVisitedFieldsHandler.denote) ∧
    ((MostVisitedLocationsHandler.feed queryIpLocation
          (NewMostVisitedLocationsHandler limitSecond) rs1).map
        MostVisitedLocationsHandler.denote =
      (MostVisitedLocationsHandler.feed queryIpLocation
          (NewMostVisitedLocationsHandler limitSecond) rs2).map
        MostVisitedLocationsHandler.denote) :=
  ⟨pvUv_feed_perm rs1 rs2 hp,
    fields_feed_perm c analysisType rs1 rs2 hp,
    locations_feed_perm queryIpLocation limitSecond rs1 rs2 hp⟩

/-- The three sample hits, fed in two different orders. -/
theorem aggregation_order_independent_witness :
    ((PvAndUvHandler.feed NewPvAndUvHandler sampleHits).map PvAndUvHandler.denote =
      (PvAndUvHandler.feed NewPvAndUvHandler sampleHits.reverse).map PvAndUvHandler.denote) ∧
    ((MostVisitedFieldsHandler.feed sampleTypes (NewMostVisitedFieldsHandler 1)
          sampleHits).map MostVisitedFieldsHandler.denote =
      (MostVisitedFieldsHandler.feed sampleTypes (NewMostVisitedFieldsHandler 1)
          sampleHits.reverse).map MostVisitedFieldsHandler.denote) ∧
    ((MostVisitedLocationsHandler.feed sampleResolver (NewMostVisitedLocationsHandler 15)
          sampleHits).map MostVisitedLocationsHandler.denote =
      (MostVisitedLocationsHandler.feed sampleResolver (NewMostVisitedLocationsHandler 15)
          sampleHits.reverse).map MostVisitedLocationsHandler.denote) :=
  aggregation_order_independent sampleTypes 1 sampleResolver 15 sampleHits sampleHits.reverse
    (List.reverse_perm sampleHits).symm

theorem insertLeft_perm (less : List Byte → List Byte → Bool) (x : List Byte) :
    ∀ ys, (insertLeft less x ys).Perm (x :: ys) := by
  intro ys
  induction ys with
  | nil => exact List.Perm.refl _
  | cons y ys ih =>
    unfold insertLeft
    split
    · exact (List.Perm.cons y ih).trans (List.Perm.swap x y ys)
    · exact List.Perm.refl _

theorem insertLeft_sorted (count : List Byte → Int) (x : List Byte) :
    ∀ ys, ys.Pairwise (fun a b => count a ≤ count b) →
      (insertLeft (fun a b => decide (count a > count b)) x ys).Pairwise
        (fun a b => count a ≤ count b) := by
  intro ys
  induction ys with
  | nil => intro _; simp [insertLeft]
  | cons y ys ih =>
    intro h
    have hy := List.pairwise_cons.mp h
    unfold insertLeft
    by_cases hxy : count x > count y
    · simp only [hxy, decide_True, if_true]
      refine List.pairwise_cons.mpr ⟨?_, ih hy.2⟩
      intro z hz
      rcases List.mem_cons.mp ((insertLeft_perm _ x ys).subset hz) with rfl | hz
      · exact le_of_lt hxy
      · exact hy.1 z hz
    · simp only [hxy, decide_False, Bool.false_eq_true, if_false]
      refine List.pairwise_cons.mpr ⟨?_, h⟩
      intro z hz
      have hxy' : count x ≤ count y := not_lt.mp hxy
      rcases List.mem_cons.mp hz with rfl | hz
      · exact hxy'
      · exact le_trans hxy' (hy.1 z hz)

theorem insertionSortLess_foldl (count : List Byte → Int) (keys : List (List Byte)) :
    ∀ sorted : List (List Byte), sorted.Pairwise (fun a b => count a ≤ count b) →
      (keys.foldl (fun s x => insertLeft (fun a b => decide (count a > count b)) x s)
          sorted).Perm (keys.reverse ++ sorted) ∧
      (keys.foldl (fun s x => insertLeft (fun a b => decide (count a > count b)) x s)
          sorted).Pairwise (fun a b => count a ≤ count b) := by
  induction keys with
  | nil => intro sorted h; exact ⟨by simp, h⟩
  | cons x keys ih =>
    intro sorted h
    obtain ⟨hp, hs⟩ := ih _ (insertLeft_sorted count x sorted h)
    refine ⟨?_, hs⟩
    rw [List.foldl_cons]
    refine hp.trans ?_
    rw [List.reverse_cons, List.append_assoc]
    exact List.Perm.append_left _ (insertLeft_perm _ x sorted)

/-- The insertion sort of `sort.Slice` meets the contract of `sort.Slice`. -/
theorem insertionSortLess_spec : SortSliceSpec insertionSortLess := by
  intro count keys
  obtain ⟨hp, hs⟩ := insertionSortLess_foldl count keys [] List.Pairwise.nil
  unfold insertionSortLess
  constructor
  · refine (List.reverse_perm _).trans (hp.trans ?_)
    rw [List.append_nil]
    exact List.reverse_perm keys
  · rw [List.pairwise_reverse]
    exact hs

theorem GoMap.get?_of_mem_keys {V : Type} (m : GoMap V) (k : List Byte) (h : k ∈ m.keys) :
    ∃ v, m.get? k = some v := by
  induction m with
  | nil => simp [GoMap.keys] at h
  | cons e m ih =>
    obtain ⟨a, b⟩ := e
    by_cases hak : a = k
    · exact ⟨b, by simp [GoMap.get?, hak]⟩
    · have : k ∈ GoMap.keys m := by
        simp only [GoMap.keys, List.map_cons, List.mem_cons] at h
        rcases h with h | h
        · exact absurd h.symm hak
        · exact h
      obtain ⟨v, hv⟩ := ih this
      exact ⟨v, by simp [GoMap.get?, hak, hv]⟩

/-- The keys `Output` lists are a top-`limit` listing, whatever the order of `range` and
whatever `sort.Slice` does with equal counts. -/
theorem topKeys_report (rangeOrder : List (List Byte) → List (List Byte))
    (sortSlice : (List Byte → List Byte → Bool) → List (List Byte) → List (List Byte))
    (hr : RangeSpec rangeOrder) (hs : SortSliceSpec sortSlice)
    (handler : MostVisitedFieldsHandler) (hwf : handler.countMap.keys.Nodup) (limit : Int) :
    FieldsReport handler limit
      (MostVisitedFieldsHandler.topKeys rangeOrder sortSlice handler limit) := by
  obtain ⟨hperm, hsorted⟩ := hs handler.countMap.count (rangeOrder handler.countMap.keys)
  have hperm' := hperm.trans (hr handler.countMap.keys)
  unfold MostVisitedFieldsHandler.topKeys
  refine ⟨?_, ?_, ?_, ?_, ?_⟩
  · rw [List.length_take, hperm'.length_eq]
  · exact (hperm'.nodup_iff.mpr hwf).sublist (List.take_sublist _ _)
  · intro k hk
    have hk' : k ∈ handler.countMap.keys := hperm'.subset (List.mem_of_mem_take hk)
    obtain ⟨v, hv⟩ := GoMap.get?_of_mem_keys _ k hk'
    exact ⟨v, hv, by simp [GoMap.count, hv]⟩
  · exact hsorted.sublist (List.take_sublist _ _)
  · intro k hk hnot p hp
    have hk' := hperm'.symm.subset hk
    rw [← List.take_append_drop limit.toNat
      (sortSlice (fun a b => decide (handler.countMap.count a > handler.countMap.count b))
        (rangeOrder handler.countMap.keys))] at hk' hsorted
    rcases List.mem_append.mp hk' with h | h
    · exact absurd h hnot
    · exact (List.pairwise_append.mp hsorted).2.2 p hp k h

theorem perm_singleton_eq {α : Type} {l : List α} {a : α} (h : l.Perm [a]) : l = [a] :=
  List.perm_singleton.mp h

/-- The line for a key with one hit, byte for byte. -/
theorem formatHit_one (key : List Byte) :
    formatHit key 1 = ascii "\"" ++ key ++ ascii "\" hits: 1\n" := by
  unfold formatHit
  rw [List.append_assoc (ascii "\"" ++ key), List.append_assoc (ascii "\"" ++ key)]
  congr 1

/-- C11: for every state of a `MostVisitedFieldsHandler` (a map with one entry per key)
and every limit, `Output(limit)` prints one line `"<key>" hits: <count>` for each key of
a top-`limit` listing: `min(limit, number of keys)` lines (none for `limit <= 0`), each
with the stored count, counts not increasing down the list, no key left out with more
hits than a printed one. After one record and with `limit = 1` it prints that record's
key with hit count 1. -/
theorem fields_output_top {F : Type} (rangeOrder : List (List Byte) → List (List Byte))
    (sortSlice : (List Byte → List Byte → Bool) → List (List Byte) → List (List Byte))
    (hr : RangeSpec rangeOrder) (hs : SortSliceSpec sortSlice)
    (handler : MostVisitedFieldsHandler) (hwf : handler.countMap.keys.Nodup) (limit : Int) :
    (∃ printed, FieldsReport handler limit printed ∧
      MostVisitedFieldsHandler.Output rangeOrder sortSlice handler limit =
        printed.map (fun k => ascii "\"" ++ k ++ ascii "\" hits: " ++
          Itoa (handler.countMap.count k) ++ ascii "\n")) ∧
    (limit ≤ 0 → MostVisitedFieldsHandler.Output rangeOrder sortSlice handler limit = []) ∧
    (∀ (c : AnalysisTypes) (t : Int) (r : LogInfo F) (key : List Byte),
      MostVisitedFieldsHandler.field c t (some r) = .ok key →
      ∃ h, MostVisitedFieldsHandler.feed c (NewMostVisitedFieldsHandler t) [r] = .ok h ∧
        MostVisitedFieldsHandler.Output rangeOrder sortSlice h 1 =
          [ascii "\"" ++ key ++ ascii "\" hits: 1\n"]) := by
  refine ⟨⟨_, topKeys_report rangeOrder sortSlice hr hs handler hwf limit, rfl⟩, ?_, ?_⟩
  · intro hl
    have : limit.toNat = 0 := Int.toNat_eq_zero.mpr hl
    simp [MostVisitedFieldsHandler.Output, MostVisitedFieldsHandler.topKeys, this]
  · intro c t r key hkey
    refine ⟨{ analysisType := t, countMap := [(key, 1)] }, ?_, ?_⟩
    · simp [MostVisitedFieldsHandler.feed, MostVisitedFieldsHandler.Input, hkey, Outcome.bind,
        NewMostVisitedFieldsHandler, countHit, GoMap.get?, GoMap.set]
    · have h1 := (hs (GoMap.count [(key, 1)]) (rangeOrder [key])).1
      have h2 := perm_singleton_eq (h1.trans (hr [key]))
      simp only [MostVisitedFieldsHandler.Output, MostVisitedFieldsHandler.topKeys,
        GoMap.keys, List.map_cons, List.map_nil]
      rw [h2]
      simp only [List.take_succ_cons, List.take_zero, List.map_cons, List.map_nil,
        Int.toNat_one, GoMap.count, GoMap.get?, if_true, Option.getD_some]
      rw [formatHit_one]

/-- The handler with two hits of `10.0.0.1` and one of `10.0.0.2`, listed with limit 1 by
the insertion sort: the one line `"10.0.0.1" hits: 2`. -/
theorem fields_output_top_witness :
    ((∃ printed, FieldsReport sampleFields 1 printed ∧
        MostVisitedFieldsHandler.Output (fun l => l) insertionSortLess sampleFields 1 =
          printed.map (fun k => ascii "\"" ++ k ++ ascii "\" hits: " ++
            Itoa (sampleFields.countMap.count k) ++ ascii "\n")) ∧
      MostVisitedFieldsHandler.Output (fun l => l) insertionSortLess sampleFields 1 =
        [ascii "\"10.0.0.1\" hits: 2\n"]) :=
  ⟨(fields_output_top (F := Unit) (fun l => l) insertionSortLess (fun l => List.Perm.refl l)
      insertionSortLess_spec sampleFields (by decide) 1).1, by decide⟩

/-- C12 (the claim as stated fails): after the same two records, one hit each, `Output(1)`
prints the first address when `range` yields the keys in one order and the second address
when it yields them in the other; the insertion sort of `sort.Slice` keeps tied keys in
the order of `range`. -/
theorem fields_output_tie_order_varies :
    MostVisitedFieldsHandler.feed sampleTypes (NewMostVisitedFieldsHandler 1)
        [hit "10.0.0.1" "/a" "curl", hit "10.0.0.2" "/a" "curl"] = .ok tiedFields ∧
    RangeSpec (fun l => l) ∧ RangeSpec List.reverse ∧
    MostVisitedFieldsHandler.Output (fun l => l) insertionSortLess tiedFields 1 =
      [formatHit (ascii "10.0.0.1") 1] ∧
    MostVisitedFieldsHandler.Output List.reverse insertionSortLess tiedFields 1 =
      [formatHit (ascii "10.0.0.2") 1] ∧
    formatHit (ascii "10.0.0.1") 1 ≠ formatHit (ascii "10.0.0.2") 1 := by
  refine ⟨rfl, fun l => List.Perm.refl l, fun l => List.reverse_perm l, by decide, by decide,
    by decide⟩

theorem map_eq_of_injOn {α β : Type} (f : α → β) :
    ∀ (l1 l2 : List α), (∀ a ∈ l1, ∀ b ∈ l2, f a = f b → a = b) →
      l1.map f = l2.map f → l1 = l2 := by
  intro l1
  induction l1 with
  | nil => intro l2 _ h; cases l2 with
    | nil => rfl
    | cons b l2 => simp at h
  | cons a l1 ih =>
    intro l2 hinj h
    cases l2 with
    | nil => simp at h
    | cons b l2 =>
      simp only [List.map_cons, List.cons.injEq] at h
      have hab := hinj a (by simp) b (by simp) h.1
      subst hab
      rw [ih l2 (fun x hx y hy => hinj x (by simp [hx]) y (by simp [hy])) h.2]

/-- Two runs of `Output` on the same state list keys with the same hit counts, line by
line. -/
theorem sorted_counts_eq
    (sort1 sort2 : (List Byte → List Byte → Bool) → List (List Byte) → List (List Byte))
    (h1 : SortSliceSpec sort1) (h2 : SortSliceSpec sort2) (count : List Byte → Int)
    (keys1 keys2 : List (List Byte)) (hp : keys1.Perm keys2) :
    (sort1 (fun a b => decide (count a > count b)) keys1).map count =
      (sort2 (fun a b => decide (count a > count b)) keys2).map count := by
  obtain ⟨hp1, hs1⟩ := h1 count keys1
  obtain ⟨hp2, hs2⟩ := h2 count keys2
  have hperm := ((hp1.trans hp).trans hp2.symm).map count
  refine List.eq_of_perm_of_sorted (r := fun a b : Int => a ≥ b) hperm ?_ ?_
  · exact List.pairwise_map.mpr hs1
  · exact List.pairwise_map.mpr hs2

/-- C12 (amended): `MostVisitedFieldsHandler.Output` has no tie-break. Two runs on the same
state, with any order of `range` and any `sort.Slice`, print the same sequence of hit
counts; their reports are identical when no two keys of the map have the same count. -/
theorem fields_output_counts_determined
    (range1 range2 : List (List Byte) → List (List Byte))
    (sort1 sort2 : (List Byte → List Byte → Bool) → List (List Byte) → List (List Byte))
    (hr1 : RangeSpec range1) (hr2 : RangeSpec range2)
    (hs1 : SortSliceSpec sort1) (hs2 : SortSliceSpec sort2)
    (handler : MostVisitedFieldsHandler) (limit : Int) :
    ((MostVisitedFieldsHandler.topKeys range1 sort1 handler limit).map handler.countMap.count =
      (MostVisitedFieldsHandler.topKeys range2 sort2 handler limit).map
        handler.countMap.count) ∧
    ((∀ a ∈ handler.countMap.keys, ∀ b ∈ handler.countMap.keys,
        handler.countMap.count a = handler.countMap.count b → a = b) →
      MostVisitedFieldsHandler.Output range1 sort1 handler limit =
        MostVisitedFieldsHandler.Output range2 sort2 handler limit) := by
  have hkeys : (range1 handler.countMap.keys).Perm (range2 handler.countMap.keys) :=
    (hr1 _).trans (hr2 _).symm
  have hcounts := sorted_counts_eq sort1 sort2 hs1 hs2 handler.countMap.count _ _ hkeys
  constructor
  · simp only [MostVisitedFieldsHandler.topKeys]
    rw [List.map_take, List.map_take, hcounts]
  · intro hinj
    have hm1 := ((hs1 handler.countMap.count (range1 handler.countMap.keys)).1).trans (hr1 _)
    have hm2 := ((hs2 handler.countMap.count (range2 handler.countMap.keys)).1).trans (hr2 _)
    have heq := map_eq_of_injOn handler.countMap.count _ _
      (fun a ha b hb => hinj a (hm1.subset ha) b (hm2.subset hb)) hcounts
    simp only [MostVisitedFieldsHandler.Output, MostVisitedFieldsHandler.topKeys, heq]

/-- The two runs of the counterexample print the same hit count. -/
theorem fields_output_counts_determined_witness :
    ((MostVisitedFieldsHandler.topKeys (fun l => l) insertionSortLess tiedFields 1).map
        tiedFields.countMap.count =
      (MostVisitedFieldsHandler.topKeys List.reverse insertionSortLess tiedFields 1).map
        tiedFields.countMap.count) ∧
    ((∀ a ∈ tiedFields.countMap.keys, ∀ b ∈ tiedFields.countMap.keys,
        tiedFields.countMap.count a = tiedFields.countMap.count b → a = b) →
      MostVisitedFieldsHandler.Output (fun l => l) insertionSortLess tiedFields 1 =
        MostVisitedFieldsHandler.Output List.reverse insertionSortLess tiedFields 1) :=
  fields_output_counts_determined (fun l => l) List.reverse insertionSortLess insertionSortLess
    (fun l => List.Perm.refl l) (fun l => List.reverse_perm l) insertionSortLess_spec
    insertionSortLess_spec tiedFields 1

/-- A sorted rearrangement of the keys, cut at `limit`, is a top-`limit` listing. -/
theorem sortedKeys_top (rangeOrder : List (List Byte) → List (List Byte))
    (sortSlice : (List Byte → List Byte → Bool) → List (List Byte) → List (List Byte))
    (hr : RangeSpec rangeOrder) (hs : SortSliceSpec sortSlice)
    (keys : List (List Byte)) (count : List Byte → Int) (hnd : keys.Nodup) (limit : Int) :
    TopListing keys count limit
      ((sortedKeys rangeOrder sortSlice keys count).take limit.toNat) := by
  obtain ⟨hperm, hsorted⟩ := hs count (rangeOrder keys)
  have hperm' := hperm.trans (hr keys)
  unfold sortedKeys
  refine ⟨?_, ?_, ?_, ?_, ?_⟩
  · rw [List.length_take, hperm'.length_eq]
  · exact (hperm'.nodup_iff.mpr hnd).sublist (List.take_sublist _ _)
  · intro k hk
    exact hperm'.subset (List.mem_of_mem_take hk)
  · exact hsorted.sublist (List.take_sublist _ _)
  · intro k hk hnot p hp
    have hk' := hperm'.symm.subset hk
    rw [← List.take_append_drop limit.toNat
      (sortSlice (fun a b => decide (count a > count b)) (rangeOrder keys))] at hk' hsorted
    rcases List.mem_append.mp hk' with h | h
    · exact absurd h hnot
    · exact (List.pairwise_append.mp hsorted).2.2 p hp k h

theorem GoMap.mem_of_get? {V : Type} (m : GoMap V) (k : List Byte) (v : V)
    (h : m.get? k = some v) : (k, v) ∈ m := by
  induction m with
  | nil => simp [GoMap.get?] at h
  | cons e m ih =>
    obtain ⟨a, b⟩ := e
    by_cases hak : a = k
    · simp only [GoMap.get?, hak, if_true, Option.some.injEq] at h
      simp [hak, h]
    · simp only [GoMap.get?, hak, if_false] at h
      exact List.mem_cons_of_mem _ (ih h)

theorem WellFormed_cities (handler : MostVisitedLocationsHandler) (hwf : handler.WellFormed)
    (country : List Byte) : (handler.cityIpCountMap country).keys.Nodup := by
  unfold MostVisitedLocationsHandler.cityIpCountMap
  cases h : handler.countryCityIpCountMap.get? country with
  | none => simp [GoMap.keys]
  | some v => exact (hwf.2 _ (GoMap.mem_of_get? _ _ _ h)).1

theorem WellFormed_ips (handler : MostVisitedLocationsHandler) (hwf : handler.WellFormed)
    (country city : List Byte) : (handler.ipCountMap country city).keys.Nodup := by
  unfold MostVisitedLocationsHandler.ipCountMap MostVisitedLocationsHandler.cityIpCountMap
  cases h : handler.countryCityIpCountMap.get? country with
  | none => simp [GoMap.keys, GoMap.get?]
  | some v =>
    simp only [Option.getD_some]
    cases h2 : v.get? city with
    | none => simp [GoMap.keys]
    | some ips =>
      exact (hwf.2 _ (GoMap.mem_of_get? _ _ _ h)).2 _ (GoMap.mem_of_get? _ _ _ h2)

/-- C14: for every state of a `MostVisitedLocationsHandler` (maps with one entry per key)
and every limit, `Output(limit)` lists all countries in non-increasing order of country
hits; under each country a top-`limitSecond` listing of its cities by city hits; under
each listed city a top-`limit` listing of its addresses by hits. -/
theorem locations_output_nested (rangeOrder : List (List Byte) → List (List Byte))
    (sortSlice : (List Byte → List Byte → Bool) → List (List Byte) → List (List Byte))
    (hr : RangeSpec rangeOrder) (hs : SortSliceSpec sortSlice)
    (handler : MostVisitedLocationsHandler) (hwf : handler.WellFormed) (limit : Int) :
    (MostVisitedLocationsHandler.countryKeys rangeOrder sortSlice handler).Perm
        handler.countryCityIpCountMap.keys ∧
    (MostVisitedLocationsHandler.countryKeys rangeOrder sortSlice handler).Pairwise
        (fun a b => handler.countryCountMap.count a ≥ handler.countryCountMap.count b) ∧
    (∀ country,
      TopListing (handler.cityIpCountMap country).keys (handler.cityCount country)
        handler.limitSecond
        (MostVisitedLocationsHandler.cityKeys rangeOrder sortSlice handler country)) ∧
    (∀ country city,
      TopListing (handler.ipCountMap country city).keys
        (handler.ipCountMap country city).count limit
        (MostVisitedLocationsHandler.ipKeys rangeOrder sortSlice handler limit country
          city)) ∧
    MostVisitedLocationsHandler.Output rangeOrder sortSlice handler limit =
      (MostVisitedLocationsHandler.countryKeys rangeOrder sortSlice handler).flatMap
        fun country =>
          formatCountry country (handler.countryCountMap.count country) ::
            (MostVisitedLocationsHandler.cityKeys rangeOrder sortSlice handler country).flatMap
              fun city =>
                formatCity city (handler.cityCount country city) ::
                  (MostVisitedLocationsHandler.ipKeys rangeOrder sortSlice handler limit
                      country city).map
                    fun ip => formatIp ip ((handler.ipCountMap country city).count ip) := by
  obtain ⟨hperm, hsorted⟩ :=
    hs handler.countryCountMap.count (rangeOrder handler.countryCityIpCountMap.keys)
  refine ⟨hperm.trans (hr _), hsorted, ?_, ?_, rfl⟩
  · intro country
    exact sortedKeys_top rangeOrder sortSlice hr hs _ _ (WellFormed_cities handler hwf country) _
  · intro country city
    exact sortedKeys_top rangeOrder sortSlice hr hs _ _
      (WellFormed_ips handler hwf country city) _

set_option maxRecDepth 100000 in
theorem sampleLocations_output :
    MostVisitedLocationsHandler.Output (fun l => l) insertionSortLess sampleLocations 5 =
      [formatCountry (ascii "Japan") 3, formatCity (ascii "Tokyo") 2,
       formatIp (ascii "10.0.0.1") 2] := by
  decide

/-- The sample state, listed with one city per country: Japan with 3 hits, Tokyo with 2,
`10.0.0.1` with 2. -/
theorem locations_output_nested_witness :
    MostVisitedLocationsHandler.Output (fun l => l) insertionSortLess sampleLocations 5 =
      [formatCountry (ascii "Japan") 3, formatCity (ascii "Tokyo") 2,
       formatIp (ascii "10.0.0.1") 2] ∧
    (MostVisitedLocationsHandler.countryKeys (fun l => l) insertionSortLess
        sampleLocations).Perm sampleLocations.countryCityIpCountMap.keys ∧
    (∀ country,
      TopListing (sampleLocations.cityIpCountMap country).keys
        (sampleLocations.cityCount country) sampleLocations.limitSecond
        (MostVisitedLocationsHandler.cityKeys (fun l => l) insertionSortLess sampleLocations
          country)) :=
  ⟨sampleLocations_output,
    (locations_output_nested (fun l => l) insertionSortLess (fun l => List.Perm.refl l)
      insertionSortLess_spec sampleLocations (by decide) 5).1,
    (locations_output_nested (fun l => l) insertionSortLess (fun l => List.Perm.refl l)
      insertionSortLess_spec sampleLocations (by decide) 5).2.2.1⟩

/-- C15 (the claim as stated fails): Japan is not one of China, Hong Kong and Taiwan, the
three names of the first test, yet for a record whose English country name is `Japan` the
returned country is the Japanese name, a space, then `Japan`, and the city is prefixed
with its Japanese name. -/
theorem query_japan_is_prefixed :
    asciiEqualFold countryChina (ascii "Japan") = false ∧
    asciiEqualFold areaHongKong (ascii "Japan") = false ∧
    asciiEqualFold areaTaiwan (ascii "Japan") = false ∧
    queryIpLocation asciiEqualFold sampleCity (ascii "10.0.0.1") =
      some (nihon ++ ascii " Japan", tokyoJa ++ ascii " Tokyo") ∧
    nihon ++ ascii " Japan" ≠ ascii "Japan" := by
  decide

/-- C15 (amended): name post-processing in `queryIpLocation`, for a record with English
country name `c` and English city name `e` other than the text `unknown`. The city is the
sentinel when `e` is empty. The names are prefixed for four countries, compared by
`strings.EqualFold`: China, Hong Kong and Taiwan with the `zh-CN` names, Japan with the
`ja` names; the country becomes the localized name, a space, then `c`, and the city the
localized city name, a space, then `e`, when `e` is non-empty and a localized city name
exists. For every other country, both are returned unchanged. -/
theorem query_name_postprocessing (EqualFold : List Byte → List Byte → Bool)
    (City : List Byte → Option GeoRecord × Bool) (ip : List Byte) (record : GeoRecord)
    (hrec : City ip = (some record, false))
    (he : record.cityNames.str languageEn ≠ cityUnknown) :
    ∃ country city, queryIpLocation EqualFold City ip = some (country, city) ∧
      LocalizedNames EqualFold record country city := by
  unfold LocalizedNames localizedCity
  have hunk : cityUnknown ≠ [] := by decide
  unfold queryIpLocation
  simp only [hrec, Bool.false_eq_true, if_false]
  by_cases hzh : (EqualFold countryChina (record.countryNames.str languageEn) = true ∨
      EqualFold areaHongKong (record.countryNames.str languageEn) = true ∨
      EqualFold areaTaiwan (record.countryNames.str languageEn) = true)
  · have hzh' : (EqualFold countryChina (record.countryNames.str languageEn) ||
        EqualFold areaHongKong (record.countryNames.str languageEn) ||
        EqualFold areaTaiwan (record.countryNames.str languageEn)) = true := by
      simpa [Bool.or_eq_true, or_assoc] using hzh
    rw [if_pos hzh']
    refine ⟨_, _, rfl, ?_, ?_, ?_, ?_⟩
    · intro h0; simp [h0]
    · intro _
      refine ⟨rfl, ?_⟩
      by_cases h0 : record.cityNames.str languageEn = []
      · simp [h0]
      · simp [h0, he, sprintfPair]
    · intro h; exact absurd hzh h
    · intro h; exact absurd hzh h
  · have hzh' : ¬ (EqualFold countryChina (record.countryNames.str languageEn) ||
        EqualFold areaHongKong (record.countryNames.str languageEn) ||
        EqualFold areaTaiwan (record.countryNames.str languageEn)) = true := by
      simpa [Bool.or_eq_true, or_assoc] using hzh
    rw [if_neg hzh']
    by_cases hja : EqualFold countryJapan (record.countryNames.str languageEn) = true
    · rw [if_pos hja]
      refine ⟨_, _, rfl, ?_, ?_, ?_, ?_⟩
      · intro h0; simp [h0]
      · intro h; exact absurd h hzh
      · intro _ _
        refine ⟨rfl, ?_⟩
        by_cases h0 : record.cityNames.str languageEn = []
        · simp [h0]
        · simp [h0, he, sprintfPair]
      · intro _ h; rw [hja] at h; cases h
    · rw [if_neg hja]
      refine ⟨_, _, rfl, ?_, ?_, ?_, ?_⟩
      · intro h0; simp [h0]
      · intro h; exact absurd h hzh
      · intro _ h; exact absurd h hja
      · intro _ _; exact ⟨rfl, rfl⟩

/-- The record of Tokyo: Japan is in the second group, so both names carry their Japanese
name in front. -/
theorem query_name_postprocessing_witness :
    sampleCity (ascii "10.0.0.1") = (some tokyoRecord, false) ∧
    tokyoRecord.cityNames.str languageEn ≠ cityUnknown ∧
    ∃ country city,
      queryIpLocation asciiEqualFold sampleCity (ascii "10.0.0.1") = some (country, city) ∧
      LocalizedNames asciiEqualFold tokyoRecord country city :=
  ⟨by decide, by decide,
    query_name_postprocessing asciiEqualFold sampleCity (ascii "10.0.0.1") tokyoRecord
      (by decide) (by decide)⟩

/-- The count maps of `GeoLookups.Input` are those of
`MostVisitedLocationsHandler.Input`. -/
theorem GeoLookups.Input_handler {F : Type} (EqualFold : List Byte → List Byte → Bool)
    (City : List Byte → Option GeoRecord × Bool) (s : GeoLookups)
    (info : Option (LogInfo F)) :
    (GeoLookups.Input EqualFold City s info).map (fun s1 => s1.handler) =
      MostVisitedLocationsHandler.Input (queryIpLocation EqualFold City) s.handler info := by
  cases info with
  | none => rfl
  | some i =>
    simp only [GeoLookups.Input, GeoLookups.loggedQueryIpLocation,
      MostVisitedLocationsHandler.Input]
    cases hq : queryIpLocation EqualFold City i.RemoteAddr with
    | none => rfl
    | some p =>
      obtain ⟨country, city⟩ := p
      simp only []
      cases ((s.handler.saveCountry country).saveCity country city).bind
        (fun h => h.saveIp country city i.RemoteAddr) <;> rfl

/-- Every successful `GeoLookups.Input` asks the database once more and leaves the cache
as it was. -/
theorem GeoLookups.Input_queries {F : Type} (EqualFold : List Byte → List Byte → Bool)
    (City : List Byte → Option GeoRecord × Bool) (s s1 : GeoLookups) (i : LogInfo F)
    (h : GeoLookups.Input EqualFold City s (some i) = .ok s1) :
    s1.queries = s.queries ++ [i.RemoteAddr] ∧ s1.ipLocationCache = s.ipLocationCache := by
  simp only [GeoLookups.Input, GeoLookups.loggedQueryIpLocation] at h
  cases hq : queryIpLocation EqualFold City i.RemoteAddr with
  | none => rw [hq] at h; cases h
  | some p =>
    obtain ⟨country, city⟩ := p
    rw [hq] at h
    simp only [] at h
    cases hb : ((s.handler.saveCountry country).saveCity country city).bind
        (fun h => h.saveIp country city i.RemoteAddr) with
    | ok hd =>
      rw [hb] at h
      simp only [Outcome.map, Outcome.ok.injEq] at h
      subst h
      exact ⟨rfl, rfl⟩
    | fatal => rw [hb] at h; cases h
    | panic => rw [hb] at h; cases h
    | timeout => rw [hb] at h; cases h

/-- C13 (the code at the failing input): two consecutive `Input` calls for the address
`10.0.0.1` on a fresh handler both succeed, ask the database twice and leave the cache
empty; and in general no successful sequence of two `Input` calls for one address asks
less than twice or stores anything. The unused `cachedQueryIpLocation`, called twice on
the fresh handler, asks once and answers the second call from the cache. -/
theorem locations_input_bypasses_cache :
    (∃ s2, (GeoLookups.Input asciiEqualFold sampleCity (NewGeoLookups 1)
          (some (hit "10.0.0.1" "/a" "curl"))).bind
        (fun s1 => GeoLookups.Input asciiEqualFold sampleCity s1
          (some (hit "10.0.0.1" "/a" "curl"))) = .ok s2 ∧
      s2.queries = [ascii "10.0.0.1", ascii "10.0.0.1"] ∧
      s2.ipLocationCache.entries = [] ∧
      s2.handler.countryCountMap.count (nihon ++ ascii " Japan") = 2) ∧
    (∀ (F : Type) (EqualFold : List Byte → List Byte → Bool)
        (City : List Byte → Option GeoRecord × Bool) (limitSecond : Int) (i : LogInfo F)
        (s2 : GeoLookups),
      (GeoLookups.Input EqualFold City (NewGeoLookups limitSecond) (some i)).bind
          (fun s1 => GeoLookups.Input EqualFold City s1 (some i)) = .ok s2 →
      s2.queries = [i.RemoteAddr, i.RemoteAddr] ∧ s2.ipLocationCache.entries = []) ∧
    ((GeoLookups.cachedQueryIpLocation asciiEqualFold sampleCity
        (GeoLookups.cachedQueryIpLocation asciiEqualFold sampleCity (NewGeoLookups 1)
          (ascii "10.0.0.1")).2 (ascii "10.0.0.1")).2.queries = [ascii "10.0.0.1"] ∧
      (GeoLookups.cachedQueryIpLocation asciiEqualFold sampleCity
        (GeoLookups.cachedQueryIpLocation asciiEqualFold sampleCity (NewGeoLookups 1)
          (ascii "10.0.0.1")).2 (ascii "10.0.0.1")).1 =
        some (nihon ++ ascii " Japan", tokyoJa ++ ascii " Tokyo")) := by
  refine ⟨?_, ?_, ?_⟩
  · refine ⟨_, rfl, ?_, ?_, ?_⟩ <;> decide
  · intro F EqualFold City limitSecond i s2 h
    cases h1 : GeoLookups.Input EqualFold City (NewGeoLookups limitSecond) (some i) with
    | ok s1 =>
      rw [h1] at h
      simp only [Outcome.bind] at h
      obtain ⟨hq1, hc1⟩ := GeoLookups.Input_queries EqualFold City _ _ i h1
      obtain ⟨hq2, hc2⟩ := GeoLookups.Input_queries EqualFold City _ _ i h
      rw [hq2, hq1, hc2, hc1]
      exact ⟨rfl, rfl⟩
    | fatal => rw [h1] at h; cases h
    | panic => rw [h1] at h; cases h
    | timeout => rw [h1] at h; cases h
  · decide

/-- C16 (the claim as stated fails): the empty object without a trailing newline is not
decoded to the record that the same object followed by a newline gives; its closing brace
is cut off and the run ends in the decode error. -/
theorem json_unterminated_line_loses_last_byte :
    JsonParser.ParseLog sampleUnmarshal (ascii "\x7b\x7d\n") = .ok (recordAt []) ∧
    JsonParser.ParseLog sampleUnmarshal (ascii "\x7b\x7d") = Fatal ∧
    slice (ascii "\x7b\x7d") 0 1 = some (ascii "\x7b") := by
  decide

/-- C16 (amended): `JsonParser.ParseLog` removes the last byte of the line, whatever it
is, and decodes the rest: for every text `s` and byte `b`, `ParseLog(s ++ [b])` returns
the record decoded from `s`, or aborts when `s` does not decode; in particular for `b`
the newline. -/
theorem json_strips_last_byte {F : Type} (Unmarshal : List Byte → Option (LogInfo F))
    (s : List Byte) (b : Byte) :
    JsonParser.ParseLog Unmarshal (s ++ [b]) =
      (match Unmarshal s with
       | some logInfo => .ok logInfo
       | none => Fatal) ∧
    JsonParser.ParseLog Unmarshal (s ++ ascii "\n") =
      (match Unmarshal s with
       | some logInfo => .ok logInfo
       | none => Fatal) := by
  have h : ∀ c : Byte, slice (s ++ [c]) 0 (((s ++ [c]).length : Int) - 1) = some s := by
    intro c
    unfold slice
    have hl : (((s ++ [c]).length : Int) - 1) = (s.length : Int) := by
      simp [List.length_append]
    rw [hl]
    have hc : (0 : Int) ≤ 0 ∧ (0 : Int) ≤ (s.length : Int) ∧
        (s.length : Int) ≤ ((s ++ [c]).length : Int) := by
      refine ⟨le_refl _, Int.natCast_nonneg _, ?_⟩
      simp [List.length_append]
    rw [if_pos hc]
    simp
  constructor
  · unfold JsonParser.ParseLog
    rw [h b]
    cases hU : Unmarshal s <;> simp [hU]
  · unfold JsonParser.ParseLog
    have : ascii "\n" = [(10 : Byte)] := by decide
    rw [this, h 10]
    cases hU : Unmarshal s <;> simp [hU]

set_option maxRecDepth 1000000 in
/-- C18 (the claim as stated fails): the line `hello` matches no pattern, so
`CustomParser.ParseLog` returns nil. The per-line step does not drop it: with a bound set
the filter reads `TimeLocal` through the nil pointer and the run ends in a panic; with
both bounds unset the nil pointer is handed to `handler.Input`, and `Input` of each
handler reads a field of it and panics. -/
theorem nil_record_is_not_skipped :
    CustomParser.ParseLog unitFloat (ascii "hello\n") = .ok none ∧
    testProcessTask (CustomParser.ParseLog unitFloat) sampleLayout since2024 0
      (ascii "hello\n") = .panic ∧
    testProcessTask (CustomParser.ParseLog unitFloat) sampleLayout 0 0
      (ascii "hello\n") = .ok (.input none) ∧
    (∀ (F : Type) (layout : List Byte → Option Time) (since util : Time),
      testProcessLine layout since util (none : Option (LogInfo F)) =
          (if since = 0 ∧ util = 0 then .ok (.input none) else .panic) ∧
        parseLog layout since util (none : Option (LogInfo F)) =
          (if since = 0 ∧ util = 0 then .ok (.input none) else .panic)) ∧
    (∀ (F : Type) (handler : PvAndUvHandler),
      PvAndUvHandler.Input handler (none : Option (LogInfo F)) = .panic) ∧
    (∀ (F : Type) (handler : MostVisitedFieldsHandler),
      MostVisitedFieldsHandler.Input sampleTypes handler (none : Option (LogInfo F)) ≠
        .ok handler) ∧
    (∀ (F : Type) (query : List Byte → Option (List Byte × List Byte))
        (handler : MostVisitedLocationsHandler),
      MostVisitedLocationsHandler.Input query handler (none : Option (LogInfo F)) =
        .panic) := by
  have hparse : CustomParser.ParseLog unitFloat (ascii "hello\n") = .ok none := by decide
  have hline : ∀ (F : Type) (layout : List Byte → Option Time) (since util : Time),
      testProcessLine layout since util (none : Option (LogInfo F)) =
        (if since = 0 ∧ util = 0 then .ok (.input none) else .panic) := by
    intro F layout since util
    unfold testProcessLine Time.IsZero
    by_cases hs : since = 0 <;> by_cases hu : util = 0 <;> simp [hs, hu]
  refine ⟨hparse, ?_, ?_, ?_, ?_, ?_, ?_⟩
  · unfold testProcessTask
    rw [hparse]
    simp only [Outcome.bind]
    rw [hline]
    decide
  · unfold testProcessTask
    rw [hparse]
    simp only [Outcome.bind]
    rw [hline]
    decide
  · intro F layout since util
    refine ⟨hline F layout since util, ?_⟩
    rw [← testProcessLine_eq_parseLog]
    exact hline F layout since util
  · intro F handler; rfl
  · intro F handler
    unfold MostVisitedFieldsHandler.Input MostVisitedFieldsHandler.field
    split_ifs <;> simp [Outcome.bind]
  · intro F query handler; rfl

/-- C19 (the claim as stated fails): with both bounds unset, a record whose local time
does not parse is handed to `handler.Input`; the run is not aborted. -/
theorem unparsable_time_reaches_input :
    sampleLayout (ascii "yesterday") = none ∧
    testProcessLine sampleLayout 0 0 (some (recordAt (ascii "yesterday"))) =
      .ok (.input (some (recordAt (ascii "yesterday")))) ∧
    parseLog sampleLayout 0 0 (some (recordAt (ascii "yesterday"))) =
      .ok (.input (some (recordAt (ascii "yesterday")))) := by
  decide

/-- C19 (amended): a record whose local time does not parse aborts the run exactly when
at least one of the two bounds is set; with both unset the time is not parsed and the
record is handed to `handler.Input`. Both in the goroutine of `testProcess` and in
`parseLog`. -/
theorem unparsable_time_fatal_when_bounded {F : Type} (layout : List Byte → Option Time)
    (since util : Time) (info : LogInfo F) (h : layout info.TimeLocal = none) :
    testProcessLine layout since util (some info) =
        (if since = 0 ∧ util = 0 then .ok (.input (some info)) else Fatal) ∧
      parseLog layout since util (some info) =
        (if since = 0 ∧ util = 0 then .ok (.input (some info)) else Fatal) := by
  have hline : testProcessLine layout since util (some info) =
      (if since = 0 ∧ util = 0 then .ok (.input (some info)) else Fatal) := by
    unfold testProcessLine Time.IsZero ParseTime
    by_cases hs : since = 0 <;> by_cases hu : util = 0 <;> simp [hs, hu, h]
  refine ⟨hline, ?_⟩
  rw [← testProcessLine_eq_parseLog]
  exact hline

/-- The record with local time `yesterday`, under the lower bound alone, under the upper
bound alone, and under no bound. -/
theorem unparsable_time_fatal_when_bounded_witness :
    (testProcessLine sampleLayout since2024 0 (some (recordAt (ascii "yesterday"))) =
        (if since2024 = 0 ∧ (0 : Time) = 0 then
          .ok (.input (some (recordAt (ascii "yesterday")))) else Fatal) ∧
      parseLog sampleLayout since2024 0 (some (recordAt (ascii "yesterday"))) =
        (if since2024 = 0 ∧ (0 : Time) = 0 then
          .ok (.input (some (recordAt (ascii "yesterday")))) else Fatal)) ∧
    since2024 ≠ 0 :=
  ⟨unparsable_time_fatal_when_bounded sampleLayout since2024 0 (recordAt (ascii "yesterday"))
    (by decide), by decide⟩

/-- A line goroutine adds no call of `Output`. -/
theorem runTask_no_output {H F : Type} (Input : H → Option (LogInfo F) → Outcome H)
    (run run1 : Run H F) (data : List Byte) (task : Outcome (LineResult F))
    (h : runTask Input run data task = .ok run1)
    (hno : ∀ limit, Call.Output limit ∉ run.calls) :
    ∀ limit, Call.Output limit ∉ run1.calls := by
  unfold runTask at h
  cases task with
  | ok r =>
    simp only [Outcome.bind] at h
    cases r with
    | dropped =>
      simp only [Outcome.ok.injEq] at h
      subst h
      intro limit hm
      simp only [List.mem_append, List.mem_singleton] at hm
      rcases hm with hm | hm
      · exact hno limit hm
      · cases hm
    | input logInfo =>
      simp only at h
      cases hi : Input run.handler logInfo with
      | ok hd =>
        rw [hi] at h
        simp only [Outcome.map, Outcome.ok.injEq] at h
        subst h
        intro limit hm
        simp only [List.mem_append, List.mem_cons, List.mem_singleton, List.not_mem_nil,
          or_false] at hm
        rcases hm with hm | hm | hm
        · exact hno limit hm
        · cases hm
        · cases hm
      | fatal => rw [hi] at h; cases h
      | panic => rw [hi] at h; cases h
      | timeout => rw [hi] at h; cases h
  | fatal => cases h
  | panic => cases h
  | timeout => cases h

theorem runTasks_no_output {H F : Type} (Input : H → Option (LogInfo F) → Outcome H)
    (task : List Byte → Outcome (LineResult F)) (lines : List (List Byte)) :
    ∀ (run run1 : Run H F), runTasks Input task run lines = .ok run1 →
      (∀ limit, Call.Output limit ∉ run.calls) →
      ∀ limit, Call.Output limit ∉ run1.calls := by
  induction lines with
  | nil =>
    intro run run1 h hno
    simp only [runTasks, Outcome.ok.injEq] at h
    subst h
    exact hno
  | cons data rest ih =>
    intro run run1 h hno
    simp only [runTasks] at h
    cases ht : runTask Input run data (task data) with
    | ok r =>
      rw [ht] at h
      exact ih r run1 h (runTask_no_output Input run r data _ ht hno)
    | fatal => rw [ht] at h; cases h
    | panic => rw [ht] at h; cases h
    | timeout => rw [ht] at h; cases h

theorem runFiles_no_output {H F : Type} (Input : H → Option (LogInfo F) → Outcome H)
    (task : List Byte → Outcome (LineResult F)) (logFiles : List (Option (List Byte))) :
    ∀ (run run1 : Run H F), runFiles Input task run logFiles = .ok run1 →
      (∀ limit, Call.Output limit ∉ run.calls) →
      ∀ limit, Call.Output limit ∉ run1.calls := by
  induction logFiles with
  | nil =>
    intro run run1 h hno
    simp only [runFiles, Outcome.ok.injEq] at h
    subst h
    exact hno
  | cons file rest ih =>
    intro run run1 h hno
    cases file with
    | none => simp only [runFiles] at h; cases h
    | some content =>
      simp only [runFiles] at h
      cases ht : runTasks Input task run (readLines content) with
      | ok r =>
        rw [ht] at h
        exact ih r run1 h (runTasks_no_output Input task _ run r ht hno)
      | fatal => rw [ht] at h; cases h
      | panic => rw [ht] at h; cases h
      | timeout => rw [ht] at h; cases h

set_option maxRecDepth 1000000 in
/-- The run of `testProcess` and of `process` on one file that holds the line
`shortLog`, with a `CombinedParser`, a `PvAndUvHandler` and no bounds. -/
theorem shortLog_run :
    (∃ run, testProcess (CombinedParser.asParser unitFloat) PvAndUvHandler.Input
        sampleLayout 0 0 NewPvAndUvHandler [some shortLog] = .ok run ∧
      run.calls = [.ParseLog shortLog, .Input (some shortRecord)] ∧ run.handler.pv = 1) ∧
    (∃ run, process (CombinedParser.asParser unitFloat) PvAndUvHandler.Input
        sampleLayout 0 0 (fun i => i) NewPvAndUvHandler [some shortLog] = .ok run ∧
      run.calls = [.ParseLog shortLog, .Input (some shortRecord)] ∧ run.handler.pv = 1) := by
  have hp : CombinedParser.asParser unitFloat shortLog = .ok (some shortRecord) := by
    decide
  have hl : readLines shortLog = [shortLog] := by decide
  constructor
  · refine ⟨⟨⟨1, 1, [(ascii "10.0.0.1", true)]⟩, _⟩, ?_, rfl, ?_⟩
    · simp only [testProcess, runFiles, hl, runTasks, runTask, testProcessTask, hp,
        Outcome.bind]
      rfl
    · decide
  · refine ⟨⟨⟨1, 1, [(ascii "10.0.0.1", true)]⟩, _⟩, ?_, rfl, ?_⟩
    · have hc : (List.range [some shortLog].length).map
          (capturedFile [some shortLog] (fun i => i)) = [some shortLog] := by decide
      simp only [process, hc, runFiles, hl, runTasks, runTask, mergeTask, hp, Outcome.bind]
      rfl
    · decide

/-- C17 (the code on every list of sources): in no run of `testProcess` or of `process`
that finishes is `Handler.Output` called, not even once, whichever files the generators
of `process` find in the loop variable; the run on one file with one line finishes after
the calls of the parser and of `Input` alone. -/
theorem output_is_never_called :
    (∀ (H F : Type) (ParseLog : List Byte → Outcome (Option (LogInfo F)))
        (Input : H → Option (LogInfo F) → Outcome H) (layout : List Byte → Option Time)
        (since util : Time) (reads : Nat → Nat) (handler : H)
        (logFiles : List (Option (List Byte))) (run : Run H F),
      (testProcess ParseLog Input layout since util handler logFiles = .ok run →
        ∀ limit, Call.Output limit ∉ run.calls) ∧
      (process ParseLog Input layout since util reads handler logFiles = .ok run →
        ∀ limit, Call.Output limit ∉ run.calls)) ∧
    (∃ run, testProcess (CombinedParser.asParser unitFloat) PvAndUvHandler.Input
        sampleLayout 0 0 NewPvAndUvHandler [some shortLog] = .ok run ∧
      run.calls = [.ParseLog shortLog, .Input (some shortRecord)]) ∧
    (∃ run, process (CombinedParser.asParser unitFloat) PvAndUvHandler.Input
        sampleLayout 0 0 (fun i => i) NewPvAndUvHandler [some shortLog] = .ok run ∧
      run.calls = [.ParseLog shortLog, .Input (some shortRecord)]) := by
  refine ⟨?_, ?_, ?_⟩
  · intro H F ParseLog Input layout since util reads handler logFiles run
    constructor
    · intro h
      exact runFiles_no_output Input _ logFiles _ run h (fun _ hm => by cases hm)
    · intro h
      exact runFiles_no_output Input _ _ _ run h (fun _ hm => by cases hm)
  · obtain ⟨⟨run, h1, h2, _⟩, _⟩ := shortLog_run
    exact ⟨run, h1, h2⟩
  · obtain ⟨_, ⟨run, h1, h2, _⟩⟩ := shortLog_run
    exact ⟨run, h1, h2⟩

theorem MostVisitedLocationsHandler.applyCountry_testCountry
    (handler : MostVisitedLocationsHandler) (country : List Byte) :
    handler.applyCountry country (handler.testCountry country) =
      handler.saveCountry country := by
  unfold MostVisitedLocationsHandler.applyCountry MostVisitedLocationsHandler.testCountry
    MostVisitedLocationsHandler.saveCountry
  cases handler.countryCityIpCountMap.get? country <;> simp

theorem MostVisitedLocationsHandler.applyCity_testCity
    (handler : MostVisitedLocationsHandler) (country city : List Byte) :
    handler.applyCity country city (handler.testCity country city) =
      handler.saveCity country city := by
  unfold MostVisitedLocationsHandler.applyCity MostVisitedLocationsHandler.testCity
    MostVisitedLocationsHandler.saveCity
  cases (handler.countryCityIpCountMap.get? country).bind (fun m => m.get? city) <;> simp

theorem MostVisitedLocationsHandler.applyIp_testIp
    (handler : MostVisitedLocationsHandler) (country city ip : List Byte) :
    handler.applyIp country city ip (handler.testIp country city ip) =
      handler.saveIp country city ip := by
  unfold MostVisitedLocationsHandler.applyIp MostVisitedLocationsHandler.testIp
    MostVisitedLocationsHandler.saveIp
  cases h1 : handler.countryCityIpCountMap.get? country with
  | none => rfl
  | some cityIps =>
    cases h2 : cityIps.get? city with
    | none => simp [h2]
    | some ips =>
      cases h3 : ips.get? ip <;> simp [h2, h3]

/-- A goroutine that takes its six steps without another one in between does what the
three blocks of `Input` do. -/
theorem interleave_alone (handler : MostVisitedLocationsHandler)
    (country city ip : List Byte) :
    interleave handler [⟨country, city, ip, .country⟩] [0, 0, 0, 0, 0, 0] =
      (((handler.saveCountry country).saveCity country city).bind fun h =>
        h.saveIp country city ip).map fun h => (h, [⟨country, city, ip, .done⟩]) := by
  simp only [interleave, List.get?, InputTask.step, Outcome.bind, List.set]
  rw [MostVisitedLocationsHandler.applyCountry_testCountry]
  rw [MostVisitedLocationsHandler.applyCity_testCity]
  cases hc : (handler.saveCountry country).saveCity country city with
  | ok h1 =>
    simp only [Outcome.map, Outcome.bind, interleave, List.get?, InputTask.step, List.set]
    rw [MostVisitedLocationsHandler.applyIp_testIp]
    cases h1.saveIp country city ip <;> rfl
  | fatal => rfl
  | panic => rfl
  | timeout => rfl

/-- C20 (the code under one schedule): two goroutines run
`MostVisitedLocationsHandler.Input` for the address `10.0.0.1` on a fresh handler. When
one runs after the other, the counts of the country, the city and the address are 2.
When both evaluate the test of the first block before either runs its body, both find
the country missing and both store the count 1: the run ends with the country at 1, its
city and the address at 2. A goroutine alone does what the blocks of `Input` do. -/
theorem locations_input_loses_update :
    (∀ (handler : MostVisitedLocationsHandler) (country city ip : List Byte),
      interleave handler [⟨country, city, ip, .country⟩] [0, 0, 0, 0, 0, 0] =
        (((handler.saveCountry country).saveCity country city).bind fun h =>
          h.saveIp country city ip).map fun h => (h, [⟨country, city, ip, .done⟩])) ∧
    (interleave (NewMostVisitedLocationsHandler 1) [tokyoTask, tokyoTask]
        [0, 0, 0, 0, 0, 0, 1, 1, 1, 1, 1, 1]).map
      (countsOf (ascii "Japan") (ascii "Tokyo") (ascii "10.0.0.1")) =
        .ok (2, 2, 2, [.done, .done]) ∧
    (interleave (NewMostVisitedLocationsHandler 1) [tokyoTask, tokyoTask]
        [0, 1, 0, 1, 0, 0, 0, 0, 1, 1, 1, 1]).map
      (countsOf (ascii "Japan") (ascii "Tokyo") (ascii "10.0.0.1")) =
        .ok (1, 2, 2, [.done, .done]) := by
  refine ⟨interleave_alone, ?_, ?_⟩ <;> decide

/-- The loop with one more unit of fuel is one iteration followed by the loop. -/
theorem scanLoop_succ (delims : List (List Byte)) (line : List Byte) (fuel : Nat)
    (st : ScanState) :
    scanLoop delims line (fuel + 1) st =
      match scanIteration delims line st with
      | .ok none => .ok st
      | .ok (some st1) => scanLoop delims line fuel st1
      | .fatal => .fatal
      | .panic => .panic
      | .timeout => .timeout := by
  rw [scanLoop]
  unfold scanIteration
  cases delims.get? st.k with
  | none => rfl
  | some d =>
    simp only
    split
    · cases slice line st.j (st.j + d.length) with
      | none => rfl
      | some w =>
        simp only
        split
        · cases slice line st.i st.j with
          | none => rfl
          | some v => rfl
        · rfl
    · rfl

/-- A result of the loop does not change with more fuel. -/
theorem scanLoop_mono (delims : List (List Byte)) (line : List Byte) (n : Nat) :
    ∀ (fuel : Nat) (st r : ScanState), scanLoop delims line fuel st = .ok r →
      scanLoop delims line (fuel + n) st = .ok r := by
  intro fuel
  induction fuel with
  | zero => intro st r h; simp [scanLoop] at h
  | succ fuel ih =>
    intro st r h
    rw [scanLoop_succ] at h
    rw [show fuel + 1 + n = (fuel + n) + 1 by omega, scanLoop_succ]
    cases hi : scanIteration delims line st with
    | ok o =>
      rw [hi] at h
      cases o with
      | none => exact h
      | some st1 => exact ih st1 r h
    | fatal => rw [hi] at h; cases h
    | panic => rw [hi] at h; cases h
    | timeout => rw [hi] at h; cases h

theorem combinedDelimiters_ne_nil : ∀ d ∈ combinedDelimiters, d ≠ [] := by decide

/-- Every iteration of the loop of `NewCombinedParser` from a state with `i ≤ j` either
ends the loop or moves `j` forward, within the line, and takes no slice out of range. -/
theorem scanIteration_progress (line : List Byte) (st : ScanState) (hij : st.i ≤ st.j) :
    scanIteration combinedDelimiters line st = .ok none ∨
      ∃ st1, scanIteration combinedDelimiters line st = .ok (some st1) ∧
        st.j < st1.j ∧ st1.i ≤ st1.j ∧ st1.j ≤ line.length := by
  unfold scanIteration
  cases hd : combinedDelimiters.get? st.k with
  | none => exact Or.inl rfl
  | some d =>
    have hmem : d ∈ combinedDelimiters := List.get?_mem hd
    have hne : 0 < d.length := List.length_pos.mpr (combinedDelimiters_ne_nil d hmem)
    simp only
    by_cases hc : (st.j : Int) ≤ (line.length : Int) - (d.length : Int)
    · rw [if_pos hc]
      have hlen : st.j + d.length ≤ line.length := by omega
      rw [slice_nat_add line st.j d.length hlen]
      simp only
      by_cases hw : (line.drop st.j).take d.length = d
      · rw [if_pos hw, slice_nat line st.i st.j hij (by omega)]
        exact Or.inr ⟨_, rfl, by simp only; omega, le_refl _, hlen⟩
      · rw [if_neg hw]
        exact Or.inr ⟨_, rfl, by simp only; omega, by simp only; omega, by simp only; omega⟩
    · rw [if_neg hc]
      exact Or.inl rfl

set_option maxRecDepth 100000 in
/-- C24: `CombinedParser.ParseLog` is total. On every line the scan loop ends within
`len(line) + 9` iterations, in the same state for every larger bound; every iteration
from a state with `i ≤ j` ends the loop or moves `j` strictly forward within the line,
its slices being in range; and the call ends by returning a record or by the abort, never
by an index out of range. The empty line and a line shorter than the first delimiter
end in the abort. -/
theorem combined_parse_total :
    (∀ line : List Byte, ∃ st, ∀ fuel, line.length + 9 ≤ fuel →
      scanLoop combinedDelimiters line fuel scanStart = .ok st) ∧
    (∀ (line : List Byte) (st : ScanState), st.i ≤ st.j →
      (scanIteration combinedDelimiters line st = .ok none ∨
        ∃ st1, scanIteration combinedDelimiters line st = .ok (some st1) ∧
          st.j < st1.j ∧ st1.i ≤ st1.j ∧ st1.j ≤ line.length)) ∧
    (∀ (F : Type) (fl : Float64Ops F) (line : List Byte),
      CombinedParser.ParseLog fl line = Fatal ∨
        ∃ r, CombinedParser.ParseLog fl line = .ok r) ∧
    CombinedParser.ParseLog unitFloat [] = Fatal ∧
    CombinedParser.ParseLog unitFloat (ascii " -") = Fatal := by
  refine ⟨?_, scanIteration_progress, ?_, by decide, by decide⟩
  · intro line
    have h := scanLoop_split combinedDelimiters line combinedDelimiters 0 0 []
      (line.length + 9) rfl (Nat.zero_le _) (Nat.zero_le _)
      (by have : combinedDelimiters.length = 8 := rfl
          omega)
    simp only [List.drop_zero] at h
    have hst : ∃ st, scanLoop combinedDelimiters line (line.length + 9) scanStart = .ok st := by
      cases hs : splitFields combinedDelimiters line with
      | none =>
        rw [hs] at h
        obtain ⟨st, hst, _⟩ := h
        exact ⟨st, hst⟩
      | some fs =>
        rw [hs] at h
        obtain ⟨j1, hj1⟩ := h
        exact ⟨_, hj1⟩
    obtain ⟨st, hst⟩ := hst
    refine ⟨st, ?_⟩
    intro fuel hfuel
    have := scanLoop_mono combinedDelimiters line (fuel - (line.length + 9)) _ _ _ hst
    rwa [show line.length + 9 + (fuel - (line.length + 9)) = fuel by omega] at this
  · intro F fl line
    unfold CombinedParser.ParseLog
    rw [ParseLogWith_eq]
    cases hs : splitFields combinedDelimiters line with
    | none => exact Or.inl rfl
    | some fs =>
      obtain ⟨a0, a1, a2, a3, a4, a5, a6, a7, rfl⟩ := splitFields_combined_shape line fs hs
      simp only [List.get?_cons_succ, List.get?_cons_zero]
      cases Atoi a4 with
      | none => exact Or.inl rfl
      | some status =>
        cases Atoi a5 with
        | none => exact Or.inl rfl
        | some bytes => exact Or.inr ⟨_, rfl⟩

/-- C25: `CustomParser.ParseLog` reads no capture group that does not exist. Whenever
`MatchRegex` reports the Apache, IIS or NCSA format, the list of matches has 11, 10 or 9
entries, so every index read, up to 10, 9 and 8, is in range and the call never ends in
an index out of range; the length guard of the Apache case alone would not do, a list of
10 entries passes it and has no entry 10. -/
theorem custom_groups_in_range {F : Type} (fl : Float64Ops F) (line : List Byte) :
    ((CustomParser.MatchRegex line).2 = ApacheFormatName →
      (CustomParser.MatchRegex line).1.length = 11 ∧
        ∀ i, i ≤ 10 → ∃ x, index (CustomParser.MatchRegex line).1 i = .ok x) ∧
    ((CustomParser.MatchRegex line).2 = IISFormatName →
      (CustomParser.MatchRegex line).1.length = 10 ∧
        ∀ i, i ≤ 9 → ∃ x, index (CustomParser.MatchRegex line).1 i = .ok x) ∧
    ((CustomParser.MatchRegex line).2 = NCSAFormatName →
      (CustomParser.MatchRegex line).1.length = 9 ∧
        ∀ i, i ≤ 8 → ∃ x, index (CustomParser.MatchRegex line).1 i = .ok x) ∧
    (∃ r, CustomParser.ParseLog fl line = .ok r) ∧
    (∀ m : List (List Byte), m.length = 10 → CustomParser.apacheCase fl m = .panic) := by
  refine ⟨?_, ?_, ?_, ?_, ?_⟩
  · intro h
    have ha := (MatchRegex_apache_iff line).mp h
    rw [MatchRegex_fst_apache line ha]
    have hl := Apache_length line ha
    exact ⟨hl, fun i hi => ⟨_, index_of_lt _ i (by simp only; omega)⟩⟩
  · intro h
    obtain ⟨ha, hi⟩ := (MatchRegex_iis_iff line).mp h
    rw [MatchRegex_fst_iis line ha hi]
    have hl := IIS_length line hi
    exact ⟨hl, fun i hi => ⟨_, index_of_lt _ i (by simp only; omega)⟩⟩
  · intro h
    obtain ⟨ha, hi, hn⟩ := (MatchRegex_ncsa_iff line).mp h
    rw [MatchRegex_fst_ncsa line ha hi hn]
    have hl := NCSA_length line hn
    exact ⟨hl, fun i hi => ⟨_, index_of_lt _ i (by simp only; omega)⟩⟩
  · rw [CustomParser.ParseLog_cases]
    split_ifs <;> exact ⟨_, rfl⟩
  · intro m hm
    match m, hm with
    | [m0, m1, m2, m3, m4, m5, m6, m7, m8, m9], _ => rfl

/-- C26 (the code on the empty line): `JsonParser.ParseLog` takes the slice
`line[:len(line)-1]`, whose upper bound is -1 on the empty line, and ends in the panic for
slice bounds out of range, whatever the decoder; on every other line the slice is in
range and the call returns a record or ends in the decode error. -/
theorem json_empty_line_panics :
    slice [] 0 (((([] : List Byte).length : Int)) - 1) = none ∧
    (∀ (F : Type) (Unmarshal : List Byte → Option (LogInfo F)),
      JsonParser.ParseLog Unmarshal [] = .panic) ∧
    JsonParser.ParseLog sampleUnmarshal [] = .panic ∧
    (∀ (F : Type) (Unmarshal : List Byte → Option (LogInfo F)) (line : List Byte),
      line ≠ [] →
      JsonParser.ParseLog Unmarshal line = Fatal ∨
        ∃ r, JsonParser.ParseLog Unmarshal line = .ok r) := by
  refine ⟨by decide, fun F Unmarshal => rfl, rfl, ?_⟩
  intro F Unmarshal line hne
  unfold JsonParser.ParseLog
  have hpos : 0 < line.length := List.length_pos.mpr hne
  have hs : slice line 0 ((line.length : Int) - 1) = some (line.take (line.length - 1)) := by
    have := slice_nat line 0 (line.length - 1) (Nat.zero_le _) (by omega)
    have hc : ((line.length - 1 : Nat) : Int) = (line.length : Int) - 1 := by omega
    rw [hc] at this
    simpa using this
  rw [hs]
  cases hU : Unmarshal (line.take (line.length - 1)) with
  | none => left; simp [hU]
  | some r => right; exact ⟨r, by simp [hU]⟩

theorem readLinesFrom_split : ∀ (content cur : List Byte), (10 : Byte) ∉ cur →
    ∃ lines rest, readLinesFrom content cur = lines ∧ cur ++ content = lines.flatten ++ rest ∧
      (∀ l ∈ lines, ∃ body : List Byte, l = body ++ [10] ∧ (10 : Byte) ∉ body) ∧
      (10 : Byte) ∉ rest := by
  intro content
  induction content with
  | nil =>
    intro cur hcur
    exact ⟨[], cur, rfl, by simp, by simp, hcur⟩
  | cons b content ih =>
    intro cur hcur
    by_cases hb : b = 10
    · obtain ⟨lines, rest, hl, hc, hlines, hrest⟩ := ih [] (by simp)
      refine ⟨(cur ++ [b]) :: lines, rest, ?_, ?_, ?_, hrest⟩
      · simp only [readLinesFrom, hb, if_true, hl]
      · simp only [List.nil_append] at hc
        simp [hc]
      · intro l hl'
        rcases List.mem_cons.mp hl' with h | h
        · exact ⟨cur, by rw [h, hb], hcur⟩
        · exact hlines l h
    · have hcur' : (10 : Byte) ∉ cur ++ [b] := by
        simp only [List.mem_append, List.mem_singleton, not_or]
        exact ⟨hcur, fun h => hb h.symm⟩
      obtain ⟨lines, rest, hl, hc, hlines, hrest⟩ := ih (cur ++ [b]) hcur'
      refine ⟨lines, rest, ?_, ?_, hlines, hrest⟩
      · simp only [readLinesFrom, hb, if_false, hl]
      · rw [← hc]; simp

/-- The lines read are the newline-terminated lines of the content; what follows the last
newline is left over. -/
theorem readLines_split (content : List Byte) :
    ∃ rest, LineSplit content (readLines content) rest := by
  obtain ⟨lines, rest, hl, hc, hlines, hrest⟩ := readLinesFrom_split content [] (by simp)
  refine ⟨rest, ?_, ?_, hrest⟩
  · unfold readLines; rw [hl]; simpa using hc
  · unfold readLines; rw [hl]; exact hlines

theorem runTask_parseCalls {H F : Type} (Input : H → Option (LogInfo F) → Outcome H)
    (run run1 : Run H F) (data : List Byte) (task : Outcome (LineResult F))
    (h : runTask Input run data task = .ok run1) :
    parseCalls run1.calls = parseCalls run.calls ++ [data] := by
  unfold runTask at h
  cases task with
  | ok r =>
    simp only [Outcome.bind] at h
    cases r with
    | dropped =>
      simp only [Outcome.ok.injEq] at h
      subst h
      simp [parseCalls, List.filterMap_append]
    | input logInfo =>
      simp only at h
      cases hi : Input run.handler logInfo with
      | ok hd =>
        rw [hi] at h
        simp only [Outcome.map, Outcome.ok.injEq] at h
        subst h
        simp [parseCalls, List.filterMap_append]
      | fatal => rw [hi] at h; cases h
      | panic => rw [hi] at h; cases h
      | timeout => rw [hi] at h; cases h
  | fatal => cases h
  | panic => cases h
  | timeout => cases h

theorem runTasks_parseCalls {H F : Type} (Input : H → Option (LogInfo F) → Outcome H)
    (task : List Byte → Outcome (LineResult F)) (lines : List (List Byte)) :
    ∀ (run run1 : Run H F), runTasks Input task run lines = .ok run1 →
      parseCalls run1.calls = parseCalls run.calls ++ lines := by
  induction lines with
  | nil =>
    intro run run1 h
    simp only [runTasks, Outcome.ok.injEq] at h
    subst h
    simp
  | cons data rest ih =>
    intro run run1 h
    simp only [runTasks] at h
    cases ht : runTask Input run data (task data) with
    | ok r =>
      rw [ht] at h
      rw [ih r run1 h, runTask_parseCalls Input run r data _ ht]
      simp
    | fatal => rw [ht] at h; cases h
    | panic => rw [ht] at h; cases h
    | timeout => rw [ht] at h; cases h

theorem runFiles_parseCalls {H F : Type} (Input : H → Option (LogInfo F) → Outcome H)
    (task : List Byte → Outcome (LineResult F)) (logFiles : List (Option (List Byte))) :
    ∀ (run run1 : Run H F), runFiles Input task run logFiles = .ok run1 →
      parseCalls run1.calls =
        parseCalls run.calls ++
          (logFiles.map fun file => readLines (file.getD [])).flatten := by
  induction logFiles with
  | nil =>
    intro run run1 h
    simp only [runFiles, Outcome.ok.injEq] at h
    subst h
    simp
  | cons file rest ih =>
    intro run run1 h
    cases file with
    | none => simp only [runFiles] at h; cases h
    | some content =>
      simp only [runFiles] at h
      cases ht : runTasks Input task run (readLines content) with
      | ok r =>
        rw [ht] at h
        rw [ih r run1 h, runTasks_parseCalls Input task _ run r ht]
        simp
      | fatal => rw [ht] at h; cases h
      | panic => rw [ht] at h; cases h
      | timeout => rw [ht] at h; cases h

set_option maxRecDepth 1000000 in
/-- The run of `testProcess` on one file that holds the line `shortLog` followed by the
same line without its newline. -/
theorem openLine_run :
    readLines (shortLog ++ shortLogOpen) = [shortLog] ∧
    LineSplit (shortLog ++ shortLogOpen) [shortLog] shortLogOpen ∧
    ∃ run, testProcess (CombinedParser.asParser unitFloat) PvAndUvHandler.Input
        sampleLayout 0 0 NewPvAndUvHandler [some (shortLog ++ shortLogOpen)] = .ok run ∧
      run.calls = [.ParseLog shortLog, .Input (some shortRecord)] := by
  have hp : CombinedParser.asParser unitFloat shortLog = .ok (some shortRecord) := by
    decide
  have hl : readLines (shortLog ++ shortLogOpen) = [shortLog] := by decide
  refine ⟨hl, ⟨by decide, ?_, by decide⟩, ⟨⟨1, 1, [(ascii "10.0.0.1", true)]⟩, _⟩, ?_, rfl⟩
  · intro l hl'
    rw [List.mem_singleton] at hl'
    subst hl'
    exact ⟨shortLogOpen, by decide, by decide⟩
  · simp only [testProcess, runFiles, hl, runTasks, runTask, testProcessTask, hp,
      Outcome.bind]
    rfl

/-- C23 (the claim as stated fails): a file holds the line `shortLog` and then the same
line without its newline, two lines as the claim counts them. The run finishes and the
parser is called once, for the first line; the final segment is never parsed. -/
theorem unterminated_last_line_is_not_parsed :
    LineSplit (shortLog ++ shortLogOpen) [shortLog] shortLogOpen ∧
    specLines [shortLog] shortLogOpen = [shortLog, shortLogOpen] ∧
    ∃ run, testProcess (CombinedParser.asParser unitFloat) PvAndUvHandler.Input
        sampleLayout 0 0 NewPvAndUvHandler [some (shortLog ++ shortLogOpen)] = .ok run ∧
      parseCalls run.calls = [shortLog] := by
  obtain ⟨_, hsplit, run, hrun, hcalls⟩ := openLine_run
  refine ⟨hsplit, by decide, run, hrun, ?_⟩
  rw [hcalls]
  rfl

/-- When every generator finds its own file in the loop variable, `process` reads the
files as they are listed. -/
theorem capturedFile_own (logFiles : List (Option (List Byte))) :
    (List.range logFiles.length).map (capturedFile logFiles (fun i => i)) = logFiles := by
  apply List.ext_get?
  intro i
  by_cases hi : i < logFiles.length
  · have h2 : min i (logFiles.length - 1) = i := Nat.min_eq_left (by omega)
    simp [List.get?_eq_getElem?, hi, capturedFile, h2]
  · have hle : logFiles.length ≤ i := by omega
    simp [List.get?_eq_getElem?, List.getElem?_eq_none, hle]

set_option maxRecDepth 1000000 in
/-- Two files, `shortLog` and `otherLog`, given to `process` when both generators find the
second file in the loop variable: the line of the second file is parsed twice and the
line of the first never. -/
theorem process_shared_variable :
    ∃ run, process (CombinedParser.asParser unitFloat) PvAndUvHandler.Input
        sampleLayout 0 0 (fun _ => 1) NewPvAndUvHandler [some shortLog, some otherLog] =
          .ok run ∧
      parseCalls run.calls = [otherLog, otherLog] ∧ run.handler.pv = 2 ∧
      run.handler.uv = 1 := by
  have hp : CombinedParser.asParser unitFloat otherLog = .ok (some otherRecord) := by
    decide
  have hl : readLines otherLog = [otherLog] := by decide
  have hc : (List.range [some shortLog, some otherLog].length).map
      (capturedFile [some shortLog, some otherLog] (fun _ => 1)) =
        [some otherLog, some otherLog] := by decide
  refine ⟨⟨⟨2, 1, [(ascii "10.0.0.2", true)]⟩,
    [.ParseLog otherLog, .Input (some otherRecord), .ParseLog otherLog,
      .Input (some otherRecord)]⟩, ?_, rfl, rfl, rfl⟩
  simp only [process, hc, runFiles, hl, runTasks, runTask, mergeTask, hp, Outcome.bind]
  rfl

/-- C23 (amended): in every run of `testProcess` that finishes, the parser is called
exactly once for every newline-terminated line of every file, in the order of the files,
and for nothing else; the lines of a content are its segments up to and including each
newline, and what follows the last newline is not parsed. In `process` the same holds of
the files that its generators open, which are the listed files when every generator finds
its own file in the loop variable. -/
theorem parser_called_once_per_terminated_line :
    (∀ (H F : Type) (ParseLog : List Byte → Outcome (Option (LogInfo F)))
        (Input : H → Option (LogInfo F) → Outcome H) (layout : List Byte → Option Time)
        (since util : Time) (reads : Nat → Nat) (handler : H)
        (logFiles : List (Option (List Byte))) (run : Run H F),
      (testProcess ParseLog Input layout since util handler logFiles = .ok run →
        parseCalls run.calls =
          (logFiles.map fun file => readLines (file.getD [])).flatten) ∧
      (process ParseLog Input layout since util reads handler logFiles = .ok run →
        parseCalls run.calls =
          (((List.range logFiles.length).map (capturedFile logFiles reads)).map
            fun file => readLines (file.getD [])).flatten) ∧
      (process ParseLog Input layout since util (fun i => i) handler logFiles = .ok run →
        parseCalls run.calls =
          (logFiles.map fun file => readLines (file.getD [])).flatten)) ∧
    (∀ content : List Byte, ∃ rest, LineSplit content (readLines content) rest) ∧
    (∃ run, testProcess (CombinedParser.asParser unitFloat) PvAndUvHandler.Input
        sampleLayout 0 0 NewPvAndUvHandler [some shortLog] = .ok run ∧
      parseCalls run.calls = [shortLog]) := by
  refine ⟨?_, readLines_split, ?_⟩
  · intro H F ParseLog Input layout since util reads handler logFiles run
    refine ⟨?_, ?_, ?_⟩
    · intro h
      have := runFiles_parseCalls Input _ logFiles _ run h
      simpa [parseCalls] using this
    · intro h
      have := runFiles_parseCalls Input _ _ _ run h
      simpa [parseCalls] using this
    · intro h
      have := runFiles_parseCalls Input _ _ _ run h
      rw [capturedFile_own] at this
      simpa [parseCalls] using this
  · obtain ⟨⟨run, h1, h2, _⟩, _⟩ := shortLog_run
    exact ⟨run, h1, by rw [h2]; rfl⟩

theorem wrapInt32_succ (x : Int) : wrapInt32 (wrapInt32 x + 1) = wrapInt32 (x + 1) := by
  unfold wrapInt32
  norm_num
  omega

theorem wrapInt32_of_lt (n : Nat) (h : n < 2 ^ 31) : wrapInt32 (n : Int) = (n : Int) := by
  unfold wrapInt32
  norm_num at h ⊢
  omega

theorem dedup_length_snoc (seen : List (List Byte)) (a : List Byte) :
    (seen ++ [a]).dedup.length = if a ∈ seen then seen.dedup.length else seen.dedup.length + 1 := by
  rw [← List.card_toFinset, ← List.card_toFinset, List.toFinset_append]
  by_cases h : a ∈ seen
  · rw [if_pos h]
    congr 1
    ext x
    simp only [Finset.mem_union, List.mem_toFinset, List.mem_singleton]
    constructor
    · rintro (hx | hx)
      · exact hx
      · rw [hx]; exact h
    · intro hx; exact Or.inl hx
  · rw [if_neg h]
    have : seen.toFinset ∪ [a].toFinset = insert a seen.toFinset := by
      ext x
      simp only [Finset.mem_union, List.mem_toFinset, List.mem_singleton, Finset.mem_insert]
      tauto
    rw [this, Finset.card_insert_of_not_mem (by simpa using h)]

theorem pvUvStep_after (seen : List (List Byte)) (a : List Byte) :
    pvUvStep (pvUvAfter seen) a = pvUvAfter (seen ++ [a]) := by
  unfold pvUvStep pvUvAfter
  simp only [List.length_append, List.length_singleton, Nat.cast_add, Nat.cast_one]
  rw [wrapInt32_succ, dedup_length_snoc]
  by_cases h : a ∈ seen
  · simp only [h, if_true, Option.isSome_some]
    congr 2
    funext k
    by_cases hk : k ∈ seen
    · simp [hk]
    · have : k ≠ a := fun e => hk (e ▸ h)
      simp [hk, this]
  · simp only [h, if_false, Option.isSome_none, Bool.false_eq_true, Nat.cast_add, Nat.cast_one]
    rw [wrapInt32_succ]
    congr 2
    funext k
    by_cases hk : k ∈ seen
    · have : a ≠ k := fun e => h (e ▸ hk)
      simp [hk, this]
    · by_cases hak : a = k
      · simp [hak]
      · have : k ≠ a := fun e => hak e.symm
        simp [hk, hak, this]

theorem pvUvStep_foldl (addrs : List (List Byte)) :
    ∀ seen, addrs.foldl pvUvStep (pvUvAfter seen) = pvUvAfter (seen ++ addrs) := by
  induction addrs with
  | nil => intro seen; simp
  | cons a addrs ih =>
    intro seen
    rw [List.foldl_cons, pvUvStep_after, ih]
    simp

/-- The counters after feeding records to a fresh handler: the number of records and the
number of distinct addresses, each wrapped to 32 bits. -/
theorem PvAndUvHandler.feed_counters {F : Type} (rs : List (LogInfo F)) :
    ∃ h, PvAndUvHandler.feed NewPvAndUvHandler rs = .ok h ∧
      h.pv = wrapInt32 (rs.length : Int) ∧ h.uv = wrapInt32 (distinctAddrs rs : Int) := by
  obtain ⟨h, hf, hd⟩ := PvAndUvHandler.feed_denote rs NewPvAndUvHandler
  have h0 : NewPvAndUvHandler.denote = pvUvAfter [] := by
    unfold PvAndUvHandler.denote NewPvAndUvHandler pvUvAfter
    refine Prod.ext (by decide) (Prod.ext (by decide) ?_)
    funext k
    simp [GoMap.get?]
  rw [h0, pvUvStep_foldl, List.nil_append] at hd
  refine ⟨h, hf, ?_, ?_⟩
  · have := congrArg (fun d => d.1) hd
    simpa [PvAndUvHandler.denote, pvUvAfter] using this
  · have := congrArg (fun d => d.2.1) hd
    simpa [PvAndUvHandler.denote, pvUvAfter, distinctAddrs] using this

theorem distinctAddrs_le {F : Type} (rs : List (LogInfo F)) : distinctAddrs rs ≤ rs.length := by
  unfold distinctAddrs
  have := (List.dedup_sublist (rs.map fun r => r.RemoteAddr)).length_le
  simpa using this

theorem distinctAddrs_replicate {F : Type} (n : Nat) (r : LogInfo F) (hn : n ≠ 0) :
    distinctAddrs (List.replicate n r) = 1 := by
  unfold distinctAddrs
  rw [List.map_replicate, ← List.card_toFinset, List.toFinset_replicate_of_ne_zero hn]
  rfl

/-- C21 (the code on 2^31 records): after every sequence of records fed to a fresh
handler, `pv` is the number of records and `uv` the number of distinct addresses, each
wrapped to 32 bits; `Output` prints exactly those two numbers as long as the sequence has
fewer than 2^31 records. After 2^31 records from one address, `Output` prints the PV
-2147483648. -/
theorem pv_counter_wraps :
    (∀ (F : Type) (rs : List (LogInfo F)),
      ∃ h, PvAndUvHandler.feed NewPvAndUvHandler rs = .ok h ∧
        h.pv = wrapInt32 (rs.length : Int) ∧ h.uv = wrapInt32 (distinctAddrs rs : Int) ∧
        (rs.length < 2 ^ 31 → ∀ limit,
          PvAndUvHandler.Output h limit =
            [ascii "PV: " ++ Itoa (rs.length : Int) ++ ascii "\n",
             ascii "UV: " ++ Itoa (distinctAddrs rs : Int) ++ ascii "\n"])) ∧
    (∃ h, PvAndUvHandler.feed NewPvAndUvHandler
        (List.replicate 2147483648 (hit "10.0.0.1" "/a" "curl")) = .ok h ∧
      PvAndUvHandler.Output h 15 = [ascii "PV: -2147483648\n", ascii "UV: 1\n"]) := by
  constructor
  · intro F rs
    obtain ⟨h, hf, hpv, huv⟩ := PvAndUvHandler.feed_counters rs
    refine ⟨h, hf, hpv, huv, ?_⟩
    intro hlen limit
    have hd := distinctAddrs_le rs
    unfold PvAndUvHandler.Output
    rw [hpv, huv, wrapInt32_of_lt _ hlen, wrapInt32_of_lt _ (by omega)]
  · obtain ⟨h, hf, hpv, huv⟩ :=
      PvAndUvHandler.feed_counters (List.replicate 2147483648 (hit "10.0.0.1" "/a" "curl"))
    refine ⟨h, hf, ?_⟩
    rw [List.length_replicate] at hpv
    rw [distinctAddrs_replicate _ _ (by decide)] at huv
    have h1 : wrapInt32 ((2147483648 : Nat) : Int) = -2147483648 := by decide
    have h2 : wrapInt32 ((1 : Nat) : Int) = 1 := by decide
    unfold PvAndUvHandler.Output
    rw [hpv, huv, h1, h2]
    decide

theorem GoMap.keys_set {V : Type} (m : GoMap V) (k : List Byte) (v : V) :
    (m.set k v).keys = if k ∈ m.keys then m.keys else m.keys ++ [k] := by
  induction m with
  | nil => simp [GoMap.set, GoMap.keys]
  | cons e m ih =>
    obtain ⟨a, b⟩ := e
    by_cases hak : a = k
    · simp [GoMap.set, GoMap.keys, hak]
    · have hka : ¬ k = a := fun h => hak h.symm
      simp only [GoMap.keys] at ih
      simp only [GoMap.set, hak, if_false, GoMap.keys, List.map_cons, List.mem_cons, hka,
        false_or, ih]
      split <;> simp

theorem GoMap.nodup_set {V : Type} (m : GoMap V) (k : List Byte) (v : V)
    (hnd : m.keys.Nodup) : (m.set k v).keys.Nodup := by
  rw [GoMap.keys_set]
  split
  · exact hnd
  · next hk =>
    rw [List.nodup_append]
    refine ⟨hnd, List.nodup_singleton k, ?_⟩
    intro a ha hb
    rw [List.mem_singleton] at hb
    exact hk (hb ▸ ha)

theorem GoMap.mem_keys_iff {V : Type} (m : GoMap V) (k : List Byte) :
    k ∈ m.keys ↔ (m.get? k).isSome = true := by
  constructor
  · intro h
    obtain ⟨v, hv⟩ := GoMap.get?_of_mem_keys m k h
    simp [hv]
  · intro h
    obtain ⟨v, hv⟩ := Option.isSome_iff_exists.mp h
    exact List.mem_map.mpr ⟨(k, v), GoMap.mem_of_get? m k v hv, rfl⟩

theorem GoMap.get?_of_mem {V : Type} (m : GoMap V) (hnd : m.keys.Nodup) (k : List Byte)
    (v : V) (h : (k, v) ∈ m) : m.get? k = some v := by
  induction m with
  | nil => simp at h
  | cons e m ih =>
    obtain ⟨a, b⟩ := e
    simp only [GoMap.keys, List.map_cons, List.nodup_cons] at hnd
    rcases List.mem_cons.mp h with h | h
    · simp only [Prod.mk.injEq] at h
      simp [GoMap.get?, h.1, h.2]
    · have hak : a ≠ k := by
        intro hak
        exact hnd.1 (List.mem_map.mpr ⟨(k, v), h, hak.symm⟩)
      simp only [GoMap.get?, hak, if_false]
      exact ih hnd.2 h

theorem GoMap.total_set (m : GoMap Int) (k : List Byte) (v : Int) :
    GoMap.total (m.set k v) = GoMap.total m - (m.get? k).getD 0 + v := by
  induction m with
  | nil => simp [GoMap.set, GoMap.total, GoMap.get?]
  | cons e m ih =>
    obtain ⟨a, b⟩ := e
    by_cases hak : a = k
    · simp only [GoMap.set, GoMap.total, GoMap.get?, hak, if_true, List.map_cons,
        List.sum_cons, Option.getD_some]
      omega
    · simp only [GoMap.total] at ih
      simp only [GoMap.set, hak, if_false, GoMap.total, List.map_cons, List.sum_cons, ih,
        GoMap.get?]
      omega

theorem countHit_eq_set (m : GoMap Int) (k : List Byte) :
    countHit m k = m.set k ((m.get? k).getD 0 + 1) := by
  unfold countHit
  cases h : m.get? k with
  | none => simp
  | some v => simp [GoMap.incr, h]

theorem total_countHit (m : GoMap Int) (k : List Byte) :
    GoMap.total (countHit m k) = GoMap.total m + 1 := by
  rw [countHit_eq_set, GoMap.total_set]
  omega

theorem total_countHit_foldl (ks : List (List Byte)) :
    ∀ m : GoMap Int, GoMap.total (ks.foldl countHit m) = GoMap.total m + (ks.length : Int) := by
  induction ks with
  | nil => intro m; simp
  | cons k ks ih =>
    intro m
    rw [List.foldl_cons, ih, total_countHit]
    simp only [List.length_cons, Nat.cast_add, Nat.cast_one]
    omega

theorem nodup_countHit_foldl (ks : List (List Byte)) :
    ∀ m : GoMap Int, m.keys.Nodup → (ks.foldl countHit m).keys.Nodup := by
  induction ks with
  | nil => intro m h; exact h
  | cons k ks ih =>
    intro m h
    rw [List.foldl_cons]
    apply ih
    rw [countHit_eq_set]
    exact GoMap.nodup_set m k _ h

theorem nodup_bumpWith_foldl {V β : Type} (f : V → β → V) (e : V)
    (xs : List (List Byte × β)) :
    ∀ m : GoMap V, m.keys.Nodup →
      (xs.foldl (fun m x => GoMap.bumpWith f e m x.1 x.2) m).keys.Nodup := by
  induction xs with
  | nil => intro m h; exact h
  | cons x xs ih =>
    intro m h
    rw [List.foldl_cons]
    apply ih
    exact GoMap.nodup_set m _ _ h

theorem filter_fst_length {β : Type} (xs : List (List Byte × β)) (a : List Byte) :
    ((xs.filter fun x => decide (x.1 = a)).length : Int) =
      (((xs.map fun x => x.1).count a : Nat) : Int) := by
  induction xs with
  | nil => rfl
  | cons x xs ih =>
    by_cases hx : x.1 = a
    · simp only [List.filter_cons, hx, decide_True, if_true, List.length_cons, List.map_cons,
        List.count_cons_self, Nat.cast_add, Nat.cast_one, ih]
    · have : (x.1 == a) = false := by simpa using hx
      simp only [List.filter_cons, hx, decide_False, Bool.false_eq_true, if_false,
        List.map_cons, List.count_cons, this, ih, add_zero]

/-- The entry of a country in the second map of `trieState`. -/
theorem trieState_cities (ts : List (List Byte × List Byte × List Byte)) (c : List Byte) :
    ((ts.map fun t => (t.1, t.2.1)).foldl bump2 []).get? c =
      if (ts.filter fun t => decide (t.1 = c)).isEmpty then none
      else some (((ts.filter fun t => decide (t.1 = c)).map fun t => t.2.1).foldl
        countHit []) := by
  rw [bump2_foldl_eq, bumpWith_foldl_get?]
  have hf : ((ts.map fun t => (t.1, t.2.1)).filter fun x => decide (x.1 = c)) =
      (ts.filter fun t => decide (t.1 = c)).map fun t => (t.1, t.2.1) := by
    rw [List.filter_map]
    rfl
  rw [hf]
  generalize (ts.filter fun t => decide (t.1 = c)) = l
  cases l <;> simp [GoMap.get?, List.map_map, Function.comp_def]

/-- The entry of a country in the third map of `trieState`. -/
theorem trieState_cityIps (ts : List (List Byte × List Byte × List Byte)) (c : List Byte) :
    (ts.foldl bump3 []).get? c =
      if (ts.filter fun t => decide (t.1 = c)).isEmpty then none
      else some (((ts.filter fun t => decide (t.1 = c)).map fun t => t.2).foldl bump2 []) := by
  rw [bump3_foldl_eq, bumpWith_foldl_get?]
  simp [GoMap.get?]

/-- The entry of a city in a map built by `bump2`. -/
theorem bump2_foldl_get? (qs : List (List Byte × List Byte)) (ci : List Byte) :
    (qs.foldl bump2 []).get? ci =
      if (qs.filter fun q => decide (q.1 = ci)).isEmpty then none
      else some (((qs.filter fun q => decide (q.1 = ci)).map fun q => q.2).foldl
        countHit []) := by
  rw [bump2_foldl_eq, bumpWith_foldl_get?]
  simp [GoMap.get?]
theorem count_countHit_foldl (ks : List (List Byte)) (k : List Byte) :
    GoMap.count (ks.foldl countHit []) k = ((ks.count k : Nat) : Int) := by
  unfold GoMap.count
  rw [countHit_foldl]
  by_cases h : ks.count k = 0
  · simp [h, GoMap.get?]
  · simp [h, GoMap.get?]

theorem total_bump2_foldl (qs : List (List Byte × List Byte)) (ci : List Byte) :
    GoMap.total (((qs.foldl bump2 []).get? ci).getD []) =
      (((qs.map fun q => q.1).count ci : Nat) : Int) := by
  rw [bump2_foldl_get?, ← filter_fst_length]
  generalize (qs.filter fun q => decide (q.1 = ci)) = l
  cases l with
  | nil => simp [GoMap.total]
  | cons x l =>
    simp only [List.isEmpty_cons, Bool.false_eq_true, if_false, Option.getD_some]
    rw [total_countHit_foldl]
    simp [GoMap.total]

/-- The cities of a country in the second map of `trieState`, read with the empty map for
a missing country. -/
theorem trieState_cityCountMap (ls : Int) (ts : List (List Byte × List Byte × List Byte))
    (c : List Byte) :
    (trieState ls ts).cityCountMap c =
      ((ts.filter fun t => decide (t.1 = c)).map fun t => t.2.1).foldl countHit [] := by
  unfold MostVisitedLocationsHandler.cityCountMap trieState
  simp only
  rw [trieState_cities]
  generalize (ts.filter fun t => decide (t.1 = c)) = l
  cases l <;> simp

/-- The cities of a country in the third map of `trieState`, read with the empty map for
a missing country. -/
theorem trieState_cityIpCountMap (ls : Int) (ts : List (List Byte × List Byte × List Byte))
    (c : List Byte) :
    (trieState ls ts).cityIpCountMap c =
      ((ts.filter fun t => decide (t.1 = c)).map fun t => t.2).foldl bump2 [] := by
  unfold MostVisitedLocationsHandler.cityIpCountMap trieState
  simp only
  rw [trieState_cityIps]
  generalize (ts.filter fun t => decide (t.1 = c)) = l
  cases l <;> simp

theorem trieState_wellFormed (ls : Int) (ts : List (List Byte × List Byte × List Byte)) :
    (trieState ls ts).WellFormed := by
  have hnd : (ts.foldl bump3 []).keys.Nodup := by
    rw [bump3_foldl_eq]
    exact nodup_bumpWith_foldl _ _ ts [] List.nodup_nil
  refine ⟨hnd, ?_⟩
  intro e he
  have hg := GoMap.get?_of_mem _ hnd e.1 e.2 he
  rw [trieState_cityIps] at hg
  split at hg
  · cases hg
  · simp only [Option.some.injEq] at hg
    have hnd2 : e.2.keys.Nodup := by
      rw [← hg, bump2_foldl_eq]
      exact nodup_bumpWith_foldl _ _ _ [] List.nodup_nil
    refine ⟨hnd2, ?_⟩
    intro e2 he2
    have hg2 := GoMap.get?_of_mem _ hnd2 e2.1 e2.2 he2
    rw [← hg, bump2_foldl_get?] at hg2
    split at hg2
    · cases hg2
    · simp only [Option.some.injEq] at hg2
      rw [← hg2]
      exact nodup_countHit_foldl _ [] List.nodup_nil

/-- The rollup holds of the maps that have counted the located hits `ts`. -/
theorem trieState_rollup (ls : Int) (ts : List (List Byte × List Byte × List Byte)) :
    Rollup (trieState ls ts) ts.length := by
  refine ⟨?_, ?_, ?_, trieState_wellFormed ls ts, ?_, ?_, ?_, ?_, ?_, ?_⟩
  · exact nodup_countHit_foldl _ [] List.nodup_nil
  · show ((ts.map fun t => (t.1, t.2.1)).foldl bump2 []).keys.Nodup
    rw [bump2_foldl_eq]
    exact nodup_bumpWith_foldl _ _ _ [] List.nodup_nil
  · intro c
    rw [trieState_cityCountMap]
    exact nodup_countHit_foldl _ [] List.nodup_nil
  · intro c
    rw [GoMap.mem_keys_iff, GoMap.mem_keys_iff]
    have := (trieState_consistent ts c c).1
    simp only [trieState]
    rw [this]
  · intro c
    rw [GoMap.mem_keys_iff, GoMap.mem_keys_iff]
    have := (trieState_consistent ts c c).2.1
    simp only [trieState]
    rw [this]
  · intro c ci
    rw [trieState_cityCountMap, trieState_cityIpCountMap, GoMap.mem_keys_iff,
      GoMap.mem_keys_iff, countHit_foldl_isSome, bump2_foldl_eq, bumpWith_foldl_isSome]
    simp [List.map_map, Function.comp_def]
  · intro c
    have h1 : (trieState ls ts).countryCountMap.count c =
        (((ts.map fun t => t.1).count c : Nat) : Int) := count_countHit_foldl _ c
    have h2 := total_bump2_foldl (ts.map fun t => (t.1, t.2.1)) c
    rw [h1]
    unfold MostVisitedLocationsHandler.cityCountMap trieState
    simp only
    rw [h2, List.map_map]
    rfl
  · intro c ci
    unfold MostVisitedLocationsHandler.cityCount MostVisitedLocationsHandler.ipCountMap
    have h1 := trieState_cityCountMap ls ts c
    unfold MostVisitedLocationsHandler.cityCountMap at h1
    rw [h1, trieState_cityIpCountMap, count_countHit_foldl, total_bump2_foldl, List.map_map]
    rfl
  · show GoMap.total ((ts.map fun t => t.1).foldl countHit []) = (ts.length : Int)
    rw [total_countHit_foldl]
    simp [GoMap.total]
theorem GoMap.Grows_refl {V : Type} (R : V → V → Prop) (hrefl : ∀ v, R v v) (m : GoMap V) :
    GoMap.Grows R m m :=
  fun _ v h => ⟨v, h, hrefl v⟩

theorem Grows_countHit (m : GoMap Int) (k : List Byte) :
    GoMap.Grows (fun a b : Int => a ≤ b) m (countHit m k) := by
  intro k1 v h
  rw [countHit_get?]
  by_cases hk : k = k1
  · subst hk
    refine ⟨v + 1, by simp [h], ?_⟩
    simp
  · exact ⟨v, by simp [hk, h], le_refl v⟩

theorem Grows_bumpWith {V β : Type} (R : V → V → Prop) (f : V → β → V) (e : V)
    (hrefl : ∀ v, R v v) (hf : ∀ v x, R v (f v x)) (m : GoMap V) (a : List Byte) (x : β) :
    GoMap.Grows R m (GoMap.bumpWith f e m a x) := by
  intro k v h
  rw [GoMap.get?_bumpWith]
  by_cases hk : a = k
  · subst hk
    exact ⟨f v x, by simp [h], hf v x⟩
  · exact ⟨v, by simp [hk, h], hrefl v⟩

theorem Grows_bump2 (m : GoMap (GoMap Int)) (p : List Byte × List Byte) :
    GoMap.Grows (GoMap.Grows (fun a b : Int => a ≤ b)) m (bump2 m p) :=
  Grows_bumpWith _ countHit [] (GoMap.Grows_refl _ (fun v => le_refl v))
    (fun v x => Grows_countHit v x) m p.1 p.2

theorem Grows_bump3 (m : GoMap (GoMap (GoMap Int))) (t : List Byte × List Byte × List Byte) :
    GoMap.Grows (GoMap.Grows (GoMap.Grows (fun a b : Int => a ≤ b))) m (bump3 m t) :=
  Grows_bumpWith _ bump2 []
    (GoMap.Grows_refl _ (GoMap.Grows_refl _ (fun v => le_refl v)))
    (fun v x => Grows_bump2 v x) m t.1 t.2

theorem located_length {F : Type} (query : List Byte → Option (List Byte × List Byte)) :
    ∀ rs : List (LogInfo F), rs.all (fun r => (query r.RemoteAddr).isSome) = true →
      (rs.filterMap (located query)).length = rs.length := by
  intro rs
  induction rs with
  | nil => intro _; rfl
  | cons r rs ih =>
    intro h
    simp only [List.all_cons, Bool.and_eq_true] at h
    obtain ⟨loc, hloc⟩ := Option.isSome_iff_exists.mp h.1
    have : located query r = some (loc.1, loc.2, r.RemoteAddr) := by
      simp [located, hloc]
    rw [List.filterMap_cons, this]
    simp [ih h.2]

/-- A successful `Input` on the maps that have counted `ts` gives the maps that have
counted one more located hit. -/
theorem trieState_input {F : Type} (query : List Byte → Option (List Byte × List Byte))
    (ls : Int) (ts : List (List Byte × List Byte × List Byte)) (r : LogInfo F)
    (handler1 : MostVisitedLocationsHandler)
    (h : MostVisitedLocationsHandler.Input query (trieState ls ts) (some r) = .ok handler1) :
    ∃ t, handler1 = trieState ls (ts ++ [t]) := by
  have hfeed := MostVisitedLocationsHandler.feed_eq query ls [r] ts
  simp only [MostVisitedLocationsHandler.feed, h, Outcome.bind] at hfeed
  cases hq : query r.RemoteAddr with
  | none => simp [hq] at hfeed
  | some loc =>
    simp only [List.all_cons, hq, Option.isSome_some, List.all_nil, Bool.and_self, if_true,
      List.filterMap_cons, located, Option.map_some', List.filterMap_nil,
      Outcome.ok.injEq] at hfeed
    exact ⟨_, hfeed⟩

/-- C22: the rollup invariant of `MostVisitedLocationsHandler`. In every state that `Input`
calls reach from a fresh handler, for every resolver, every map has one entry per key,
the three maps hold the same countries and per country the same cities, the count of a
country is the sum of the counts of its cities, the count of a city is the sum of the
counts of its addresses, and the counts of the countries add up to the number of calls;
one more `Input` call removes no key and lowers no count, and keeps the rollup. -/
theorem locations_rollup_invariant {F : Type}
    (query : List Byte → Option (List Byte × List Byte)) (ls : Int)
    (rs : List (LogInfo F)) (handler : MostVisitedLocationsHandler)
    (hfeed : MostVisitedLocationsHandler.feed query (NewMostVisitedLocationsHandler ls) rs =
      .ok handler) :
    Rollup handler rs.length ∧
    ∀ (r : LogInfo F) (handler1 : MostVisitedLocationsHandler),
      MostVisitedLocationsHandler.Input query handler (some r) = .ok handler1 →
      handler.GrowsTo handler1 ∧ Rollup handler1 (rs.length + 1) := by
  have h0 : NewMostVisitedLocationsHandler ls = trieState ls [] := rfl
  rw [h0, MostVisitedLocationsHandler.feed_eq] at hfeed
  split at hfeed
  · next hall =>
    simp only [List.nil_append, Outcome.ok.injEq] at hfeed
    have hlen := located_length query rs hall
    subst hfeed
    constructor
    · have := trieState_rollup ls (rs.filterMap (located query))
      rwa [hlen] at this
    · intro r handler1 hin
      obtain ⟨t, ht⟩ := trieState_input query ls _ r handler1 hin
      subst ht
      constructor
      · rw [trieState_snoc]
        exact ⟨Grows_countHit _ _, Grows_bump2 _ _, Grows_bump3 _ _⟩
      · have := trieState_rollup ls (rs.filterMap (located query) ++ [t])
        rwa [List.length_append, hlen] at this
  · cases hfeed

/-- The three sample hits, from two addresses in two cities of one country. -/
theorem locations_rollup_invariant_witness :
    MostVisitedLocationsHandler.feed sampleResolver (NewMostVisitedLocationsHandler 1)
        sampleHits = .ok sampleLocations ∧
    Rollup sampleLocations sampleHits.length ∧
    ∀ (r : LogInfo Unit) (handler1 : MostVisitedLocationsHandler),
      MostVisitedLocationsHandler.Input sampleResolver sampleLocations (some r) =
        .ok handler1 →
      sampleLocations.GrowsTo handler1 ∧ Rollup handler1 (sampleHits.length + 1) :=
  ⟨by rfl, locations_rollup_invariant sampleResolver 1 sampleHits sampleLocations (by rfl)⟩

theorem newLogParser_cases {F : Type} (fl : Float64Ops F)
    (Unmarshal : List Byte → Option (LogInfo F)) (logFormat : List Byte)
    (parser : List Byte → Outcome (Option (LogInfo F)))
    (h : newLogParser fl Unmarshal logFormat = .ok parser) :
    parser = CombinedParser.asParser fl ∨ parser = JsonParser.asParser Unmarshal := by
  unfold newLogParser at h
  split at h
  · simp only [Outcome.ok.injEq] at h
    exact Or.inl h.symm
  · split at h
    · simp only [Outcome.ok.injEq] at h
      exact Or.inr h.symm
    · cases h

/-- On every line that is not empty, each of the two parsers that `newLogParser` builds
returns a record or ends the run. -/
theorem installed_parser_total {F : Type} (fl : Float64Ops F)
    (Unmarshal : List Byte → Option (LogInfo F)) (logFormat : List Byte)
    (parser : List Byte → Outcome (Option (LogInfo F)))
    (h : newLogParser fl Unmarshal logFormat = .ok parser) (line : List Byte)
    (hne : line ≠ []) :
    parser line = Fatal ∨ ∃ r, parser line = .ok (some r) := by
  rcases newLogParser_cases fl Unmarshal logFormat parser h with hp | hp
  · subst hp
    unfold CombinedParser.asParser CombinedParser.ParseLog
    rw [ParseLogWith_eq]
    cases hs : splitFields combinedDelimiters line with
    | none => exact Or.inl rfl
    | some fs =>
      obtain ⟨a0, a1, a2, a3, a4, a5, a6, a7, rfl⟩ := splitFields_combined_shape line fs hs
      simp only [List.get?_cons_succ, List.get?_cons_zero]
      cases Atoi a4 with
      | none => exact Or.inl rfl
      | some status =>
        cases Atoi a5 with
        | none => exact Or.inl rfl
        | some bytes => exact Or.inr ⟨_, rfl⟩
  · subst hp
    unfold JsonParser.asParser JsonParser.ParseLog
    have hpos : 0 < line.length := List.length_pos.mpr hne
    have hs : slice line 0 ((line.length : Int) - 1) = some (line.take (line.length - 1)) := by
      have := slice_nat line 0 (line.length - 1) (Nat.zero_le _) (by omega)
      have hc : ((line.length - 1 : Nat) : Int) = (line.length : Int) - 1 := by omega
      rw [hc] at this
      simpa using this
    rw [hs]
    cases hU : Unmarshal (line.take (line.length - 1)) with
    | none => left; simp [hU, Outcome.map]
    | some r => right; exact ⟨r, by simp [hU, Outcome.map]⟩

/-- C18 (amended): the pipeline has no skip on a grammar mismatch. The parser that
`newLogParser` installs is the `CombinedParser` or the `JsonParser`; on every line that
the read loop hands over (none is empty) it returns a record or ends the run, never nil,
and when it ends the run so does the per-line step, in `testProcess` and in `parseLog`;
a line is dropped only after it has been parsed to a record that the time window
excludes. -/
theorem mismatch_aborts_the_run {F : Type} (fl : Float64Ops F)
    (Unmarshal : List Byte → Option (LogInfo F)) (logFormat : List Byte)
    (parser : List Byte → Outcome (Option (LogInfo F)))
    (h : newLogParser fl Unmarshal logFormat = .ok parser)
    (layout : List Byte → Option Time) (since util : Time) (line : List Byte)
    (hne : line ≠ []) :
    NoSkipOnMismatch parser layout since util line := by
  have htot := installed_parser_total fl Unmarshal logFormat parser h line hne
  refine ⟨htot, ?_, ?_⟩
  · intro hf
    unfold testProcessTask mergeTask
    rw [hf]
    exact ⟨rfl, rfl⟩
  · intro hd
    rcases htot with hf | ⟨r, hr⟩
    · unfold testProcessTask at hd
      rw [hf] at hd
      cases hd
    · refine ⟨r, hr, ?_⟩
      unfold testProcessTask at hd
      rw [hr] at hd
      exact hd

set_option maxRecDepth 1000000 in
/-- The line `hello` under the combined parser: no delimiter is found and the run ends. -/
theorem mismatch_aborts_the_run_witness :
    newLogParser unitFloat sampleUnmarshal (ascii "combined") =
      .ok (CombinedParser.asParser unitFloat) ∧
    ascii "hello\n" ≠ [] ∧
    CombinedParser.asParser unitFloat (ascii "hello\n") = Fatal ∧
    NoSkipOnMismatch (CombinedParser.asParser unitFloat) sampleLayout since2024 0
      (ascii "hello\n") :=
  ⟨rfl, by decide, by decide,
    mismatch_aborts_the_run unitFloat sampleUnmarshal (ascii "combined")
      (CombinedParser.asParser unitFloat) rfl sampleLayout since2024 0 (ascii "hello\n")
      (by decide)⟩

end NginxLogAnalyzer
